import Mathlib

/-!
# A line-numbered BASIC interpreter: program store, statements, dispatcher, run loop

Shallow embedding of `src/Basic/program.cpp`, `src/Basic/statement.cpp` and
`src/Basic/Basic.cpp`.

* `std::map<int, V>` is an association list whose keys are kept in strictly
  ascending order (`IntMap`); the operations do not require the order, separate
  lemmas show that they keep it.
* C++ `int` values are `Int`; the code under study performs no arithmetic on
  them (only comparisons and the range test of `INPUT`).
* A thrown `ErrorException` is a `Status.error msg` returned together with the
  state reached at the throw, so that effects performed before the throw stay
  visible.
* `std::cin` is the list of lines still to be read, `std::cout` the text
  written so far.
* Loops that need not terminate (`runProgram`) take a fuel argument and
  report `Status.outOfFuel` when it is exhausted.
-/

namespace Basic

/-! ## `std::map<int, V>` -/

/-- An ordered map from `int` keys, as an association list in ascending key order. -/
abbrev IntMap (V : Type) := List (Int × V)

namespace IntMap

variable {V : Type}

/-- The keys, in iteration order. -/
def keys (m : IntMap V) : List Int := m.map Prod.fst

/-- Representation invariant of `std::map`: keys strictly ascending. -/
def WF (m : IntMap V) : Prop := (keys m).Pairwise (fun a b => a < b)

/-- The value found by `m.find(k)`, `none` standing for `m.end()`. -/
def find : IntMap V → Int → Option V
  | [], _ => none
  | (k', v) :: t, k => if k' = k then some v else find t k

/-- The map after `m[k] = v`: overwrite in place, or insert at the ordered position. -/
def assign : IntMap V → Int → V → IntMap V
  | [], k, v => [(k, v)]
  | (k', v') :: t, k, v =>
    if k < k' then (k, v) :: (k', v') :: t
    else if k = k' then (k, v) :: t
    else (k', v') :: assign t k v

/-- The map after `m.emplace(k, v)`: insert unless the key is already present. -/
def emplace (m : IntMap V) (k : Int) (v : V) : IntMap V :=
  match find m k with
  | some _ => m
  | none => assign m k v

/-- The map after erasing key `k`. -/
def erase (m : IntMap V) (k : Int) : IntMap V := m.filter (fun e => decide (e.1 ≠ k))

/-- The key at `m.begin()`. -/
def firstKey : IntMap V → Option Int
  | [] => none
  | (k, _) :: _ => some k

/-- The key at `m.upper_bound(k)`: the first key, in iteration order, greater than `k`. -/
def upperBound : IntMap V → Int → Option Int
  | [], _ => none
  | (k', _) :: t, k => if k < k' then some k' else upperBound t k

end IntMap

/-! ## Program store (`program.cpp`) -/

/-- The `Program` object; `S` is the type of parsed statements held by the cache. -/
structure Program (S : Type) where
  sourceLines : IntMap String
  parsedStmts : IntMap S
  pendingJump : Int
  stopFlag : Bool
  deriving DecidableEq

namespace Program

variable {S : Type}

/-- The registers after `resetControl()`. -/
def resetControl (p : Program S) : Program S :=
  { p with pendingJump := -2, stopFlag := false }

/-- A freshly constructed `Program`: both tables empty, no jump pending, not stopped (the
initial values of the two registers are set in `program.hpp`, which is not among the
sources; the spec has the jump "absent by default" and the flag "false by default", and
`hasJump` reads `-2` as absent). -/
def empty : Program S :=
  { sourceLines := [], parsedStmts := [], pendingJump := -2, stopFlag := false }

/-- The member function `Program::clear`. -/
def clear (p : Program S) : Program S :=
  resetControl { p with parsedStmts := [], sourceLines := [] }

/-- The member function `Program::addSourceLine`. -/
def addSourceLine (p : Program S) (lineNumber : Int) (line : String) : Program S :=
  let p1 := { p with sourceLines := p.sourceLines.assign lineNumber line }
  match p1.parsedStmts.find lineNumber with
  | some _ => { p1 with parsedStmts := p1.parsedStmts.erase lineNumber }
  | none => p1

/-- The member function `Program::removeSourceLine`. -/
def removeSourceLine (p : Program S) (lineNumber : Int) : Program S :=
  let p1 :=
    match p.sourceLines.find lineNumber with
    | some _ => { p with sourceLines := p.sourceLines.erase lineNumber }
    | none => p
  match p1.parsedStmts.find lineNumber with
  | some _ => { p1 with parsedStmts := p1.parsedStmts.erase lineNumber }
  | none => p1

/-- The member function `Program::getSourceLine`. -/
def getSourceLine (p : Program S) (lineNumber : Int) : String :=
  match p.sourceLines.find lineNumber with
  | none => ""
  | some s => s

/-- The member function `Program::setParsedStatement`: `Except.error` is the thrown message, the store
being left as it was; `Except.ok` carries the updated store. -/
def setParsedStatement (p : Program S) (lineNumber : Int) (stmt : S) :
    Except String (Program S) :=
  match p.sourceLines.find lineNumber with
  | none => .error "LINE NUMBER ERROR"
  | some _ =>
    match p.parsedStmts.find lineNumber with
    | some _ => .ok { p with parsedStmts := p.parsedStmts.assign lineNumber stmt }
    | none => .ok { p with parsedStmts := p.parsedStmts.emplace lineNumber stmt }

/-- The member function `Program::getParsedStatement`, `none` standing for `nullptr`. -/
def getParsedStatement (p : Program S) (lineNumber : Int) : Option S :=
  p.parsedStmts.find lineNumber

/-- The member function `Program::getFirstLineNumber`. -/
def getFirstLineNumber (p : Program S) : Int :=
  match p.sourceLines.firstKey with
  | none => -1
  | some k => k

/-- The member function `Program::getNextLineNumber`. -/
def getNextLineNumber (p : Program S) (lineNumber : Int) : Int :=
  match p.sourceLines.upperBound lineNumber with
  | none => -1
  | some k => k

/-- The member function `Program::requestJump`. -/
def requestJump (p : Program S) (lineNumber : Int) : Program S :=
  { p with pendingJump := lineNumber }

/-- The member function `Program::hasJump`. -/
def hasJump (p : Program S) : Bool := p.pendingJump != -2

/-- The member function `Program::consumeJump`: the returned target and the store with the register cleared. -/
def consumeJump (p : Program S) : Int × Program S :=
  (p.pendingJump, { p with pendingJump := -2 })

/-- The member function `Program::requestStop`. -/
def requestStop (p : Program S) : Program S := { p with stopFlag := true }

/-- The member function `Program::stopRequested`. -/
def stopRequested (p : Program S) : Bool := p.stopFlag

/-- The store after the call `setParsedStatement(lineNumber, stmt)`, whether it returned
or threw. -/
def afterSetParsedStatement (p : Program S) (lineNumber : Int) (stmt : S) : Program S :=
  match p.setParsedStatement lineNumber stmt with
  | .ok p1 => p1
  | .error _ => p

/-- Every key of the parse cache is a key of the source table. -/
def CacheInSource (p : Program S) : Prop :=
  ∀ n, n ∈ p.parsedStmts.keys → n ∈ p.sourceLines.keys

end Program

/-! ## External collaborators -/

/-- Token classes of the lexical scanner. -/
inductive TokenType where
  | EOF | SEPARATOR | WORD | NUMBER | STRING | OPERATOR
  deriving DecidableEq, Repr

/-- Modelled from the spec: the variable environment (`evalstate.hpp` is not part of
the sources), "a mapping from variable name to signed integer, supporting get (error
if undefined), set, and clear-all". -/
abbrev EvalState := List (String × Int)

namespace EvalState

/-- Modelled from the spec: the "get" of the variable environment, `none` when undefined. -/
def getValue : EvalState → String → Option Int
  | [], _ => none
  | (x, v) :: t, var => if x = var then some v else getValue t var

/-- Modelled from the spec: the "set" of the variable environment. -/
def setValue : EvalState → String → Int → EvalState
  | [], var, val => [(var, val)]
  | (x, v) :: t, var, val => if x = var then (x, val) :: t else (x, v) :: setValue t var val

/-- Modelled from the spec: the "clear-all" of the variable environment. -/
def Clear (_ : EvalState) : EvalState := []

end EvalState

/-- The collaborators that the sources only use through their interface: the lexical
scanner (`Utils/tokenScanner.hpp`), `stringToInteger` (`Utils/strlib.hpp`) and the
expression parser and evaluator (`parser.hpp`, `exp.hpp`).  The development is
parametric in them. -/
structure Externals where
  /-- The expression trees built by `parseExp`. -/
  Expression : Type
  /-- The tokens a `TokenScanner` set up with `ignoreWhitespace()` and `scanNumbers()`
  delivers for an input text, in order. -/
  tokenize : String → List String
  /-- `TokenScanner::getTokenType`. -/
  getTokenType : String → TokenType
  /-- `stringToInteger`, which throws on an ill-formed numeral. -/
  stringToInteger : String → Except String Int
  /-- `parseExp` applied to a scanner holding the given tokens. -/
  parseExp : List String → Except String Expression
  /-- `Expression::eval`. -/
  eval : Expression → EvalState → Except String Int

/-- A `TokenScanner` in use: the tokens it has yet to deliver, saved tokens first. -/
abbrev TokenScanner := List String

namespace TokenScanner

/-- The member function `TokenScanner::hasMoreTokens`. -/
def hasMoreTokens (scanner : TokenScanner) : Bool := !scanner.isEmpty

/-- The member function `TokenScanner::nextToken`: the token (empty at the end of the input) and the
scanner after it. -/
def nextToken : TokenScanner → String × TokenScanner
  | [] => ("", [])
  | t :: rest => (t, rest)

/-- The member function `TokenScanner::saveToken`. -/
def saveToken (scanner : TokenScanner) (token : String) : TokenScanner := token :: scanner

end TokenScanner

/-- The C function `std::isspace` in the C locale. -/
def isspace (c : Char) : Bool :=
  c = ' ' || c = '\t' || c = '\n' || c = '\r' || c.toNat = 11 || c.toNat = 12

/-- The C function `std::isdigit` in the C locale. -/
def isdigit (c : Char) : Bool := 48 ≤ c.toNat && c.toNat ≤ 57

/-- The C function `std::toupper` in the C locale. -/
def toupper (c : Char) : Char :=
  if 97 ≤ c.toNat ∧ c.toNat ≤ 122 then Char.ofNat (c.toNat - 32) else c

/-- Modelled from the spec: `toUpperCase` of `Utils/strlib.hpp` ("dispatched by
uppercased keyword"). -/
def toUpperCase (s : String) : String := String.mk (s.data.map toupper)

/-- Modelled from the spec: `equalsIgnoreCase` of `Utils/strlib.hpp` ("a
case-insensitive `THEN` keyword"). -/
def equalsIgnoreCase (s1 s2 : String) : Bool := toUpperCase s1 = toUpperCase s2

/-- Modelled from the spec: `trim` of `Utils/strlib.hpp` ("trims it"), which removes
the white space at both ends. -/
def trim (s : String) : String :=
  String.mk ((s.data.reverse.dropWhile isspace).reverse.dropWhile isspace)

/-- The value of a run of decimal digits read left to right from the value `acc`. -/
def decimalValue : List Char → Nat → Nat
  | [], acc => acc
  | c :: cs, acc => decimalValue cs (acc * 10 + (c.toNat - 48))

def INT32_MIN : Int := -2147483648

def INT32_MAX : Int := 2147483647

/-- The C function `std::stoll(s)` in base 10: leading white space, an optional sign and the longest
run of digits; `none` when it throws (`invalid_argument` without a digit,
`out_of_range` outside `long long`). -/
def stoll (s : String) : Option Int :=
  let body := s.data.dropWhile isspace
  let (neg, rest) :=
    match body with
    | c :: cs => if c = '-' then (true, cs) else if c = '+' then (false, cs) else (false, c :: cs)
    | [] => (false, [])
  let digits := rest.takeWhile isdigit
  if digits = [] then none
  else
    let v : Int := if neg then -(decimalValue digits 0 : Int) else (decimalValue digits 0 : Int)
    if v < -9223372036854775808 ∨ v > 9223372036854775807 then none else some v

/-! ## Statements (`statement.cpp`) -/

/-- The function `isIntegerString`. -/
def isIntegerString (s : String) : Bool :=
  match s.data with
  | [] => false
  | c :: cs =>
    let body := if c = '+' ∨ c = '-' then cs else c :: cs
    if body = [] then false else body.all isdigit

/-- The seven statement classes with their data members; `E` is the expression type. -/
inductive Statement (E : Type) where
  | RemStatement
  | LetStatement (var : String) (rhs : E)
  | PrintStatement (exp : E)
  | InputStatement (var : String)
  | EndStatement
  | GotoStatement (target : Int)
  | IfStatement (lhs : E) (op : String) (rhs : E) (target : Int)
  deriving DecidableEq

open TokenScanner

/-- The constructor `RemStatement::RemStatement`: the remaining tokens are read and dropped. -/
def RemStatement.construct {E : Type} (_ : TokenScanner) : Except String (Statement E) :=
  .ok .RemStatement

/-- The constructor `LetStatement::LetStatement`. -/
def LetStatement.construct (X : Externals) (scanner : TokenScanner) :
    Except String (Statement X.Expression) :=
  let (t, scanner1) := nextToken scanner
  if t = "" then .error "SYNTAX ERROR"
  else if X.getTokenType t ≠ .WORD then .error "SYNTAX ERROR"
  else
    let (eq, scanner2) := nextToken scanner1
    if eq ≠ "=" then .error "SYNTAX ERROR"
    else
      match X.parseExp scanner2 with
      | .error e => .error e
      | .ok rhs => .ok (.LetStatement t rhs)

/-- The constructor `PrintStatement::PrintStatement`. -/
def PrintStatement.construct (X : Externals) (scanner : TokenScanner) :
    Except String (Statement X.Expression) :=
  match X.parseExp scanner with
  | .error e => .error e
  | .ok exp => .ok (.PrintStatement exp)

/-- The constructor `InputStatement::InputStatement`. -/
def InputStatement.construct (X : Externals) (scanner : TokenScanner) :
    Except String (Statement X.Expression) :=
  let (t, _) := nextToken scanner
  if t = "" then .error "SYNTAX ERROR"
  else if X.getTokenType t ≠ .WORD ∧ X.getTokenType t ≠ .NUMBER then .error "SYNTAX ERROR"
  else .ok (.InputStatement t)

/-- The constructor `EndStatement::EndStatement`. -/
def EndStatement.construct {E : Type} (scanner : TokenScanner) : Except String (Statement E) :=
  if hasMoreTokens scanner then .error "SYNTAX ERROR" else .ok .EndStatement

/-- The constructor `GotoStatement::GotoStatement`. -/
def GotoStatement.construct (X : Externals) (scanner : TokenScanner) :
    Except String (Statement X.Expression) :=
  let (t, scanner1) := nextToken scanner
  if t = "" ∨ X.getTokenType t ≠ .NUMBER then .error "SYNTAX ERROR"
  else
    match X.stringToInteger t with
    | .error e => .error e
    | .ok target =>
      if hasMoreTokens scanner1 then .error "SYNTAX ERROR" else .ok (.GotoStatement target)

/-- First loop of `IfStatement::IfStatement`: accumulates the left operand text until a
relational token; returns the text, the operator (empty if none was met) and the
scanner after the operator. -/
def IfStatement.readLhs : TokenScanner → String → String × String × TokenScanner
  | [], lhsText => (lhsText, "", [])
  | token :: scanner, lhsText =>
    if token = "<" ∨ token = ">" ∨ token = "=" then
      if token = "<" ∧ hasMoreTokens scanner then
        let (t2, scanner1) := nextToken scanner
        if t2 = "=" then (lhsText, "<=", scanner1)
        else if t2 = ">" then (lhsText, "<>", scanner1)
        else (lhsText, "<", saveToken scanner1 t2)
      else if token = ">" ∧ hasMoreTokens scanner then
        let (t2, scanner1) := nextToken scanner
        if t2 = "=" then (lhsText, ">=", scanner1)
        else (lhsText, ">", saveToken scanner1 t2)
      else (lhsText, token, scanner)
    else IfStatement.readLhs scanner (lhsText ++ token ++ " ")

/-- Second loop of `IfStatement::IfStatement`: accumulates the right operand text until
`THEN`; returns the text, `seenThen` and the scanner after `THEN`. -/
def IfStatement.readRhs : TokenScanner → String → String × Bool × TokenScanner
  | [], rhsText => (rhsText, false, [])
  | t :: scanner, rhsText =>
    if equalsIgnoreCase t "THEN" then (rhsText, true, scanner)
    else IfStatement.readRhs scanner (rhsText ++ t ++ " ")

/-- The constructor `IfStatement::IfStatement`. -/
def IfStatement.construct (X : Externals) (scanner : TokenScanner) :
    Except String (Statement X.Expression) :=
  let (lhsText, op, scanner1) := IfStatement.readLhs scanner ""
  if op = "" then .error "SYNTAX ERROR"
  else
    let (rhsText, seenThen, scanner2) := IfStatement.readRhs scanner1 ""
    if !seenThen then .error "SYNTAX ERROR"
    else
      let (tline, scanner3) := nextToken scanner2
      if tline = "" ∨ X.getTokenType tline ≠ .NUMBER then .error "SYNTAX ERROR"
      else
        match X.stringToInteger tline with
        | .error e => .error e
        | .ok target =>
          if hasMoreTokens scanner3 then .error "SYNTAX ERROR"
          else
            match X.parseExp (X.tokenize lhsText) with
            | .error e => .error e
            | .ok lhs =>
              match X.parseExp (X.tokenize rhsText) with
              | .error e => .error e
              | .ok rhs => .ok (.IfStatement lhs op rhs target)

/-- How a call ended: normally, by a thrown `ErrorException`, by `std::exit`, or (for
the run loop of the model only) with the fuel used up. -/
inductive Status where
  | ok
  | error (msg : String)
  | exit
  | outOfFuel
  deriving DecidableEq, Repr

deriving instance DecidableEq for Except

/-- Everything a statement can read or write: the variable environment, the program
store, standard input and standard output. -/
structure World (E : Type) where
  state : EvalState
  program : Program (Statement E)
  cin : List String
  cout : String
  deriving DecidableEq

/-- The loop of `InputStatement::execute` on the lines still on standard input: the
environment, the unread lines and the output when it returns. -/
def InputStatement.loop (var : String) : List String → EvalState → String →
    EvalState × List String × String
  | [], state, cout => (state, [], cout ++ " ? ")
  | line :: rest, state, cout =>
    let cout1 := cout ++ " ? "
    let s := trim line
    if !isIntegerString s then
      InputStatement.loop var rest state (cout1 ++ "INVALID NUMBER" ++ "\n")
    else
      let cout2 := cout1 ++ s ++ "\n"
      match stoll s with
      | none => InputStatement.loop var rest state (cout2 ++ "INVALID NUMBER" ++ "\n")
      | some v =>
        if v < INT32_MIN ∨ v > INT32_MAX then
          InputStatement.loop var rest state (cout2 ++ "INVALID NUMBER" ++ "\n")
        else (state.setValue var v, rest, cout2)

/-- The comparison computed by `IfStatement::execute` for the operator text `op`. -/
def IfStatement.cond (op : String) (lv rv : Int) : Bool :=
  if op = "=" then decide (lv = rv)
  else if op = "<" then decide (lv < rv)
  else if op = ">" then decide (lv > rv)
  else if op = "<=" then decide (lv ≤ rv)
  else if op = ">=" then decide (lv ≥ rv)
  else if op = "<>" then decide (lv ≠ rv)
  else false

/-- The virtual `Statement::execute`, by statement class. -/
def Statement.execute (X : Externals) (stmt : Statement X.Expression)
    (w : World X.Expression) : Status × World X.Expression :=
  match stmt with
  | .RemStatement => (.ok, w)
  | .LetStatement var rhs =>
    match X.eval rhs w.state with
    | .error e => (.error e, w)
    | .ok val => (.ok, { w with state := w.state.setValue var val })
  | .PrintStatement exp =>
    match X.eval exp w.state with
    | .error e => (.error e, w)
    | .ok val => (.ok, { w with cout := w.cout ++ toString val ++ "\n" })
  | .InputStatement var =>
    let (state, cin, cout) := InputStatement.loop var w.cin w.state w.cout
    (.ok, { w with state := state, cin := cin, cout := cout })
  | .EndStatement => (.ok, { w with program := w.program.requestStop })
  | .GotoStatement target =>
    if w.program.getSourceLine target = "" then (.error "LINE NUMBER ERROR", w)
    else (.ok, { w with program := w.program.requestJump target })
  | .IfStatement lhs op rhs target =>
    match X.eval lhs w.state with
    | .error e => (.error e, w)
    | .ok lv =>
      match X.eval rhs w.state with
      | .error e => (.error e, w)
      | .ok rv =>
        if IfStatement.cond op lv rv then
          if w.program.getSourceLine target = "" then (.error "LINE NUMBER ERROR", w)
          else (.ok, { w with program := w.program.requestJump target })
        else (.ok, w)

/-! ## Dispatcher and run loop (`Basic.cpp`) -/

/-- The function `parseStatementByKeyword`. -/
def parseStatementByKeyword (X : Externals) (kw : String) (scanner : TokenScanner) :
    Except String (Statement X.Expression) :=
  if kw = "REM" then RemStatement.construct scanner
  else if kw = "LET" then LetStatement.construct X scanner
  else if kw = "PRINT" then PrintStatement.construct X scanner
  else if kw = "INPUT" then InputStatement.construct X scanner
  else if kw = "END" then EndStatement.construct scanner
  else if kw = "GOTO" then GotoStatement.construct X scanner
  else if kw = "IF" then IfStatement.construct X scanner
  else .error "SYNTAX ERROR"

/-- The function `ensureParsedForLine`: the status and the store at the return or at the throw. -/
def ensureParsedForLine (X : Externals) (program : Program (Statement X.Expression))
    (lineNumber : Int) : Status × Program (Statement X.Expression) :=
  match program.getParsedStatement lineNumber with
  | some _ => (.ok, program)
  | none =>
    let src := program.getSourceLine lineNumber
    let s := X.tokenize src
    let (lnTok, s1) := nextToken s
    if X.getTokenType lnTok ≠ .NUMBER then (.error "SYNTAX ERROR", program)
    else if !hasMoreTokens s1 then (.error "SYNTAX ERROR", program)
    else
      let (kw, s2) := nextToken s1
      if X.getTokenType kw ≠ .WORD then (.error "SYNTAX ERROR", program)
      else
        match parseStatementByKeyword X (toUpperCase kw) s2 with
        | .error e => (.error e, program)
        | .ok stmt =>
          match program.setParsedStatement lineNumber stmt with
          | .error e => (.error e, program)
          | .ok program1 => (.ok, program1)

/-- The `while` loop of `runProgram`, at most `fuel` iterations. -/
def runLoop (X : Externals) : Nat → Int → World X.Expression → Status × World X.Expression
  | 0, current, w => if current = -1 then (.ok, w) else (.outOfFuel, w)
  | fuel + 1, current, w =>
    if current = -1 then (.ok, w)
    else
      match ensureParsedForLine X w.program current with
      | (.ok, program1) =>
        let w1 := { w with program := program1 }
        match program1.getParsedStatement current with
        | none => (.error "SYNTAX ERROR", w1)
        | some stmt =>
          match stmt.execute X w1 with
          | (.ok, w2) =>
            if w2.program.stopRequested then (.ok, w2)
            else if w2.program.hasJump then
              let (target, program3) := w2.program.consumeJump
              let w3 := { w2 with program := program3 }
              if program3.getSourceLine target = "" then (.error "LINE NUMBER ERROR", w3)
              else runLoop X fuel target w3
            else runLoop X fuel (w2.program.getNextLineNumber current) w2
          | (st, w2) => (st, w2)
      | (st, program1) => (st, { w with program := program1 })

/-- The function `runProgram`, its loop bounded by `fuel` iterations. -/
def runProgram (X : Externals) (fuel : Nat) (w : World X.Expression) (startLine : Int) :
    Status × World X.Expression :=
  runLoop X fuel startLine { w with program := w.program.resetControl }

/-- The `LIST` loop of `processLine`, at most `fuel` iterations, started at line `cur`
with the text `acc.2` on standard output.  `acc.1` records the line numbers visited so
far (a ghost of the model, the code only prints). -/
def listLoop {S : Type} (program : Program S) :
    Nat → Int → List Int × String → Status × (List Int × String)
  | 0, cur, acc => if cur = -1 then (.ok, acc) else (.outOfFuel, acc)
  | fuel + 1, cur, acc =>
    if cur = -1 then (.ok, acc)
    else listLoop program fuel (program.getNextLineNumber cur)
      (acc.1 ++ [cur], acc.2 ++ program.getSourceLine cur ++ "\n")

/-- The function `processLine`; `fuel` bounds the iterations of each loop it starts. -/
def processLine (X : Externals) (fuel : Nat) (line : String) (w : World X.Expression) :
    Status × World X.Expression :=
  let scanner := X.tokenize line
  if !hasMoreTokens scanner then (.ok, w)
  else
    let (first, scanner1) := nextToken scanner
    let t := X.getTokenType first
    if t = .NUMBER then
      match X.stringToInteger first with
      | .error e => (.error e, w)
      | .ok lineNumber =>
        if !hasMoreTokens scanner1 then
          (.ok, { w with program := w.program.removeSourceLine lineNumber })
        else
          let w1 := { w with program := w.program.addSourceLine lineNumber line }
          let (kw, scanner2) := nextToken scanner1
          if X.getTokenType kw ≠ .WORD then (.error "SYNTAX ERROR", w1)
          else
            match parseStatementByKeyword X (toUpperCase kw) scanner2 with
            | .error e => (.error e, w1)
            | .ok stmt =>
              match w1.program.setParsedStatement lineNumber stmt with
              | .error e => (.error e, w1)
              | .ok program2 => (.ok, { w1 with program := program2 })
    else if t = .WORD then
      let cmd := toUpperCase first
      if cmd = "LET" then
        match LetStatement.construct X scanner1 with
        | .error e => (.error e, w)
        | .ok stmt => stmt.execute X w
      else if cmd = "PRINT" then
        match PrintStatement.construct X scanner1 with
        | .error e => (.error e, w)
        | .ok stmt => stmt.execute X w
      else if cmd = "INPUT" then
        match InputStatement.construct X scanner1 with
        | .error e => (.error e, w)
        | .ok stmt => stmt.execute X w
      else if cmd = "LIST" then
        if hasMoreTokens scanner1 then (.error "SYNTAX ERROR", w)
        else
          let r := listLoop w.program fuel w.program.getFirstLineNumber ([], w.cout)
          (r.1, { w with cout := r.2.2 })
      else if cmd = "CLEAR" then
        if hasMoreTokens scanner1 then (.error "SYNTAX ERROR", w)
        else (.ok, { w with program := w.program.clear, state := w.state.Clear })
      else if cmd = "RUN" then
        if hasMoreTokens scanner1 then (.error "SYNTAX ERROR", w)
        else
          let start := w.program.getFirstLineNumber
          if start ≠ -1 then runProgram X fuel w start else (.ok, w)
      else if cmd = "GOTO" then
        let (tkn, scanner2) := nextToken scanner1
        if tkn = "" ∨ X.getTokenType tkn ≠ .NUMBER ∨ hasMoreTokens scanner2 then
          (.error "SYNTAX ERROR", w)
        else
          match X.stringToInteger tkn with
          | .error e => (.error e, w)
          | .ok target =>
            if w.program.getSourceLine target = "" then (.error "LINE NUMBER ERROR", w)
            else runProgram X fuel w target
      else if cmd = "IF" then
        match IfStatement.construct X scanner1 with
        | .error e => (.error e, w)
        | .ok stmt =>
          match stmt.execute X w with
          | (.ok, w1) =>
            if w1.program.hasJump then
              let (target, program2) := w1.program.consumeJump
              runProgram X fuel { w1 with program := program2 } target
            else (.ok, w1)
          | (st, w1) => (st, w1)
      else if cmd = "REM" then (.ok, w)
      else if cmd = "END" then
        if hasMoreTokens scanner1 then (.error "SYNTAX ERROR", w) else (.ok, w)
      else if cmd = "QUIT" then
        if hasMoreTokens scanner1 then (.error "SYNTAX ERROR", w) else (.exit, w)
      else (.error "SYNTAX ERROR", w)
    else (.error "SYNTAX ERROR", w)

/-- The interpreter at process start: empty environment and store, the given standard
input, nothing written yet. -/
def World.initial {E : Type} (cin : List String) : World E :=
  { state := [], program := Program.empty, cin := cin, cout := "" }

/-! ## A concrete set of collaborators

The general results below hold for every `Externals`.  `Reference.externals` is one
instance, used to run the interpreter on concrete lines. -/

namespace Reference

/-- Expression trees: constants, identifiers and binary compounds. -/
inductive Expression where
  | ConstantExp (value : Int)
  | IdentifierExp (name : String)
  | CompoundExp (op : String) (lhs rhs : Expression)
  deriving DecidableEq, Repr

/-- Characters that may appear in a word token. -/
def isWordCharacter (c : Char) : Bool :=
  (65 ≤ c.toNat && c.toNat ≤ 90) || (97 ≤ c.toNat && c.toNat ≤ 122) || isdigit c || c = '_'

/-- The token made of the characters collected (in reverse) in `cur`, if any. -/
def flush (cur : List Char) : List String :=
  if cur = [] then [] else [String.mk cur.reverse]

/-- The scanner loop: `cur` holds the characters of the token being read, in reverse,
and `num` tells whether that token is a number. -/
def scan : List Char → List Char → Bool → List String
  | [], cur, _ => flush cur
  | c :: cs, cur, num =>
    if cur ≠ [] ∧ ((num ∧ isdigit c) ∨ (¬ num ∧ isWordCharacter c)) then scan cs (c :: cur) num
    else if isspace c then flush cur ++ scan cs [] false
    else if isdigit c then flush cur ++ scan cs [c] true
    else if isWordCharacter c then flush cur ++ scan cs [c] false
    else flush cur ++ String.mk [c] :: scan cs [] false

/-- Modelled from the spec: the lexical scanner, which "produces a restartable token
stream from a text line" and "classifies tokens as NUMBER/WORD/operator"; white space
separates tokens and is dropped, a number is a run of digits, a word a run of word
characters, any other character a one-character operator. -/
def tokenize (line : String) : List String := scan line.data [] false

/-- Modelled from the spec: the class of a token, decided by its first character. -/
def getTokenType (token : String) : TokenType :=
  match token.data with
  | [] => .EOF
  | c :: _ =>
    if isspace c then .SEPARATOR
    else if c = '"' then .STRING
    else if isdigit c then .NUMBER
    else if isWordCharacter c then .WORD
    else .OPERATOR

/-- Modelled from the spec: `stringToInteger`, the value of an optionally signed run of
digits that fits a 32-bit `int`; anything else throws. -/
def stringToInteger (str : String) : Except String Int :=
  let s := trim str
  if isIntegerString s then
    match stoll s with
    | some v =>
      if v < INT32_MIN ∨ v > INT32_MAX then .error "stringToInteger: Illegal integer format"
      else .ok v
    | none => .error "stringToInteger: Illegal integer format"
  else .error "stringToInteger: Illegal integer format"

/-- Binding strength of a binary operator token, 0 for any other token. -/
def precedence (token : String) : Nat :=
  if token = "+" ∨ token = "-" then 2
  else if token = "*" ∨ token = "/" then 3
  else 0

mutual

/-- Reads an expression whose operators bind tighter than `prec`. -/
def readE : Nat → TokenScanner → Nat → Except String (Expression × TokenScanner)
  | 0, _, _ => .error "SYNTAX ERROR"
  | fuel + 1, scanner, prec =>
    match readT fuel scanner with
    | .error e => .error e
    | .ok (exp, scanner1) => readOps fuel exp scanner1 prec

/-- Extends `exp` with the operators that follow it and bind tighter than `prec`. -/
def readOps : Nat → Expression → TokenScanner → Nat → Except String (Expression × TokenScanner)
  | 0, _, _, _ => .error "SYNTAX ERROR"
  | fuel + 1, exp, scanner, prec =>
    let (token, scanner1) := nextToken scanner
    if precedence token ≤ prec then .ok (exp, scanner)
    else
      match readE fuel scanner1 (precedence token) with
      | .error e => .error e
      | .ok (rhs, scanner2) => readOps fuel (.CompoundExp token exp rhs) scanner2 prec

/-- Reads a term: a number, a name or a parenthesised expression. -/
def readT : Nat → TokenScanner → Except String (Expression × TokenScanner)
  | 0, _ => .error "SYNTAX ERROR"
  | fuel + 1, scanner =>
    let (token, scanner1) := nextToken scanner
    if getTokenType token = .WORD then .ok (.IdentifierExp token, scanner1)
    else if getTokenType token = .NUMBER then
      match stringToInteger token with
      | .error e => .error e
      | .ok v => .ok (.ConstantExp v, scanner1)
    else if token = "(" then
      match readE fuel scanner1 0 with
      | .error e => .error e
      | .ok (exp, scanner2) =>
        let (close, scanner3) := nextToken scanner2
        if close = ")" then .ok (exp, scanner3) else .error "SYNTAX ERROR"
    else .error "SYNTAX ERROR"

end

/-- Modelled from the spec: the expression parser, which "converts a token stream into
an expression tree"; the whole stream must be one arithmetic expression over
`+ - * /`, numbers, names and parentheses. -/
def parseExp (scanner : TokenScanner) : Except String Expression :=
  match readE (3 * scanner.length + 3) scanner 0 with
  | .error e => .error e
  | .ok (exp, scanner1) => if hasMoreTokens scanner1 then .error "SYNTAX ERROR" else .ok exp

/-- The 32-bit two's complement value congruent to `v`. -/
def wrap32 (v : Int) : Int := (v + 2147483648) % 4294967296 - 2147483648

/-- Modelled from the spec: the evaluator, which "evaluates it against a variable
environment to a signed integer"; reading an undefined variable and dividing by zero
throw. -/
def eval : Expression → EvalState → Except String Int
  | .ConstantExp value, _ => .ok value
  | .IdentifierExp name, state =>
    match state.getValue name with
    | none => .error "VARIABLE NOT DEFINED"
    | some v => .ok v
  | .CompoundExp op lhs rhs, state =>
    match eval lhs state with
    | .error e => .error e
    | .ok l =>
      match eval rhs state with
      | .error e => .error e
      | .ok r =>
        if op = "+" then .ok (wrap32 (l + r))
        else if op = "-" then .ok (wrap32 (l - r))
        else if op = "*" then .ok (wrap32 (l * r))
        else if op = "/" then
          if r = 0 then .error "DIVIDE BY ZERO" else .ok (wrap32 (Int.tdiv l r))
        else .error "SYNTAX ERROR"

/-- The concrete collaborators. -/
@[reducible]
def externals : Externals :=
  { Expression := Expression
    tokenize := tokenize
    getTokenType := getTokenType
    stringToInteger := stringToInteger
    parseExp := parseExp
    eval := eval }

/-- Feeds the lines to `processLine` one after the other, as `main` does (which skips
empty lines, prints the message of a caught error and goes on). -/
def session (fuel : Nat) : List String → World Expression → World Expression
  | [], w => w
  | line :: rest, w =>
    if line = "" then session fuel rest w
    else
      match processLine externals fuel line w with
      | (.error msg, w1) => session fuel rest { w1 with cout := w1.cout ++ msg ++ "\n" }
      | (.exit, w1) => w1
      | (_, w1) => session fuel rest w1

end Reference

/-! ## Notions used to state the results -/

/-- The branch of `processLine` for a line whose first token is a word, as a function of
the upper-case keyword `cmd` and of the scanner positioned after it (the same chain of
tests as in `processLine`, see `processLine_word`). -/
def directCommand (X : Externals) (fuel : Nat) (cmd : String) (scanner1 : TokenScanner)
    (w : World X.Expression) : Status × World X.Expression :=
      if cmd = "LET" then
        match LetStatement.construct X scanner1 with
        | .error e => (.error e, w)
        | .ok stmt => stmt.execute X w
      else if cmd = "PRINT" then
        match PrintStatement.construct X scanner1 with
        | .error e => (.error e, w)
        | .ok stmt => stmt.execute X w
      else if cmd = "INPUT" then
        match InputStatement.construct X scanner1 with
        | .error e => (.error e, w)
        | .ok stmt => stmt.execute X w
      else if cmd = "LIST" then
        if hasMoreTokens scanner1 then (.error "SYNTAX ERROR", w)
        else
          let r := listLoop w.program fuel w.program.getFirstLineNumber ([], w.cout)
          (r.1, { w with cout := r.2.2 })
      else if cmd = "CLEAR" then
        if hasMoreTokens scanner1 then (.error "SYNTAX ERROR", w)
        else (.ok, { w with program := w.program.clear, state := w.state.Clear })
      else if cmd = "RUN" then
        if hasMoreTokens scanner1 then (.error "SYNTAX ERROR", w)
        else
          let start := w.program.getFirstLineNumber
          if start ≠ -1 then runProgram X fuel w start else (.ok, w)
      else if cmd = "GOTO" then
        let (tkn, scanner2) := nextToken scanner1
        if tkn = "" ∨ X.getTokenType tkn ≠ .NUMBER ∨ hasMoreTokens scanner2 then
          (.error "SYNTAX ERROR", w)
        else
          match X.stringToInteger tkn with
          | .error e => (.error e, w)
          | .ok target =>
            if w.program.getSourceLine target = "" then (.error "LINE NUMBER ERROR", w)
            else runProgram X fuel w target
      else if cmd = "IF" then
        match IfStatement.construct X scanner1 with
        | .error e => (.error e, w)
        | .ok stmt =>
          match stmt.execute X w with
          | (.ok, w1) =>
            if w1.program.hasJump then
              let (target, program2) := w1.program.consumeJump
              runProgram X fuel { w1 with program := program2 } target
            else (.ok, w1)
          | (st, w1) => (st, w1)
      else if cmd = "REM" then (.ok, w)
      else if cmd = "END" then
        if hasMoreTokens scanner1 then (.error "SYNTAX ERROR", w) else (.ok, w)
      else if cmd = "QUIT" then
        if hasMoreTokens scanner1 then (.error "SYNTAX ERROR", w) else (.exit, w)
      else (.error "SYNTAX ERROR", w)


/-- The line is a program line: its first token is a number, `stringToInteger` gives
`lineNumber` for it, and more tokens follow.  Returns the line number and the scanner
positioned after the number. -/
def programLine (X : Externals) (line : String) : Option (Int × TokenScanner) :=
  match X.tokenize line with
  | [] => none
  | first :: scanner1 =>
    if X.getTokenType first = .NUMBER then
      match X.stringToInteger first with
      | .error _ => none
      | .ok lineNumber => if hasMoreTokens scanner1 then some (lineNumber, scanner1) else none
    else none

/-- The statement construction that `processLine` and `ensureParsedForLine` perform on
the scanner positioned after the line number: the keyword must be a word, and
`parseStatementByKeyword` is applied to its upper-case form. -/
def constructStatement (X : Externals) (scanner1 : TokenScanner) :
    Except String (Statement X.Expression) :=
  let (kw, scanner2) := nextToken scanner1
  if X.getTokenType kw ≠ .WORD then .error "SYNTAX ERROR"
  else parseStatementByKeyword X (toUpperCase kw) scanner2

/-- The store obtained from the empty one by entering the given numbered lines, in the
order of the list, with `addSourceLine`. -/
def Program.enter {S : Type} (entries : List (Int × String)) : Program S :=
  entries.foldl (fun p e => p.addSourceLine e.1 e.2) Program.empty

/-- The text `LIST` writes for a source table: each line followed by a newline, in
iteration order, after what is already on standard output. -/
def listing (m : IntMap String) (cout : String) : String :=
  m.foldl (fun out e => out ++ e.2 ++ "\n") cout

/-- The six relational operators of `IF`. -/
inductive RelOp where
  | eq | lt | gt | le | ge | ne
  deriving DecidableEq, Repr

/-- The operator text stored in an `IfStatement`. -/
def RelOp.text : RelOp → String
  | .eq => "="
  | .lt => "<"
  | .gt => ">"
  | .le => "<="
  | .ge => ">="
  | .ne => "<>"

/-- The statement is a `Rem`, `Let`, `Print` or `End` statement. -/
def Statement.isPlain {E : Type} : Statement E → Bool
  | .RemStatement => true
  | .LetStatement _ _ => true
  | .PrintStatement _ => true
  | .EndStatement => true
  | _ => false

/-- The statement is an `End` statement. -/
def Statement.isEnd {E : Type} : Statement E → Bool
  | .EndStatement => true
  | _ => false

/-- The statements of a list up to and including its first `End`. -/
def uptoEnd {E : Type} : List (Statement E) → List (Statement E)
  | [] => []
  | s :: rest => if s.isEnd then [s] else s :: uptoEnd rest

/-- Executes the statements of the list one after the other, each once, stopping only
at a statement that does not return normally. -/
def execAll (X : Externals) : List (Statement X.Expression) → World X.Expression →
    Status × World X.Expression
  | [], w => (.ok, w)
  | s :: rest, w =>
    match s.execute X w with
    | (.ok, w2) => execAll X rest w2
    | (st, w2) => (st, w2)

/-- The key at the head of a table, `-1` for the empty table. -/
def firstOr {V : Type} (m : IntMap V) : Int :=
  match IntMap.firstKey m with
  | none => -1
  | some k => k

/-- The statement obtained by parsing a stored source text, as `ensureParsedForLine`
does it: the first token must be a number, more tokens must follow, and the statement
is constructed from them. -/
def parseSource (X : Externals) (src : String) : Except String (Statement X.Expression) :=
  match X.tokenize src with
  | [] => .error "SYNTAX ERROR"
  | lnTok :: s1 =>
    if X.getTokenType lnTok ≠ .NUMBER then .error "SYNTAX ERROR"
    else if !hasMoreTokens s1 then .error "SYNTAX ERROR"
    else constructStatement X s1

/-- Every cached statement is the one obtained by parsing the text currently stored
under its line number. -/
def Program.CacheMatchesSource (X : Externals) (p : Program (Statement X.Expression)) : Prop :=
  ∀ n stmt, p.getParsedStatement n = some stmt → parseSource X (p.getSourceLine n) = .ok stmt

/-- The interpreter states reachable from the start of the process by calls of
`processLine` (whatever the lines, and however each call ends). -/
inductive Reachable (X : Externals) : World X.Expression → Prop where
  | initial (cin : List String) : Reachable X (World.initial cin)
  | step (fuel : Nat) (line : String) (w : World X.Expression) :
    Reachable X w → Reachable X (processLine X fuel line w).2
  | input (cin : List String) (w : World X.Expression) :
    Reachable X w → Reachable X { w with cin := cin }

/-- The character is one of the decimal digits `0` to `9`. -/
def IsDecimalDigit (c : Char) : Prop := '0'.toNat ≤ c.toNat ∧ c.toNat ≤ '9'.toNat

/-- The text `s` is a signed-integer literal of value `v`, in the words of the spec: an
optional single `+` or `-` sign followed by one or more decimal digits, `v` being the
integer they denote in base ten. -/
def IsSignedLiteral (s : String) (v : Int) : Prop :=
  ∃ sign digits : List Char,
    s.data = sign ++ digits ∧ (sign = [] ∨ sign = ['+'] ∨ sign = ['-']) ∧
    digits ≠ [] ∧ (∀ c ∈ digits, IsDecimalDigit c) ∧
    v = (if sign = ['-'] then -1 else 1) *
      Int.ofNat (Nat.ofDigits 10 (digits.reverse.map (fun c => c.toNat - '0'.toNat)))

/-- Every stored source text is non-empty. -/
def Program.TextsNonEmpty {S : Type} (p : Program S) : Prop :=
  ∀ n text, p.sourceLines.find n = some text → text ≠ ""

/-- Every stored text is a program line carrying its own line number, and a stored line
without a cached parse is one whose statement fails to construct: entering the text
`text` stored under `n` reads the number `n`, and the construction from the tokens
after the number fails if `n` has no cached parse. -/
def Program.EnteredLines (X : Externals) (p : Program (Statement X.Expression)) : Prop :=
  ∀ n text, p.sourceLines.find n = some text →
    ∃ sc, programLine X text = some (n, sc) ∧
      (p.getParsedStatement n = none → ∃ e, constructStatement X sc = .error e)

/-- The statement is a `Goto` or an `If` statement. -/
def Statement.isJump {E : Type} : Statement E → Bool
  | .GotoStatement _ => true
  | .IfStatement _ _ _ _ => true
  | _ => false

/-- How one iteration of the loop of `runProgram` ends: the loop is left with a result
(`break`, an error thrown by `ensureParsedForLine` or by the statement, or the loop's
SYNTAX ERROR), it goes on at another line, or it raises its own LINE NUMBER ERROR on a
consumed jump target without text. -/
inductive StepResult (E : Type) where
  | done (r : Status × World E)
  | next (current : Int) (w : World E)
  | jumpMissing (w : World E)

/-- The body of the `while` loop of `runProgram` at the line `current` (see
`runLoop_succ`). -/
def runStep (X : Externals) (current : Int) (w : World X.Expression) :
    StepResult X.Expression :=
  match ensureParsedForLine X w.program current with
  | (.ok, program1) =>
    let w1 := { w with program := program1 }
    match program1.getParsedStatement current with
    | none => .done (.error "SYNTAX ERROR", w1)
    | some stmt =>
      match stmt.execute X w1 with
      | (.ok, w2) =>
        if w2.program.stopRequested then .done (.ok, w2)
        else if w2.program.hasJump then
          let (target, program3) := w2.program.consumeJump
          let w3 := { w2 with program := program3 }
          if program3.getSourceLine target = "" then .jumpMissing w3
          else .next target w3
        else .next (w2.program.getNextLineNumber current) w2
      | (st, w2) => .done (st, w2)
  | (st, program1) => .done (st, { w with program := program1 })

/-- The states at the head of the loop during the run `runProgram(program, state,
startLine)` started in the state `w0`: the line about to be looked at and the state. -/
inductive LoopHead (X : Externals) (w0 : World X.Expression) (startLine : Int) :
    Int → World X.Expression → Prop where
  | start : LoopHead X w0 startLine startLine { w0 with program := w0.program.resetControl }
  | next (current : Int) (w : World X.Expression) (current2 : Int) (w2 : World X.Expression) :
    LoopHead X w0 startLine current w → current ≠ -1 → runStep X current w = .next current2 w2 →
    LoopHead X w0 startLine current2 w2

/-- The entries of a table at or after the key `start`. -/
def linesFrom {V : Type} (m : IntMap V) (start : Int) : IntMap V :=
  m.filter (fun e => decide (start ≤ e.1))

/-- The entries of a table before the key `start`. -/
def linesBefore {V : Type} (m : IntMap V) (start : Int) : IntMap V :=
  m.filter (fun e => decide (e.1 < start))

/-! ## Sample data -/

/-- A store with two lines, one of them parsed. -/
def Program.sampleStore : Program (Statement Unit) :=
  { sourceLines := [(10, "10 REM"), (20, "20 END")]
    parsedStmts := [(20, .EndStatement)]
    pendingJump := -2
    stopFlag := false }

/-- The interpreter after `10 LET X = 5`, `20 PRINT X`, `30 END` have been entered. -/
def Reference.threeLineWorld : World Reference.Expression :=
  Reference.session 0 ["10 LET X = 5", "20 PRINT X", "30 END"] (World.initial [])

/-! ## Lemmas on `IntMap` -/

namespace IntMap

variable {V : Type}

theorem mem_keys_assign (m : IntMap V) (k : Int) (v : V) (x : Int) :
    x ∈ keys (assign m k v) ↔ x = k ∨ x ∈ keys m := by
  induction m with
  | nil => simp [assign, keys]
  | cons e t ih =>
    obtain ⟨k', v'⟩ := e
    unfold assign
    split_ifs with h1 h2
    · simp [keys]
    · subst h2; simp [keys]
    · have : keys ((k', v') :: assign t k v) = k' :: keys (assign t k v) := rfl
      rw [this, List.mem_cons, ih]
      simp only [keys, List.map_cons, List.mem_cons]
      tauto

theorem mem_keys_erase (m : IntMap V) (k x : Int) :
    x ∈ keys (erase m k) ↔ x ≠ k ∧ x ∈ keys m := by
  simp only [keys, erase, List.mem_map, List.mem_filter, decide_eq_true_eq]
  constructor
  · rintro ⟨e, ⟨he, hne⟩, rfl⟩
    exact ⟨hne, e, he, rfl⟩
  · rintro ⟨hne, e, he, rfl⟩
    exact ⟨e, ⟨he, hne⟩, rfl⟩

theorem find_eq_none_iff (m : IntMap V) (k : Int) : find m k = none ↔ k ∉ keys m := by
  induction m with
  | nil => simp [find, keys]
  | cons e t ih =>
    obtain ⟨k', v'⟩ := e
    unfold find
    split_ifs with h
    · subst h; simp [keys]
    · rw [ih]
      simp only [keys, List.map_cons, List.mem_cons, not_or]
      constructor
      · intro h2; exact ⟨fun h3 => h h3.symm, h2⟩
      · intro h2; exact h2.2

theorem find_isSome_iff (m : IntMap V) (k : Int) : (∃ v, find m k = some v) ↔ k ∈ keys m := by
  have h := find_eq_none_iff m k
  cases hf : find m k with
  | none => simp [h.mp hf]
  | some v =>
    have : k ∈ keys m := by
      by_contra hk
      rw [h.mpr hk] at hf
      cases hf
    simp [this]

theorem find_assign_self (m : IntMap V) (k : Int) (v : V) : find (assign m k v) k = some v := by
  induction m with
  | nil => simp [assign, find]
  | cons e t ih =>
    obtain ⟨k', v'⟩ := e
    unfold assign
    split_ifs with h1 h2
    · simp [find]
    · simp [find]
    · have hne : k' ≠ k := fun h => h2 h.symm
      simp [find, hne, ih]

theorem find_assign_of_ne (m : IntMap V) (k : Int) (v : V) (x : Int) (hx : x ≠ k) :
    find (assign m k v) x = find m x := by
  induction m with
  | nil => simp [assign, find, Ne.symm hx]
  | cons e t ih =>
    obtain ⟨k', v'⟩ := e
    unfold assign
    split_ifs with h1 h2
    · simp [find, Ne.symm hx]
    · subst h2; simp [find, Ne.symm hx]
    · simp only [find, ih]

theorem find_erase_self (m : IntMap V) (k : Int) : find (erase m k) k = none := by
  rw [find_eq_none_iff, mem_keys_erase]
  simp

theorem find_erase_of_ne (m : IntMap V) (k x : Int) (hx : x ≠ k) :
    find (erase m k) x = find m x := by
  induction m with
  | nil => simp [erase, find]
  | cons e t ih =>
    obtain ⟨k', v'⟩ := e
    by_cases h : k' = k
    · subst h
      have : erase ((k', v') :: t) k' = erase t k' := by simp [erase]
      rw [this, ih]
      simp [find, Ne.symm hx]
    · have : erase ((k', v') :: t) k = (k', v') :: erase t k := by simp [erase, h]
      rw [this]
      simp only [find, ih]

theorem erase_of_not_mem (m : IntMap V) (k : Int) (h : k ∉ keys m) : erase m k = m := by
  unfold erase
  rw [List.filter_eq_self]
  intro e he
  simp only [decide_eq_true_eq]
  intro hk
  exact h (by simp only [keys, List.mem_map]; exact ⟨e, he, hk⟩)

theorem emplace_eq_assign (m : IntMap V) (k : Int) (v : V) (h : find m k = none) :
    emplace m k v = assign m k v := by
  simp [emplace, h]

theorem wf_assign (m : IntMap V) (k : Int) (v : V) (h : WF m) : WF (assign m k v) := by
  induction m with
  | nil => simp [assign, WF, keys]
  | cons e t ih =>
    obtain ⟨k', v'⟩ := e
    have ht : WF t := by
      simp only [WF, keys, List.map_cons, List.pairwise_cons] at h
      exact h.2
    have hlt : ∀ x ∈ keys t, k' < x := by
      simp only [WF, keys, List.map_cons, List.pairwise_cons] at h
      exact h.1
    unfold assign
    split_ifs with h1 h2
    · simp only [WF, keys, List.map_cons, List.pairwise_cons, List.mem_cons]
      refine ⟨?_, ?_, ?_⟩
      · rintro x (rfl | hx)
        · exact h1
        · exact lt_trans h1 (hlt x hx)
      · exact hlt
      · exact ht
    · subst h2
      simpa [WF, keys] using h
    · have hk : k' < k := lt_of_le_of_ne (not_lt.mp h1) (fun h => h2 h.symm)
      have ih2 := ih ht
      have hkeys : keys ((k', v') :: assign t k v) = k' :: keys (assign t k v) := rfl
      unfold WF
      rw [hkeys, List.pairwise_cons]
      refine ⟨?_, ih2⟩
      intro x hx
      rw [mem_keys_assign] at hx
      rcases hx with rfl | hx
      · exact hk
      · exact hlt x hx

theorem wf_erase (m : IntMap V) (k : Int) (h : WF m) : WF (erase m k) := by
  unfold WF keys erase
  exact (List.Pairwise.map _ (fun _ _ hab => hab) ((List.pairwise_map.mp h).filter _))

end IntMap

/-! ## The cache never outlives the source (C2) -/

namespace Program

variable {S : Type}

theorem cacheInSource_addSourceLine (p : Program S) (h : p.CacheInSource) (n : Int)
    (line : String) : (p.addSourceLine n line).CacheInSource := by
  intro x hx
  unfold addSourceLine at hx ⊢
  cases hc : p.parsedStmts.find n with
  | none =>
    simp only [hc] at hx ⊢
    exact (IntMap.mem_keys_assign _ _ _ _).mpr (Or.inr (h x hx))
  | some c =>
    simp only [hc] at hx ⊢
    rw [IntMap.mem_keys_erase] at hx
    exact (IntMap.mem_keys_assign _ _ _ _).mpr (Or.inr (h x hx.2))

theorem cacheInSource_removeSourceLine (p : Program S) (h : p.CacheInSource) (n : Int) :
    (p.removeSourceLine n).CacheInSource := by
  intro x hx
  unfold removeSourceLine at hx ⊢
  cases hs : p.sourceLines.find n with
  | none =>
    have hn : n ∉ p.sourceLines.keys := (IntMap.find_eq_none_iff _ _).mp hs
    have hc : p.parsedStmts.find n = none :=
      (IntMap.find_eq_none_iff _ _).mpr (fun hm => hn (h n hm))
    simp only [hs, hc] at hx ⊢
    exact h x hx
  | some v =>
    simp only [hs] at hx ⊢
    cases hc : p.parsedStmts.find n with
    | none =>
      simp only [hc] at hx ⊢
      have hne : x ≠ n := by
        rintro rfl
        exact ((IntMap.find_eq_none_iff _ _).mp hc) hx
      exact (IntMap.mem_keys_erase _ _ _).mpr ⟨hne, h x hx⟩
    | some c =>
      simp only [hc] at hx ⊢
      rw [IntMap.mem_keys_erase] at hx
      exact (IntMap.mem_keys_erase _ _ _).mpr ⟨hx.1, h x hx.2⟩

theorem setParsedStatement_ok_iff (p : Program S) (n : Int) (stmt : S) :
    (∃ p1, p.setParsedStatement n stmt = .ok p1) ↔ n ∈ p.sourceLines.keys := by
  rw [← IntMap.find_isSome_iff]
  unfold setParsedStatement
  cases hs : p.sourceLines.find n with
  | none => simp
  | some v => cases hc : p.parsedStmts.find n <;> simp

theorem setParsedStatement_ok (p p1 : Program S) (n : Int) (stmt : S)
    (h : p.setParsedStatement n stmt = .ok p1) :
    p1 = { p with parsedStmts := p.parsedStmts.assign n stmt } := by
  unfold setParsedStatement at h
  cases hs : p.sourceLines.find n with
  | none => simp [hs] at h
  | some v =>
    cases hc : p.parsedStmts.find n with
    | none =>
      simp only [hs, hc, IntMap.emplace_eq_assign _ _ _ hc] at h
      exact (Except.ok.inj h).symm
    | some c =>
      simp only [hs, hc] at h
      exact (Except.ok.inj h).symm

theorem cacheInSource_afterSetParsedStatement (p : Program S) (h : p.CacheInSource) (n : Int)
    (stmt : S) : (p.afterSetParsedStatement n stmt).CacheInSource := by
  unfold afterSetParsedStatement
  cases hr : p.setParsedStatement n stmt with
  | error e => exact h
  | ok p1 =>
    have hn : n ∈ p.sourceLines.keys := (setParsedStatement_ok_iff p n stmt).mp ⟨p1, hr⟩
    rw [setParsedStatement_ok p p1 n stmt hr]
    intro x hx
    simp only [IntMap.mem_keys_assign] at hx
    rcases hx with rfl | hx
    · exact hn
    · exact h x hx

/-- C2: every key of the parsed-statement cache is a key of the source-line table in
the empty store, and every operation of the Program Store keeps it so: `addSourceLine`,
`removeSourceLine`, `setParsedStatement` (whether it returns or throws), `clear`, and
the control-register operations `requestJump`, `consumeJump`, `requestStop` and
`resetControl`. -/
theorem cacheInSource_invariant :
    (Program.empty : Program S).CacheInSource ∧
    ∀ p : Program S, p.CacheInSource →
      (∀ n line, (p.addSourceLine n line).CacheInSource) ∧
      (∀ n, (p.removeSourceLine n).CacheInSource) ∧
      (∀ n stmt, (p.afterSetParsedStatement n stmt).CacheInSource) ∧
      p.clear.CacheInSource ∧
      (∀ n, (p.requestJump n).CacheInSource) ∧
      p.consumeJump.2.CacheInSource ∧
      p.requestStop.CacheInSource ∧
      p.resetControl.CacheInSource := by
  refine ⟨?_, fun p h => ⟨?_, ?_, ?_, ?_, ?_, ?_, ?_, ?_⟩⟩
  · intro x hx
    simp [Program.empty, IntMap.keys] at hx
  · exact fun n line => cacheInSource_addSourceLine p h n line
  · exact fun n => cacheInSource_removeSourceLine p h n
  · exact fun n stmt => cacheInSource_afterSetParsedStatement p h n stmt
  · intro x hx
    simp [clear, resetControl, IntMap.keys] at hx
  · exact fun _ => h
  · exact h
  · exact h
  · exact h

/-- C2 (witness): the invariant and its preservation on a store with two lines, one of them parsed. -/
theorem cacheInSource_invariant_witness :
    sampleStore.CacheInSource ∧
      (sampleStore.removeSourceLine 20).CacheInSource ∧
      (sampleStore.afterSetParsedStatement 10 .RemStatement).CacheInSource ∧
      (sampleStore.afterSetParsedStatement 30 .RemStatement).CacheInSource := by
  have h0 : sampleStore.CacheInSource := by
    intro x hx
    simp [sampleStore, IntMap.keys] at hx ⊢
    omega
  have h := (cacheInSource_invariant (S := Statement Unit)).2 sampleStore h0
  exact ⟨h0, h.2.1 20, h.2.2.1 10 .RemStatement, h.2.2.1 30 .RemStatement⟩

end Program

/-! ## Program lines whose statement fails to construct (C1) -/

theorem Program.parsedStmts_addSourceLine {S : Type} (p : Program S) (n : Int) (line : String) :
    p.addSourceLine n line =
      { p with sourceLines := p.sourceLines.assign n line
               parsedStmts := p.parsedStmts.erase n } := by
  unfold Program.addSourceLine
  cases hc : p.parsedStmts.find n with
  | some c => simp only [hc]
  | none =>
    simp only [hc]
    rw [IntMap.erase_of_not_mem _ _ ((IntMap.find_eq_none_iff _ _).mp hc)]

theorem Program.setParsedStatement_addSourceLine {S : Type} (p : Program S) (n : Int)
    (line : String) (stmt : S) :
    (p.addSourceLine n line).setParsedStatement n stmt =
      .ok { p with sourceLines := p.sourceLines.assign n line
                   parsedStmts := (p.parsedStmts.erase n).assign n stmt } := by
  rw [Program.parsedStmts_addSourceLine]
  unfold Program.setParsedStatement
  simp only [IntMap.find_assign_self, IntMap.find_erase_self]
  rw [IntMap.emplace_eq_assign _ _ _ (IntMap.find_erase_self _ _)]

/-- What `processLine` does with a program line: the text is stored first, then the
statement is constructed, and cached when the construction succeeds. -/
theorem processLine_programLine (X : Externals) (fuel : Nat) (line : String)
    (w : World X.Expression) (n : Int) (scanner1 : TokenScanner)
    (h : programLine X line = some (n, scanner1)) :
    processLine X fuel line w =
      match constructStatement X scanner1 with
      | .error e => (.error e, { w with program := w.program.addSourceLine n line })
      | .ok stmt =>
        (.ok, { w with program :=
          { w.program with sourceLines := w.program.sourceLines.assign n line
                           parsedStmts := (w.program.parsedStmts.erase n).assign n stmt } }) := by
  unfold programLine at h
  unfold processLine
  cases ht : X.tokenize line with
  | nil => simp [ht] at h
  | cons first sc =>
    simp only [ht] at h
    by_cases hnum : X.getTokenType first = .NUMBER
    · simp only [hnum, if_true] at h
      cases hi : X.stringToInteger first with
      | error e => simp [hi] at h
      | ok ln =>
        simp only [hi] at h
        by_cases hm : hasMoreTokens sc = true
        · simp only [hm, if_true, Option.some.injEq, Prod.mk.injEq] at h
          obtain ⟨rfl, rfl⟩ := h
          simp only [hasMoreTokens, List.isEmpty_cons, Bool.not_false, Bool.not_true,
            Bool.false_eq_true, if_false, nextToken, hnum, if_true, hi]
          have hm2 : (!(!sc.isEmpty)) = false := by
            simpa [hasMoreTokens] using hm
          simp only [hm2, Bool.false_eq_true, if_false, constructStatement]
          cases sc with
          | nil => simp [hasMoreTokens] at hm
          | cons kw scanner2 =>
            simp only [nextToken]
            by_cases hw : X.getTokenType kw = .WORD
            · simp only [hw, ne_eq, not_true_eq_false, if_false]
              cases hp : parseStatementByKeyword X (toUpperCase kw) scanner2 with
              | error e => rfl
              | ok stmt =>
                simp only [Program.setParsedStatement_addSourceLine]
            · simp only [hw, ne_eq, not_false_eq_true, if_true]
        · simp [hm] at h
    · simp [hnum] at h

/-- C1 (as amended): when `processLine` is given a numbered program line whose statement
fails to construct, the error is raised after the text has been stored and before
anything is cached or executed: the call ends with that error, the source table is the
prior one with line `n` set to the entered text, the parse cache is the prior one
without an entry for `n`, and the environment, the control registers, the input and
the output are unchanged. -/
theorem processLine_construction_failure (X : Externals) (fuel : Nat) (line : String)
    (w : World X.Expression) (n : Int) (scanner1 : TokenScanner) (e : String)
    (h : programLine X line = some (n, scanner1))
    (hfail : constructStatement X scanner1 = .error e) :
    processLine X fuel line w =
      (.error e, { w with program :=
        { w.program with sourceLines := w.program.sourceLines.assign n line
                         parsedStmts := w.program.parsedStmts.erase n } }) := by
  rw [processLine_programLine X fuel line w n scanner1 h, hfail]
  simp only [Program.parsedStmts_addSourceLine]

/-- C1 (witness): `10 FOO` entered into the empty store. -/
theorem processLine_construction_failure_witness :
    programLine Reference.externals "10 FOO" = some (10, ["FOO"]) ∧
    constructStatement Reference.externals ["FOO"] = .error "SYNTAX ERROR" ∧
    processLine Reference.externals 0 "10 FOO" (World.initial []) =
      (.error "SYNTAX ERROR", { (World.initial [] : World Reference.Expression) with program :=
        { (Program.empty : Program (Statement Reference.Expression)) with
          sourceLines := IntMap.assign [] 10 "10 FOO"
          parsedStmts := IntMap.erase [] 10 } }) :=
  ⟨by decide, by decide,
    processLine_construction_failure Reference.externals 0 "10 FOO" (World.initial []) 10 ["FOO"]
      "SYNTAX ERROR" (by decide) (by decide)⟩

/-- C1 (counterexample to the claim as stated): entering `10 FOO` into the empty store is
a numbered program line whose statement fails to construct (unknown keyword), the call
raises SYNTAX ERROR, and yet the source table afterwards holds line 10; entering
`10 FOO` over a parsed `10 END` also changes the parse cache, whose entry for 10 is
gone. -/
theorem processLine_construction_failure_counterexample :
    programLine Reference.externals "10 FOO" = some (10, ["FOO"]) ∧
    constructStatement Reference.externals ["FOO"] = .error "SYNTAX ERROR" ∧
    (processLine Reference.externals 0 "10 FOO" (World.initial [])).1 = .error "SYNTAX ERROR" ∧
    (World.initial [] : World Reference.Expression).program.sourceLines = [] ∧
    (processLine Reference.externals 0 "10 FOO" (World.initial [])).2.program.sourceLines
      = [(10, "10 FOO")] ∧
    (processLine Reference.externals 0 "10 END" (World.initial [])).2.program.parsedStmts
      = [(10, .EndStatement)] ∧
    (processLine Reference.externals 0 "10 FOO"
      (processLine Reference.externals 0 "10 END" (World.initial [])).2).1
      = .error "SYNTAX ERROR" ∧
    (processLine Reference.externals 0 "10 FOO"
      (processLine Reference.externals 0 "10 END" (World.initial [])).2).2.program.parsedStmts
      = [] := by
  decide

/-! ## `LIST` traverses the stored lines in ascending order (C3) -/

theorem IntMap.wf_tail {V : Type} (e : Int × V) (t : IntMap V) (h : IntMap.WF (e :: t)) :
    IntMap.WF t := by
  simp only [IntMap.WF, IntMap.keys, List.map_cons, List.pairwise_cons] at h
  exact h.2

theorem IntMap.upperBound_append {V : Type} (pre suf : IntMap V) (k : Int) (v : V)
    (h : IntMap.WF (pre ++ (k, v) :: suf)) :
    IntMap.upperBound (pre ++ (k, v) :: suf) k = IntMap.firstKey suf := by
  induction pre with
  | nil =>
    simp only [List.nil_append, IntMap.upperBound, lt_self_iff_false, if_false]
    cases suf with
    | nil => rfl
    | cons e2 rest =>
      obtain ⟨k2, v2⟩ := e2
      have hlt : k < k2 := by
        simp only [List.nil_append, IntMap.WF, IntMap.keys, List.map_cons, List.pairwise_cons,
          List.mem_cons] at h
        exact h.1 k2 (Or.inl rfl)
      simp [IntMap.upperBound, IntMap.firstKey, hlt]
  | cons e0 pre ih =>
    obtain ⟨k0, v0⟩ := e0
    have hlt : k0 < k := by
      simp only [List.cons_append, IntMap.WF, IntMap.keys, List.map_cons, List.map_append,
        List.pairwise_cons, List.mem_append, List.mem_cons] at h
      exact h.1 k (Or.inr (Or.inl rfl))
    have hn : ¬ k < k0 := not_lt.mpr (le_of_lt hlt)
    simp only [List.cons_append, IntMap.upperBound, hn, if_false]
    exact ih (IntMap.wf_tail _ _ h)

theorem IntMap.find_append {V : Type} (pre suf : IntMap V) (k : Int) (v : V)
    (h : IntMap.WF (pre ++ (k, v) :: suf)) :
    IntMap.find (pre ++ (k, v) :: suf) k = some v := by
  induction pre with
  | nil => simp [IntMap.find]
  | cons e0 pre ih =>
    obtain ⟨k0, v0⟩ := e0
    have hlt : k0 < k := by
      simp only [List.cons_append, IntMap.WF, IntMap.keys, List.map_cons, List.map_append,
        List.pairwise_cons, List.mem_append, List.mem_cons] at h
      exact h.1 k (Or.inr (Or.inl rfl))
    simp only [List.cons_append, IntMap.find, ne_of_lt hlt, if_false]
    exact ih (IntMap.wf_tail _ _ h)

theorem listLoop_suffix {S : Type} (p : Program S) (hwf : p.sourceLines.WF)
    (hnn : ∀ n ∈ p.sourceLines.keys, 0 ≤ n) (suf : IntMap String) :
    ∀ (pre : IntMap String) (fuel : Nat) (acc : List Int × String),
      p.sourceLines = pre ++ suf → suf.length ≤ fuel →
      listLoop p fuel (match IntMap.firstKey suf with | none => -1 | some k => k) acc =
        (.ok, (acc.1 ++ IntMap.keys suf, listing suf acc.2)) := by
  induction suf with
  | nil =>
    intro pre fuel acc _ _
    cases fuel <;> simp [IntMap.firstKey, listLoop, IntMap.keys, listing]
  | cons e suf ih =>
    obtain ⟨k, v⟩ := e
    intro pre fuel acc hp hf
    cases fuel with
    | zero => simp at hf
    | succ fuel =>
      have hk : 0 ≤ k := by
        apply hnn
        rw [hp]
        simp [IntMap.keys]
      have hk1 : k ≠ -1 := by omega
      have hwf2 : IntMap.WF (pre ++ (k, v) :: suf) := hp ▸ hwf
      have hnext : p.getNextLineNumber k =
          (match IntMap.firstKey suf with | none => -1 | some k => k) := by
        unfold Program.getNextLineNumber
        rw [hp, IntMap.upperBound_append pre suf k v hwf2]
      have hsrc : p.getSourceLine k = v := by
        unfold Program.getSourceLine
        rw [hp, IntMap.find_append pre suf k v hwf2]
      have hfirst : (match IntMap.firstKey ((k, v) :: suf) with | none => -1 | some k => k)
          = k := rfl
      rw [hfirst]
      simp only [listLoop, hk1, if_false, hnext, hsrc]
      rw [ih (pre ++ [(k, v)]) fuel _ (by simp [hp]) (by simpa using hf)]
      simp [IntMap.keys, listing]

theorem Program.getFirstLineNumber_eq {S : Type} (p : Program S) :
    p.getFirstLineNumber =
      (match IntMap.firstKey p.sourceLines with | none => -1 | some k => k) := rfl

theorem Program.enter_snoc {S : Type} (entries : List (Int × String)) (e : Int × String) :
    (Program.enter (entries ++ [e]) : Program S) =
      (Program.enter entries : Program S).addSourceLine e.1 e.2 := by
  simp [Program.enter, List.foldl_append]

theorem Program.enter_sourceLines {S : Type} (entries : List (Int × String)) :
    (Program.enter entries : Program S).sourceLines.WF ∧
      ∀ n, n ∈ (Program.enter entries : Program S).sourceLines.keys ↔
        n ∈ entries.map Prod.fst := by
  induction entries using List.reverseRecOn with
  | nil =>
    simp [Program.enter, Program.empty, IntMap.WF, IntMap.keys]
  | append_singleton entries e ih =>
    rw [Program.enter_snoc, Program.parsedStmts_addSourceLine]
    refine ⟨IntMap.wf_assign _ _ _ ih.1, ?_⟩
    intro n
    simp only [IntMap.mem_keys_assign, ih.2 n, List.map_append, List.map_cons, List.map_nil,
      List.mem_append, List.mem_singleton]
    tauto

/-- C3: for every store whose line numbers are non-negative (the source table being an
ordered map), the `LIST` traversal, started at `getFirstLineNumber` and continued with
`getNextLineNumber` until `-1`, ends normally once the fuel covers the number of stored
lines; it visits exactly the stored line numbers, each once, in strictly ascending
order, and prints their texts in that order.  This does not depend on the order of
entry: the store obtained by entering any list of numbered lines is such an ordered
table whose line numbers are exactly the entered ones; e.g. after entering 20 and then
10 the traversal visits 10 before 20. -/
theorem list_visits_ascending {S : Type} :
    (∀ (p : Program S) (fuel : Nat) (cout : String),
      p.sourceLines.WF → (∀ n ∈ p.sourceLines.keys, 0 ≤ n) → p.sourceLines.length ≤ fuel →
      ∃ visited : List Int,
        listLoop p fuel p.getFirstLineNumber ([], cout) =
          (.ok, (visited, listing p.sourceLines cout)) ∧
        visited.Pairwise (fun a b => a < b) ∧
        visited.Nodup ∧
        (∀ n, n ∈ visited ↔ n ∈ p.sourceLines.keys) ∧
        visited = p.sourceLines.keys) ∧
    (∀ entries : List (Int × String),
      (Program.enter entries : Program S).sourceLines.WF ∧
      ∀ n, n ∈ (Program.enter entries : Program S).sourceLines.keys ↔
        n ∈ entries.map Prod.fst) ∧
    (∀ (a b cout : String),
      (listLoop (Program.enter [(20, a), (10, b)] : Program S) 2
        (Program.enter [(20, a), (10, b)] : Program S).getFirstLineNumber ([], cout)).2.1
        = [10, 20]) := by
  refine ⟨?_, fun entries => Program.enter_sourceLines entries, fun a b cout => rfl⟩
  intro p fuel cout hwf hnn hfuel
  refine ⟨p.sourceLines.keys, ?_, hwf, ?_, fun _ => Iff.rfl, rfl⟩
  · rw [Program.getFirstLineNumber_eq,
      listLoop_suffix p hwf hnn p.sourceLines [] fuel ([], cout) (by simp) hfuel]
    simp
  · exact hwf.imp (fun hab => ne_of_lt hab)

/-- C3 (witness): the store obtained by entering line 20 and then line 10. -/
theorem list_visits_ascending_witness :
    (Program.enter [(20, "20 END"), (10, "10 REM")] : Program Unit).sourceLines.WF ∧
    (∀ n ∈ (Program.enter [(20, "20 END"), (10, "10 REM")] : Program Unit).sourceLines.keys,
      0 ≤ n) ∧
    (Program.enter [(20, "20 END"), (10, "10 REM")] : Program Unit).sourceLines.length ≤ 2 ∧
    ∃ visited : List Int,
      listLoop (Program.enter [(20, "20 END"), (10, "10 REM")] : Program Unit) 2
          (Program.enter [(20, "20 END"), (10, "10 REM")] : Program Unit).getFirstLineNumber
          ([], "") =
        (.ok, (visited,
          listing (Program.enter [(20, "20 END"), (10, "10 REM")] : Program Unit).sourceLines
            "")) ∧
      visited.Pairwise (fun a b => a < b) ∧
      visited.Nodup ∧
      (∀ n, n ∈ visited ↔
        n ∈ (Program.enter [(20, "20 END"), (10, "10 REM")] : Program Unit).sourceLines.keys) ∧
      visited = (Program.enter [(20, "20 END"), (10, "10 REM")] : Program Unit).sourceLines.keys :=
  have hwf : (Program.enter [(20, "20 END"), (10, "10 REM")] : Program Unit).sourceLines.WF := by
    unfold IntMap.WF; decide
  have hnn : ∀ n ∈ (Program.enter [(20, "20 END"), (10, "10 REM")] : Program Unit).sourceLines.keys,
      0 ≤ n := by decide
  ⟨hwf, hnn, by decide,
    (list_visits_ascending (S := Unit)).1 _ 2 "" hwf hnn (by decide)⟩

/-! ## `IF` jumps exactly when the relation holds (C4) -/

theorem ensureParsedForLine_cached (X : Externals) (p : Program (Statement X.Expression))
    (n : Int) (stmt : Statement X.Expression) (h : p.getParsedStatement n = some stmt) :
    ensureParsedForLine X p n = (.ok, p) := by
  unfold ensureParsedForLine
  simp only [h]

/-- One iteration of the run loop at a line whose parse is cached. -/
theorem runLoop_step_cached (X : Externals) (fuel : Nat) (current : Int)
    (w : World X.Expression) (stmt : Statement X.Expression) (hc : current ≠ -1)
    (hs : w.program.getParsedStatement current = some stmt) :
    runLoop X (fuel + 1) current w =
      match stmt.execute X w with
      | (.ok, w2) =>
        if w2.program.stopRequested then (.ok, w2)
        else if w2.program.hasJump then
          if w2.program.consumeJump.2.getSourceLine w2.program.consumeJump.1 = "" then
            (.error "LINE NUMBER ERROR", { w2 with program := w2.program.consumeJump.2 })
          else runLoop X fuel w2.program.consumeJump.1
            { w2 with program := w2.program.consumeJump.2 }
        else runLoop X fuel (w2.program.getNextLineNumber current) w2
      | (st, w2) => (st, w2) := by
  rw [runLoop]
  simp only [hc, if_false, ensureParsedForLine_cached X w.program current stmt hs, hs]

theorem Statement.execute_plain (X : Externals) (stmt : Statement X.Expression)
    (w : World X.Expression) (hp : stmt.isPlain = true) :
    ((stmt.execute X w).1 = .ok ∨ ∃ e, (stmt.execute X w).1 = .error e) ∧
    (stmt.execute X w).2.program =
      (if stmt.isEnd then w.program.requestStop else w.program) := by
  cases stmt with
  | RemStatement => simp [Statement.execute, Statement.isEnd]
  | LetStatement var rhs =>
    cases h : X.eval rhs w.state <;> simp [Statement.execute, Statement.isEnd, h]
  | PrintStatement exp =>
    cases h : X.eval exp w.state <;> simp [Statement.execute, Statement.isEnd, h]
  | EndStatement => simp [Statement.execute, Statement.isEnd]
  | InputStatement var => simp [Statement.isPlain] at hp
  | GotoStatement target => simp [Statement.isPlain] at hp
  | IfStatement lhs op rhs target => simp [Statement.isPlain] at hp

theorem IntMap.wf_of_keys_eq {V W : Type} (m : IntMap V) (m2 : IntMap W)
    (h : IntMap.keys m = IntMap.keys m2) (hwf : IntMap.WF m2) : IntMap.WF m := by
  unfold IntMap.WF at hwf ⊢
  rw [h]
  exact hwf

theorem runLoop_plain (X : Externals) (srcs : IntMap String)
    (stmts : IntMap (Statement X.Expression)) (hwf : IntMap.WF srcs)
    (hnn : ∀ n ∈ IntMap.keys srcs, 0 ≤ n) (hkeys : IntMap.keys stmts = IntMap.keys srcs)
    (hplain : ∀ e ∈ stmts, e.2.isPlain = true) (sufP : IntMap (Statement X.Expression)) :
    ∀ (preP : IntMap (Statement X.Expression)) (preS sufS : IntMap String) (fuel : Nat)
      (w : World X.Expression),
      stmts = preP ++ sufP → srcs = preS ++ sufS → IntMap.keys sufP = IntMap.keys sufS →
      w.program.sourceLines = srcs → w.program.parsedStmts = stmts →
      w.program.pendingJump = -2 → w.program.stopFlag = false → sufP.length ≤ fuel →
      runLoop X fuel (firstOr sufS) w = execAll X (uptoEnd (sufP.map Prod.snd)) w := by
  induction sufP with
  | nil =>
    intro preP preS sufS fuel w _ _ hk _ _ _ _ _
    cases sufS with
    | nil => cases fuel <;> simp [firstOr, IntMap.firstKey, runLoop, uptoEnd, execAll]
    | cons e t => simp [IntMap.keys] at hk
  | cons e sufP ih =>
    obtain ⟨k, stmt⟩ := e
    intro preP preS sufS fuel w hP hS hk hws hwp hpj hsf hf
    cases sufS with
    | nil => simp [IntMap.keys] at hk
    | cons e2 sufS =>
      obtain ⟨k2, v⟩ := e2
      have hk2 : k = k2 := by
        simp only [IntMap.keys, List.map_cons, List.cons.injEq] at hk
        exact hk.1
      subst hk2
      have hktail : IntMap.keys sufP = IntMap.keys sufS := by
        simp only [IntMap.keys, List.map_cons, List.cons.injEq] at hk
        exact hk.2
      cases fuel with
      | zero => simp at hf
      | succ fuel =>
        have hk0 : 0 ≤ k := by
          apply hnn
          rw [hS]
          simp [IntMap.keys]
        have hk1 : k ≠ -1 := by omega
        have hwfP : IntMap.WF (preP ++ (k, stmt) :: sufP) :=
          hP ▸ IntMap.wf_of_keys_eq stmts srcs hkeys hwf
        have hwfS : IntMap.WF (preS ++ (k, v) :: sufS) := hS ▸ hwf
        have hget : w.program.getParsedStatement k = some stmt := by
          unfold Program.getParsedStatement
          rw [hwp, hP, IntMap.find_append preP sufP k stmt hwfP]
        have hpl : stmt.isPlain = true := hplain (k, stmt) (by rw [hP]; simp)
        have hfirst : firstOr ((k, v) :: sufS) = k := rfl
        rw [hfirst, runLoop_step_cached X fuel k w stmt hk1 hget]
        obtain ⟨hst, hprog⟩ := Statement.execute_plain X stmt w hpl
        rcases hexec : stmt.execute X w with ⟨st, w2⟩
        rw [hexec] at hst hprog
        simp only at hst hprog
        by_cases hend : stmt.isEnd = true
        · have hup : uptoEnd (((k, stmt) :: sufP).map Prod.snd) = [stmt] := by
            simp [uptoEnd, hend]
          rw [hup]
          simp only [hend, if_true] at hprog
          rcases hst with rfl | ⟨e, rfl⟩
          · simp [execAll, hexec, hprog, Program.stopRequested, Program.requestStop]
          · simp [execAll, hexec]
        · have hup : uptoEnd (((k, stmt) :: sufP).map Prod.snd) =
              stmt :: uptoEnd (sufP.map Prod.snd) := by
            simp [uptoEnd, hend]
          rw [hup]
          simp only [hend, Bool.false_eq_true, if_false] at hprog
          rcases hst with rfl | ⟨e, rfl⟩
          · have hnext : w.program.getNextLineNumber k = firstOr sufS := by
              unfold Program.getNextLineNumber firstOr
              rw [hws, hS, IntMap.upperBound_append preS sufS k v hwfS]
            simp only [execAll, hexec, hprog, Program.stopRequested, hsf, Bool.false_eq_true,
              if_false, Program.hasJump, hpj, bne_self_eq_false, hnext]
            rw [← hprog] at hws hwp hpj hsf
            exact ih (preP ++ [(k, stmt)]) (preS ++ [(k, v)]) sufS fuel w2 (by simp [hP])
              (by simp [hS]) hktail hws hwp hpj hsf (by simpa using hf)
          · simp [execAll, hexec]

/-- C5: for every stored program (ordered source table, non-negative line numbers) all of
whose lines have a cached `Rem`, `Let`, `Print` or `End` statement, `runProgram` started
at the first line, with fuel covering the number of lines, does exactly what executing
the cached statements in ascending line order, each once, up to and including the
first `End`, does: it ends with the same status in the same state, so nothing after
that `End` is executed.  In particular, after entering `10 LET X = 5`, `20 PRINT X`,
`30 END`, the command `RUN` writes exactly `5` and a newline. -/
theorem runProgram_straight_line (X : Externals) :
    (∀ (w : World X.Expression) (fuel : Nat),
      w.program.sourceLines.WF → (∀ n ∈ w.program.sourceLines.keys, 0 ≤ n) →
      w.program.parsedStmts.keys = w.program.sourceLines.keys →
      (∀ e ∈ w.program.parsedStmts, e.2.isPlain = true) →
      w.program.sourceLines.length ≤ fuel →
      runProgram X fuel w w.program.getFirstLineNumber =
        execAll X (uptoEnd (w.program.parsedStmts.map Prod.snd))
          { w with program := w.program.resetControl }) ∧
    (Reference.session 3 ["10 LET X = 5", "20 PRINT X", "30 END", "RUN"]
      (World.initial [])).cout = "5\n" := by
  refine ⟨?_, by decide⟩
  intro w fuel hwf hnn hkeys hplain hfuel
  unfold runProgram
  have hlen : w.program.parsedStmts.length ≤ fuel := by
    have : w.program.parsedStmts.length = w.program.sourceLines.length := by
      have := congrArg List.length hkeys
      simpa [IntMap.keys] using this
    omega
  exact runLoop_plain X w.program.sourceLines w.program.parsedStmts hwf hnn hkeys hplain
    w.program.parsedStmts [] [] w.program.sourceLines fuel
    { w with program := w.program.resetControl } (by simp) (by simp) hkeys rfl rfl rfl rfl hlen

/-- C5 (witness): the program `10 LET X = 5`, `20 PRINT X`, `30 END`. -/
theorem runProgram_straight_line_witness :
    Reference.threeLineWorld.program.sourceLines.WF ∧
    (∀ n ∈ Reference.threeLineWorld.program.sourceLines.keys, 0 ≤ n) ∧
    Reference.threeLineWorld.program.parsedStmts.keys =
      Reference.threeLineWorld.program.sourceLines.keys ∧
    (∀ e ∈ Reference.threeLineWorld.program.parsedStmts, e.2.isPlain = true) ∧
    Reference.threeLineWorld.program.sourceLines.length ≤ 3 ∧
    runProgram Reference.externals 3 Reference.threeLineWorld
        Reference.threeLineWorld.program.getFirstLineNumber =
      execAll Reference.externals
        (uptoEnd (Reference.threeLineWorld.program.parsedStmts.map Prod.snd))
        { Reference.threeLineWorld with
          program := Reference.threeLineWorld.program.resetControl } :=
  have hwf : Reference.threeLineWorld.program.sourceLines.WF := by
    unfold IntMap.WF; decide
  ⟨hwf, by decide, by decide, by decide, by decide,
    (runProgram_straight_line Reference.externals).1 Reference.threeLineWorld 3 hwf
      (by decide) (by decide) (by decide) (by decide)⟩

/-! ## The shape of a call of `processLine` -/

theorem Program.hasJump_eq_false_iff {S : Type} (p : Program S) :
    p.hasJump = false ↔ p.pendingJump = -2 := by
  simp [Program.hasJump]

/-- The three effects a statement can have on the store: none, a stop request, or a
jump request to a line whose text it has found non-empty. -/
theorem Statement.execute_program (X : Externals) (stmt : Statement X.Expression)
    (w : World X.Expression) :
    (stmt.execute X w).2.program = w.program ∨
    ((stmt.execute X w).1 = .ok ∧ (stmt.execute X w).2.program = w.program.requestStop) ∨
    (∃ t, (stmt.execute X w).1 = .ok ∧ stmt.isJump = true ∧ w.program.getSourceLine t ≠ "" ∧
      (stmt.execute X w).2.program = w.program.requestJump t) := by
  cases stmt with
  | RemStatement => simp [Statement.execute]
  | LetStatement var rhs => cases h : X.eval rhs w.state <;> simp [Statement.execute, h]
  | PrintStatement exp => cases h : X.eval exp w.state <;> simp [Statement.execute, h]
  | InputStatement var => simp [Statement.execute]
  | EndStatement => simp [Statement.execute]
  | GotoStatement target =>
    by_cases h : w.program.getSourceLine target = ""
    · simp [Statement.execute, h]
    · exact Or.inr (Or.inr ⟨target, by simp [Statement.execute, h], rfl, h,
        by simp [Statement.execute, h]⟩)
  | IfStatement lhs op rhs target =>
    cases hl : X.eval lhs w.state with
    | error e => simp [Statement.execute, hl]
    | ok lv =>
      cases hr : X.eval rhs w.state with
      | error e => simp [Statement.execute, hl, hr]
      | ok rv =>
        by_cases hc : IfStatement.cond op lv rv = true
        · by_cases h : w.program.getSourceLine target = ""
          · simp [Statement.execute, hl, hr, hc, h]
          · exact Or.inr (Or.inr ⟨target, by simp [Statement.execute, hl, hr, hc, h], rfl, h,
              by simp [Statement.execute, hl, hr, hc, h]⟩)
        · simp [Statement.execute, hl, hr, hc]

/-- A statement returns normally or raises an error; when it raises, nothing has
changed. -/
theorem Statement.execute_status (X : Externals) (stmt : Statement X.Expression)
    (w : World X.Expression) :
    (stmt.execute X w).1 = .ok ∨ ∃ e, stmt.execute X w = (.error e, w) := by
  cases stmt with
  | RemStatement => simp [Statement.execute]
  | LetStatement var rhs => cases h : X.eval rhs w.state <;> simp [Statement.execute, h]
  | PrintStatement exp => cases h : X.eval exp w.state <;> simp [Statement.execute, h]
  | InputStatement var => simp [Statement.execute]
  | EndStatement => simp [Statement.execute]
  | GotoStatement target =>
    by_cases h : w.program.getSourceLine target = "" <;> simp [Statement.execute, h]
  | IfStatement lhs op rhs target =>
    cases hl : X.eval lhs w.state with
    | error e => simp [Statement.execute, hl]
    | ok lv =>
      cases hr : X.eval rhs w.state with
      | error e => simp [Statement.execute, hl, hr]
      | ok rv =>
        by_cases hc : IfStatement.cond op lv rv = true <;>
          by_cases h : w.program.getSourceLine target = "" <;>
          simp [Statement.execute, hl, hr, hc, h]

/-- A statement leaves the jump register as it is unless it returns normally and is a
`Goto` or an `If`. -/
theorem Statement.execute_pendingJump (X : Externals) (stmt : Statement X.Expression)
    (w : World X.Expression)
    (h : stmt.isJump = false ∨ (stmt.execute X w).1 ≠ .ok) :
    (stmt.execute X w).2.program.pendingJump = w.program.pendingJump := by
  rcases Statement.execute_program X stmt w with h1 | ⟨_, h1⟩ | ⟨t, hok, hj, _, _⟩
  · rw [h1]
  · rw [h1]; rfl
  · rcases h with h | h
    · rw [h] at hj; cases hj
    · exact absurd hok h

theorem letStatement_construct_isJump (X : Externals) (sc : TokenScanner)
    (stmt : Statement X.Expression) (h : LetStatement.construct X sc = .ok stmt) :
    stmt.isJump = false := by
  unfold LetStatement.construct at h
  simp only at h
  split_ifs at h
  split at h
  · cases h
  · cases h; rfl

theorem printStatement_construct_isJump (X : Externals) (sc : TokenScanner)
    (stmt : Statement X.Expression) (h : PrintStatement.construct X sc = .ok stmt) :
    stmt.isJump = false := by
  unfold PrintStatement.construct at h
  split at h
  · cases h
  · cases h; rfl

theorem inputStatement_construct_isJump (X : Externals) (sc : TokenScanner)
    (stmt : Statement X.Expression) (h : InputStatement.construct X sc = .ok stmt) :
    stmt.isJump = false := by
  unfold InputStatement.construct at h
  simp only at h
  split_ifs at h
  cases h; rfl

theorem IntMap.firstKey_mem {V : Type} (m : IntMap V) (k : Int)
    (h : IntMap.firstKey m = some k) : k ∈ IntMap.keys m := by
  cases m with
  | nil => simp [IntMap.firstKey] at h
  | cons e t =>
    obtain ⟨k', v⟩ := e
    simp only [IntMap.firstKey, Option.some.injEq] at h
    simp [IntMap.keys, h]

theorem IntMap.upperBound_mem {V : Type} (m : IntMap V) (n k : Int)
    (h : IntMap.upperBound m n = some k) : k ∈ IntMap.keys m := by
  induction m with
  | nil => simp [IntMap.upperBound] at h
  | cons e t ih =>
    obtain ⟨k', v⟩ := e
    unfold IntMap.upperBound at h
    split_ifs at h
    · simp only [Option.some.injEq] at h
      simp [IntMap.keys, h]
    · have := ih h
      simp only [IntMap.keys, List.map_cons, List.mem_cons]
      exact Or.inr this

theorem Program.mem_keys_of_getSourceLine {S : Type} (p : Program S) (n : Int)
    (h : p.getSourceLine n ≠ "") : n ∈ p.sourceLines.keys := by
  by_contra hn
  apply h
  unfold Program.getSourceLine
  rw [(IntMap.find_eq_none_iff _ _).mpr hn]

theorem Program.getFirstLineNumber_mem {S : Type} (p : Program S)
    (h : p.getFirstLineNumber ≠ -1) : p.getFirstLineNumber ∈ p.sourceLines.keys := by
  unfold Program.getFirstLineNumber at h ⊢
  cases hf : p.sourceLines.firstKey with
  | none => simp [hf] at h
  | some k => exact IntMap.firstKey_mem _ _ hf

theorem Program.getNextLineNumber_mem {S : Type} (p : Program S) (n : Int) :
    p.getNextLineNumber n = -1 ∨ p.getNextLineNumber n ∈ p.sourceLines.keys := by
  unfold Program.getNextLineNumber
  cases hf : p.sourceLines.upperBound n with
  | none => exact Or.inl rfl
  | some k => exact Or.inr (IntMap.upperBound_mem _ _ _ hf)

theorem processLine_word (X : Externals) (fuel : Nat) (line : String)
    (w : World X.Expression) (first : String) (sc : TokenScanner)
    (ht : X.tokenize line = first :: sc) (hn : X.getTokenType first ≠ .NUMBER)
    (hw : X.getTokenType first = .WORD) :
    processLine X fuel line w = directCommand X fuel (toUpperCase first) sc w := by
  unfold processLine directCommand
  rw [ht]
  simp only [hasMoreTokens, List.isEmpty_cons, Bool.not_false, Bool.not_true,
      Bool.false_eq_true, if_false, nextToken]
  rw [if_neg hn, if_pos hw]

theorem directCommand_cases (X : Externals) (fuel : Nat) (cmd : String) (sc : TokenScanner)
    (w : World X.Expression) (r : Status × World X.Expression)
    (h : directCommand X fuel cmd sc w = r) :
    (∃ cout, r.2 = { w with cout := cout }) ∨
    r.2 = { w with program := w.program.clear, state := w.state.Clear } ∨
    (∃ start, start ∈ w.program.sourceLines.keys ∧ r = runProgram X fuel w start) ∨
    (∃ stmt, r = Statement.execute X stmt w ∧
      (stmt.isJump = false ∨ r.2.program.hasJump = false ∨ r.1 ≠ .ok)) ∨
    (∃ stmt w1, Statement.execute X stmt w = (.ok, w1) ∧ w1.program.hasJump = true ∧
      r = runProgram X fuel { w1 with program := w1.program.consumeJump.2 }
          w1.program.consumeJump.1) := by
  have same : ∀ st, r = (st, w) → (∃ cout, r.2 = { w with cout := cout }) :=
    fun st hr => ⟨w.cout, by rw [hr]⟩
  unfold directCommand at h
  by_cases h1 : cmd = "LET"
  · rw [if_pos h1] at h
    split at h
    · exact Or.inl (same _ h.symm)
    · rename_i stmt hcon
      exact Or.inr (Or.inr (Or.inr (Or.inl ⟨stmt, h.symm,
        Or.inl (letStatement_construct_isJump X sc stmt hcon)⟩)))
  rw [if_neg h1] at h
  by_cases h2 : cmd = "PRINT"
  · rw [if_pos h2] at h
    split at h
    · exact Or.inl (same _ h.symm)
    · rename_i stmt hcon
      exact Or.inr (Or.inr (Or.inr (Or.inl ⟨stmt, h.symm,
        Or.inl (printStatement_construct_isJump X sc stmt hcon)⟩)))
  rw [if_neg h2] at h
  by_cases h3 : cmd = "INPUT"
  · rw [if_pos h3] at h
    split at h
    · exact Or.inl (same _ h.symm)
    · rename_i stmt hcon
      exact Or.inr (Or.inr (Or.inr (Or.inl ⟨stmt, h.symm,
        Or.inl (inputStatement_construct_isJump X sc stmt hcon)⟩)))
  rw [if_neg h3] at h
  by_cases h4 : cmd = "LIST"
  · rw [if_pos h4] at h
    split at h
    · exact Or.inl (same _ h.symm)
    · exact Or.inl ⟨_, by rw [← h]⟩
  rw [if_neg h4] at h
  by_cases h5 : cmd = "CLEAR"
  · rw [if_pos h5] at h
    split at h
    · exact Or.inl (same _ h.symm)
    · exact Or.inr (Or.inl (by rw [← h]))
  rw [if_neg h5] at h
  by_cases h6 : cmd = "RUN"
  · rw [if_pos h6] at h
    split at h
    · exact Or.inl (same _ h.symm)
    · simp only at h
      split at h
      · rename_i hstart
        exact Or.inr (Or.inr (Or.inl ⟨_, Program.getFirstLineNumber_mem _ hstart, h.symm⟩))
      · exact Or.inl (same _ h.symm)
  rw [if_neg h6] at h
  by_cases h7 : cmd = "GOTO"
  · rw [if_pos h7] at h
    simp only at h
    split at h
    · exact Or.inl (same _ h.symm)
    · split at h
      · exact Or.inl (same _ h.symm)
      · split at h
        · exact Or.inl (same _ h.symm)
        · rename_i hsrc
          exact Or.inr (Or.inr (Or.inl ⟨_, Program.mem_keys_of_getSourceLine _ _ hsrc,
            h.symm⟩))
  rw [if_neg h7] at h
  by_cases h8 : cmd = "IF"
  · rw [if_pos h8] at h
    split at h
    · exact Or.inl (same _ h.symm)
    · rename_i stmt _
      split at h
      · rename_i w1 hex
        split at h
        · rename_i hj
          exact Or.inr (Or.inr (Or.inr (Or.inr ⟨stmt, w1, hex, hj, h.symm⟩)))
        · rename_i hj
          refine Or.inr (Or.inr (Or.inr (Or.inl ⟨stmt, by rw [hex, h], Or.inr (Or.inl ?_)⟩)))
          rw [← h]
          simpa using hj
      · rename_i st w1 hnok hex
        refine Or.inr (Or.inr (Or.inr (Or.inl ⟨stmt, by rw [hex, h], Or.inr (Or.inr ?_)⟩)))
        rw [← h]
        intro hst
        simp only at hst
        subst hst
        exact hnok rfl
  rw [if_neg h8] at h
  by_cases h9 : cmd = "REM"
  · rw [if_pos h9] at h
    exact Or.inl (same _ h.symm)
  rw [if_neg h9] at h
  by_cases h10 : cmd = "END"
  · rw [if_pos h10] at h
    split at h <;> exact Or.inl (same _ h.symm)
  rw [if_neg h10] at h
  by_cases h11 : cmd = "QUIT"
  · rw [if_pos h11] at h
    split at h <;> exact Or.inl (same _ h.symm)
  rw [if_neg h11] at h
  exact Or.inl (same _ h.symm)

/-- The four ways a call of `processLine` can go. -/
theorem processLine_cases (X : Externals) (fuel : Nat) (line : String)
    (w : World X.Expression) :
    (∃ n sc, programLine X line = some (n, sc)) ∨
    (∃ n, processLine X fuel line w = (.ok, { w with program := w.program.removeSourceLine n })) ∨
    (∃ st, processLine X fuel line w = (st, w)) ∨
    (∃ first sc, X.tokenize line = first :: sc ∧ X.getTokenType first = .WORD ∧
      processLine X fuel line w = directCommand X fuel (toUpperCase first) sc w) := by
  cases ht : X.tokenize line with
  | nil =>
    refine Or.inr (Or.inr (Or.inl ⟨.ok, ?_⟩))
    unfold processLine
    simp [ht, hasMoreTokens]
  | cons first sc =>
    by_cases hnum : X.getTokenType first = .NUMBER
    · cases hi : X.stringToInteger first with
      | error e =>
        refine Or.inr (Or.inr (Or.inl ⟨.error e, ?_⟩))
        unfold processLine
        simp only [ht, hasMoreTokens, List.isEmpty_cons, Bool.not_false, Bool.not_true,
          Bool.false_eq_true, if_false, nextToken]
        rw [if_pos hnum]
        simp only [hi]
      | ok n =>
        cases sc with
        | nil =>
          refine Or.inr (Or.inl ⟨n, ?_⟩)
          unfold processLine
          simp only [ht, hasMoreTokens, List.isEmpty_cons, Bool.not_false, Bool.not_true,
            Bool.false_eq_true, if_false, nextToken]
          rw [if_pos hnum]
          simp only [hi, List.isEmpty_nil, Bool.not_true, Bool.not_false, if_true]
        | cons kw sc2 =>
          refine Or.inl ⟨n, kw :: sc2, ?_⟩
          unfold programLine
          simp [ht, hnum, hi, hasMoreTokens]
    · by_cases hword : X.getTokenType first = .WORD
      · exact Or.inr (Or.inr (Or.inr ⟨first, sc, rfl, hword,
          processLine_word X fuel line w first sc ht hnum hword⟩))
      · refine Or.inr (Or.inr (Or.inl ⟨.error "SYNTAX ERROR", ?_⟩))
        unfold processLine
        simp only [ht, hasMoreTokens, List.isEmpty_cons, Bool.not_false, Bool.not_true,
          Bool.false_eq_true, if_false, nextToken]
        rw [if_neg hnum, if_neg hword]

/-! ## The cache agrees with the stored text (C6) -/

theorem Statement.execute_tables (X : Externals) (stmt : Statement X.Expression)
    (w : World X.Expression) :
    (stmt.execute X w).2.program.sourceLines = w.program.sourceLines ∧
    (stmt.execute X w).2.program.parsedStmts = w.program.parsedStmts := by
  cases stmt with
  | RemStatement => simp [Statement.execute]
  | LetStatement var rhs => cases h : X.eval rhs w.state <;> simp [Statement.execute, h]
  | PrintStatement exp => cases h : X.eval exp w.state <;> simp [Statement.execute, h]
  | InputStatement var => simp [Statement.execute]
  | EndStatement => simp [Statement.execute, Program.requestStop]
  | GotoStatement target =>
    simp only [Statement.execute]
    split_ifs <;> simp [Program.requestJump]
  | IfStatement lhs op rhs target =>
    simp only [Statement.execute]
    cases hl : X.eval lhs w.state with
    | error e => simp
    | ok lv =>
      cases hr : X.eval rhs w.state with
      | error e => simp
      | ok rv =>
        simp only
        split_ifs <;> simp [Program.requestJump]

theorem ensureParsedForLine_result (X : Externals) (p : Program (Statement X.Expression))
    (n : Int) :
    (ensureParsedForLine X p n).2 = p ∨
    ∃ stmt, p.getParsedStatement n = none ∧ parseSource X (p.getSourceLine n) = .ok stmt ∧
      ensureParsedForLine X p n =
        (.ok, { p with parsedStmts := p.parsedStmts.assign n stmt }) := by
  unfold ensureParsedForLine parseSource
  cases hg : p.getParsedStatement n with
  | some s => simp
  | none =>
    simp only
    cases ht : X.tokenize (p.getSourceLine n) with
    | nil =>
      simp only [nextToken]
      by_cases hnum : X.getTokenType "" = .NUMBER
      · simp [hnum, hasMoreTokens]
      · simp [hnum]
    | cons lnTok s1 =>
      simp only [nextToken]
      by_cases hnum : X.getTokenType lnTok = .NUMBER
      · simp only [hnum, ne_eq, not_true_eq_false, if_false]
        cases s1 with
        | nil => simp [hasMoreTokens]
        | cons kw s2 =>
          simp only [hasMoreTokens, List.isEmpty_cons, Bool.not_false, Bool.not_true,
            Bool.false_eq_true, if_false, constructStatement, nextToken]
          by_cases hw : X.getTokenType kw = .WORD
          · simp only [hw, ne_eq, not_true_eq_false, if_false]
            cases hp : parseStatementByKeyword X (toUpperCase kw) s2 with
            | error e => simp
            | ok stmt =>
              simp only
              cases hs : p.setParsedStatement n stmt with
              | error e => simp
              | ok p1 =>
                right
                refine ⟨stmt, trivial, ?_, ?_⟩
                · rfl
                · rw [Program.setParsedStatement_ok p p1 n stmt hs]
          · simp [hw]
      · simp [hnum]

/-- A property of the store kept by `ensureParsedForLine`, by every statement and by
`consumeJump` is kept by the run loop. -/
theorem runLoop_invariant (X : Externals) (P : Program (Statement X.Expression) → Prop)
    (hens : ∀ p n, P p → P (ensureParsedForLine X p n).2)
    (hexec : ∀ (stmt : Statement X.Expression) w, P w.program → P (stmt.execute X w).2.program)
    (hcons : ∀ p, P p → P p.consumeJump.2) :
    ∀ (fuel : Nat) (current : Int) (w : World X.Expression),
      P w.program → P (runLoop X fuel current w).2.program := by
  intro fuel
  induction fuel with
  | zero =>
    intro current w hw
    unfold runLoop
    split_ifs <;> exact hw
  | succ fuel ih =>
    intro current w hw
    rw [runLoop]
    by_cases hc : current = -1
    · rw [if_pos hc]; exact hw
    rw [if_neg hc]
    have h1 := hens w.program current hw
    rcases he : ensureParsedForLine X w.program current with ⟨st, program1⟩
    rw [he] at h1
    cases st with
    | ok =>
      simp only
      cases hg : program1.getParsedStatement current with
      | none => exact h1
      | some stmt =>
        simp only
        have h2 := hexec stmt { w with program := program1 } h1
        rcases hx : stmt.execute X { w with program := program1 } with ⟨st2, w2⟩
        rw [hx] at h2
        cases st2 with
        | ok =>
          simp only
          split_ifs
          · exact h2
          · exact hcons _ h2
          · exact ih _ _ (hcons _ h2)
          · exact ih _ _ h2
        | error e => exact h2
        | exit => exact h2
        | outOfFuel => exact h2
    | error e => exact h1
    | exit => exact h1
    | outOfFuel => exact h1

theorem Program.removeSourceLine_eq {S : Type} (p : Program S) (h : p.CacheInSource) (n : Int) :
    p.removeSourceLine n =
      { p with sourceLines := p.sourceLines.erase n, parsedStmts := p.parsedStmts.erase n } := by
  unfold Program.removeSourceLine
  cases hs : p.sourceLines.find n with
  | none =>
    have hn : n ∉ p.sourceLines.keys := (IntMap.find_eq_none_iff _ _).mp hs
    have hn2 : n ∉ p.parsedStmts.keys := fun hm => hn (h n hm)
    have hc : p.parsedStmts.find n = none := (IntMap.find_eq_none_iff _ _).mpr hn2
    simp only [hc]
    rw [IntMap.erase_of_not_mem _ _ hn, IntMap.erase_of_not_mem _ _ hn2]
  | some v =>
    simp only
    cases hc : p.parsedStmts.find n with
    | none =>
      simp only
      rw [IntMap.erase_of_not_mem p.parsedStmts _ ((IntMap.find_eq_none_iff _ _).mp hc)]
    | some c => simp only

/-- A property of the store kept by every way `processLine` changes the store is kept by
`processLine`. -/
theorem processLine_invariant (X : Externals) (P : Program (Statement X.Expression) → Prop)
    (hline : ∀ fuel line w n sc, P w.program → programLine X line = some (n, sc) →
      P (processLine X fuel line w).2.program)
    (hrem : ∀ p n, P p → P (p.removeSourceLine n))
    (hclear : ∀ p, P p → P p.clear)
    (hreset : ∀ p, P p → P p.resetControl)
    (hens : ∀ p n, P p → P (ensureParsedForLine X p n).2)
    (hexec : ∀ (stmt : Statement X.Expression) w, P w.program → P (stmt.execute X w).2.program)
    (hcons : ∀ p, P p → P p.consumeJump.2)
    (fuel : Nat) (line : String) (w : World X.Expression) (hw : P w.program) :
    P (processLine X fuel line w).2.program := by
  have hrun : ∀ (w1 : World X.Expression) start, P w1.program →
      P (runProgram X fuel w1 start).2.program := by
    intro w1 start h1
    unfold runProgram
    exact runLoop_invariant X P hens hexec hcons fuel start _ (hreset _ h1)
  rcases processLine_cases X fuel line w with ⟨n, sc, hl⟩ | ⟨n, hr⟩ | ⟨st, hr⟩ | ⟨first, sc, _, _, hr⟩
  · exact hline fuel line w n sc hw hl
  · rw [hr]; exact hrem _ n hw
  · rw [hr]; exact hw
  · rw [hr]
    rcases directCommand_cases X fuel (toUpperCase first) sc w _ rfl with
      ⟨cout, h⟩ | h | ⟨start, _, h⟩ | ⟨stmt, h, _⟩ | ⟨stmt, w1, hx, _, h⟩
    · rw [h]; exact hw
    · rw [h]; exact hclear _ hw
    · rw [h]; exact hrun w start hw
    · rw [h]; exact hexec stmt w hw
    · rw [h]
      have h1 := hexec stmt w hw
      rw [hx] at h1
      exact hrun _ _ (hcons _ h1)

theorem Program.getParsedStatement_addSourceLine {S : Type} (p : Program S) (n m : Int)
    (line : String) :
    (p.addSourceLine n line).getParsedStatement m =
      if m = n then none else p.getParsedStatement m := by
  rw [Program.parsedStmts_addSourceLine]
  unfold Program.getParsedStatement
  by_cases h : m = n
  · subst h; simp [IntMap.find_erase_self]
  · simp [h, IntMap.find_erase_of_ne _ _ _ h]

theorem Program.getSourceLine_addSourceLine {S : Type} (p : Program S) (n m : Int)
    (line : String) :
    (p.addSourceLine n line).getSourceLine m = if m = n then line else p.getSourceLine m := by
  rw [Program.parsedStmts_addSourceLine]
  unfold Program.getSourceLine
  by_cases h : m = n
  · subst h; simp [IntMap.find_assign_self]
  · simp [h, IntMap.find_assign_of_ne _ _ _ _ h]

theorem Program.getParsedStatement_removeSourceLine {S : Type} (p : Program S) (n m : Int) :
    (p.removeSourceLine n).getParsedStatement m =
      if m = n then none else p.getParsedStatement m := by
  unfold Program.removeSourceLine Program.getParsedStatement
  by_cases h : m = n
  · subst h
    cases hs : p.sourceLines.find m <;> cases hc : p.parsedStmts.find m <;>
      simp [hc, IntMap.find_erase_self]
  · cases hs : p.sourceLines.find n <;> cases hc : p.parsedStmts.find n <;>
      simp [hc, h, IntMap.find_erase_of_ne _ _ _ h]

theorem Program.getSourceLine_removeSourceLine {S : Type} (p : Program S) (n m : Int) :
    (p.removeSourceLine n).getSourceLine m = if m = n then "" else p.getSourceLine m := by
  unfold Program.removeSourceLine Program.getSourceLine
  by_cases h : m = n
  · subst h
    cases hs : p.sourceLines.find m <;> cases hc : p.parsedStmts.find m <;>
      simp [hc, hs, IntMap.find_erase_self]
  · cases hs : p.sourceLines.find n <;> cases hc : p.parsedStmts.find n <;>
      simp [hc, h, IntMap.find_erase_of_ne _ _ _ h]

theorem parseSource_of_programLine (X : Externals) (line : String) (n : Int)
    (sc : TokenScanner) (h : programLine X line = some (n, sc)) :
    parseSource X line = constructStatement X sc := by
  unfold programLine at h
  unfold parseSource
  cases ht : X.tokenize line with
  | nil => simp [ht] at h
  | cons first s1 =>
    simp only [ht] at h
    by_cases hnum : X.getTokenType first = .NUMBER
    · simp only [hnum, if_true] at h
      cases hi : X.stringToInteger first with
      | error e => simp [hi] at h
      | ok k =>
        simp only [hi] at h
        by_cases hm : hasMoreTokens s1 = true
        · simp only [hm, if_true, Option.some.injEq, Prod.mk.injEq] at h
          obtain ⟨_, rfl⟩ := h
          simp [hnum, hm]
        · simp [hm] at h
    · simp [hnum] at h

theorem Program.cacheMatchesSource_of_tables (X : Externals)
    (p q : Program (Statement X.Expression)) (hs : q.sourceLines = p.sourceLines)
    (hc : q.parsedStmts = p.parsedStmts) (h : p.CacheMatchesSource X) :
    q.CacheMatchesSource X := by
  intro n stmt hn
  unfold Program.getParsedStatement at hn
  unfold Program.getSourceLine
  rw [hc] at hn
  rw [hs]
  exact h n stmt hn

theorem Program.cacheMatchesSource_processLine (X : Externals) (fuel : Nat) (line : String)
    (w : World X.Expression) (h : w.program.CacheMatchesSource X) :
    (processLine X fuel line w).2.program.CacheMatchesSource X := by
  refine processLine_invariant X (fun p => p.CacheMatchesSource X) ?_ ?_ ?_ ?_ ?_ ?_ ?_
    fuel line w h
  · intro fuel line w n sc hw hl
    rw [processLine_programLine X fuel line w n sc hl]
    have hps := parseSource_of_programLine X line n sc hl
    cases hcs : constructStatement X sc with
    | error e =>
      intro m stmt hm
      simp only at hm ⊢
      rw [Program.getParsedStatement_addSourceLine] at hm
      rw [Program.getSourceLine_addSourceLine]
      by_cases hmn : m = n
      · simp [hmn] at hm
      · simp only [hmn, if_false] at hm ⊢
        exact hw m stmt hm
    | ok s =>
      intro m stmt hm
      simp only [Program.getParsedStatement, Program.getSourceLine] at hm ⊢
      by_cases hmn : m = n
      · subst hmn
        rw [IntMap.find_assign_self] at hm
        rw [IntMap.find_assign_self]
        simp only [Option.some.injEq] at hm
        subst hm
        rw [hps, hcs]
      · rw [IntMap.find_assign_of_ne _ _ _ _ hmn, IntMap.find_erase_of_ne _ _ _ hmn] at hm
        rw [IntMap.find_assign_of_ne _ _ _ _ hmn]
        exact hw m stmt hm
  · intro p n hp m stmt hm
    rw [Program.getParsedStatement_removeSourceLine] at hm
    rw [Program.getSourceLine_removeSourceLine]
    by_cases hmn : m = n
    · simp [hmn] at hm
    · simp only [hmn, if_false] at hm ⊢
      exact hp m stmt hm
  · intro p _ m stmt hm
    simp [Program.clear, Program.resetControl, Program.getParsedStatement, IntMap.find] at hm
  · intro p hp
    exact Program.cacheMatchesSource_of_tables X p _ rfl rfl hp
  · intro p n hp
    rcases ensureParsedForLine_result X p n with h1 | ⟨stmt, hnone, hparse, h1⟩
    · rw [h1]; exact hp
    · rw [h1]
      intro m s hm
      simp only [Program.getParsedStatement, Program.getSourceLine] at hm ⊢
      by_cases hmn : m = n
      · subst hmn
        rw [IntMap.find_assign_self] at hm
        simp only [Option.some.injEq] at hm
        subst hm
        exact hparse
      · rw [IntMap.find_assign_of_ne _ _ _ _ hmn] at hm
        exact hp m s hm
  · intro stmt w hw
    exact Program.cacheMatchesSource_of_tables X w.program _ (Statement.execute_tables X stmt w).1
      (Statement.execute_tables X stmt w).2 hw
  · intro p hp
    exact Program.cacheMatchesSource_of_tables X p _ rfl rfl hp

/-- Entering a program line whose statement constructs stores the text and caches the
statement. -/
theorem processLine_parsed_line (X : Externals) (fuel : Nat) (line : String)
    (w : World X.Expression) (n : Int) (sc : TokenScanner) (stmt : Statement X.Expression)
    (hl : programLine X line = some (n, sc)) (hcs : constructStatement X sc = .ok stmt) :
    (processLine X fuel line w).1 = .ok ∧
    (processLine X fuel line w).2.program.getSourceLine n = line ∧
    (processLine X fuel line w).2.program.getParsedStatement n = some stmt := by
  rw [processLine_programLine X fuel line w n sc hl, hcs]
  simp [Program.getSourceLine, Program.getParsedStatement, IntMap.find_assign_self]

/-- C6: in every interpreter state reachable from the empty store through calls of
`processLine`, every cached statement is exactly the statement obtained by parsing the
source text currently stored under its line number.  In particular, entering a line `n`
whose text parses to `stmt` (whatever was stored and cached under `n` before) ends
normally with that text stored and `stmt` cached under `n`, so that an iteration of the
run loop at line `n` parses nothing and executes `stmt`; e.g. after `10 PRINT 1` and
then `10 PRINT 2`, `RUN` writes `2`. -/
theorem cache_matches_source (X : Externals) :
    (∀ w, Reachable X w → w.program.CacheMatchesSource X) ∧
    (∀ (fuel : Nat) (line : String) (w : World X.Expression) (n : Int) (sc : TokenScanner)
        (stmt : Statement X.Expression),
      programLine X line = some (n, sc) → constructStatement X sc = .ok stmt →
      (processLine X fuel line w).1 = .ok ∧
      (processLine X fuel line w).2.program.getSourceLine n = line ∧
      (processLine X fuel line w).2.program.getParsedStatement n = some stmt ∧
      parseSource X line = .ok stmt ∧
      ensureParsedForLine X (processLine X fuel line w).2.program n =
        (.ok, (processLine X fuel line w).2.program) ∧
      (n ≠ -1 → ∀ fuel2 : Nat,
        runLoop X (fuel2 + 1) n (processLine X fuel line w).2 =
          match stmt.execute X (processLine X fuel line w).2 with
          | (.ok, w2) =>
            if w2.program.stopRequested then (.ok, w2)
            else if w2.program.hasJump then
              if w2.program.consumeJump.2.getSourceLine w2.program.consumeJump.1 = "" then
                (.error "LINE NUMBER ERROR", { w2 with program := w2.program.consumeJump.2 })
              else runLoop X fuel2 w2.program.consumeJump.1
                { w2 with program := w2.program.consumeJump.2 }
            else runLoop X fuel2 (w2.program.getNextLineNumber n) w2
          | (st, w2) => (st, w2))) ∧
    (Reference.session 3 ["10 PRINT 1", "10 PRINT 2", "RUN"] (World.initial [])).cout
      = "2\n" := by
  refine ⟨?_, ?_, by decide⟩
  · intro w hw
    induction hw with
    | initial cin =>
      intro n stmt hn
      simp [World.initial, Program.empty, Program.getParsedStatement, IntMap.find] at hn
    | step fuel line w _ ih => exact Program.cacheMatchesSource_processLine X fuel line w ih
    | input cin w _ ih => exact ih
  · intro fuel line w n sc stmt hl hcs
    have hget : (processLine X fuel line w).2.program.getParsedStatement n = some stmt := by
      rw [processLine_programLine X fuel line w n sc hl, hcs]
      simp [Program.getParsedStatement, IntMap.find_assign_self]
    refine ⟨?_, ?_, hget, ?_, ensureParsedForLine_cached X _ n stmt hget,
      fun hn fuel2 => runLoop_step_cached X fuel2 n _ stmt hn hget⟩
    · rw [processLine_programLine X fuel line w n sc hl, hcs]
    · rw [processLine_programLine X fuel line w n sc hl, hcs]
      simp [Program.getSourceLine, IntMap.find_assign_self]
    · rw [parseSource_of_programLine X line n sc hl, hcs]

/-- C6 (witness): `10 PRINT 1` entered, then `10 PRINT 2`. -/
theorem cache_matches_source_witness :
    programLine Reference.externals "10 PRINT 2" = some (10, ["PRINT", "2"]) ∧
    constructStatement Reference.externals ["PRINT", "2"]
      = .ok (.PrintStatement (.ConstantExp 2)) ∧
    (processLine Reference.externals 0 "10 PRINT 2"
      (processLine Reference.externals 0 "10 PRINT 1" (World.initial [])).2).2.program.getParsedStatement
        10 = some (.PrintStatement (.ConstantExp 2)) ∧
    Reachable Reference.externals
      (processLine Reference.externals 0 "10 PRINT 1" (World.initial [])).2 ∧
    (processLine Reference.externals 0 "10 PRINT 1"
      (World.initial [])).2.program.CacheMatchesSource Reference.externals :=
  have hr : Reachable Reference.externals
      (processLine Reference.externals 0 "10 PRINT 1" (World.initial [])).2 :=
    Reachable.step 0 "10 PRINT 1" _ (Reachable.initial [])
  ⟨by decide, by decide,
    ((cache_matches_source Reference.externals).2.1 0 "10 PRINT 2"
      (processLine Reference.externals 0 "10 PRINT 1" (World.initial [])).2 10 ["PRINT", "2"]
      (.PrintStatement (.ConstantExp 2)) (by decide) (by decide)).2.2.1,
    hr, (cache_matches_source Reference.externals).1 _ hr⟩

/-! ## Jump targets are checked when the jump is taken (C7, C8) -/

theorem constructStatement_goto (X : Externals) (kw tm : String) (m : Int)
    (hkw : X.getTokenType kw = .WORD) (hup : toUpperCase kw = "GOTO") (htm : tm ≠ "")
    (htt : X.getTokenType tm = .NUMBER) (hi : X.stringToInteger tm = .ok m) :
    constructStatement X [kw, tm] = .ok (.GotoStatement m) := by
  simp [constructStatement, nextToken, hkw, hup, parseStatementByKeyword,
    GotoStatement.construct, htm, htt, hi, hasMoreTokens]

/-- C7: a jump target is checked only at execution time.  Entering the program line
`n GOTO m` through `processLine` ends normally whether or not `m` is stored, the line's
text being stored and the `GotoStatement` cached under `n`.  Executing a
`GotoStatement` for `m` raises LINE NUMBER ERROR if and only if `m` has no stored
source text at that moment (`getSourceLine(m)` is empty); in that case nothing
changes, in particular no jump is registered, and otherwise the jump to `m` is
requested. -/
theorem goto_target_checked_at_execution (X : Externals) :
    (∀ (fuel : Nat) (line : String) (w : World X.Expression) (n m : Int) (kw tm : String),
      programLine X line = some (n, [kw, tm]) → X.getTokenType kw = .WORD →
      toUpperCase kw = "GOTO" → tm ≠ "" → X.getTokenType tm = .NUMBER →
      X.stringToInteger tm = .ok m →
      (processLine X fuel line w).1 = .ok ∧
      (processLine X fuel line w).2.program.getSourceLine n = line ∧
      (processLine X fuel line w).2.program.getParsedStatement n = some (.GotoStatement m)) ∧
    (∀ (w : World X.Expression) (m : Int),
      (((Statement.GotoStatement m).execute X w).1 = .error "LINE NUMBER ERROR" ↔
        w.program.getSourceLine m = "") ∧
      (w.program.getSourceLine m = "" →
        (Statement.GotoStatement m).execute X w = (.error "LINE NUMBER ERROR", w) ∧
        ((Statement.GotoStatement m).execute X w).2.program.pendingJump
          = w.program.pendingJump) ∧
      (w.program.getSourceLine m ≠ "" →
        (Statement.GotoStatement m).execute X w =
          (.ok, { w with program := w.program.requestJump m }))) := by
  refine ⟨?_, ?_⟩
  · intro fuel line w n m kw tm hl hkw hup htm htt hi
    have hcs := constructStatement_goto X kw tm m hkw hup htm htt hi
    exact ⟨((processLine_parsed_line X fuel line w n [kw, tm] _ hl hcs)).1,
      ((processLine_parsed_line X fuel line w n [kw, tm] _ hl hcs)).2.1,
      ((processLine_parsed_line X fuel line w n [kw, tm] _ hl hcs)).2.2⟩
  · intro w m
    by_cases h : w.program.getSourceLine m = ""
    · simp [Statement.execute, h]
    · simp [Statement.execute, h]

/-- C7 (witness): `10 GOTO 50` entered into the empty store, then executed. -/
theorem goto_target_checked_at_execution_witness :
    programLine Reference.externals "10 GOTO 50" = some (10, ["GOTO", "50"]) ∧
    Reference.externals.getTokenType "GOTO" = .WORD ∧
    toUpperCase "GOTO" = "GOTO" ∧ "50" ≠ "" ∧
    Reference.externals.getTokenType "50" = .NUMBER ∧
    Reference.externals.stringToInteger "50" = .ok 50 ∧
    (processLine Reference.externals 0 "10 GOTO 50" (World.initial [])).1 = .ok ∧
    (processLine Reference.externals 0 "10 GOTO 50"
      (World.initial [])).2.program.getParsedStatement 10 = some (.GotoStatement 50) ∧
    ((Statement.GotoStatement 50).execute Reference.externals
      (processLine Reference.externals 0 "10 GOTO 50" (World.initial [])).2).1
      = .error "LINE NUMBER ERROR" :=
  have h := (goto_target_checked_at_execution Reference.externals).1 0 "10 GOTO 50"
    (World.initial []) 10 50 "GOTO" "50" (by decide) (by decide) (by decide) (by decide)
    (by decide) (by decide)
  ⟨by decide, by decide, by decide, by decide, by decide, by decide, h.1, h.2.2, by decide⟩

/-- C8: for every interpreter state and every line number `n` that is not a stored
line, the direct-mode command `GOTO n` raises LINE NUMBER ERROR and does nothing else:
the variable environment, the source table, the parse cache, the control registers,
the input and the output are as before (no statement has been executed). -/
theorem direct_goto_missing_line (X : Externals) (fuel : Nat) (line : String)
    (w : World X.Expression) (kw tn : String) (n : Int)
    (ht : X.tokenize line = [kw, tn]) (hkw : X.getTokenType kw = .WORD)
    (hup : toUpperCase kw = "GOTO") (htn : tn ≠ "") (htt : X.getTokenType tn = .NUMBER)
    (hi : X.stringToInteger tn = .ok n) (hmiss : n ∉ w.program.sourceLines.keys) :
    processLine X fuel line w = (.error "LINE NUMBER ERROR", w) := by
  have hnum : X.getTokenType kw ≠ .NUMBER := by rw [hkw]; decide
  have hsrc : w.program.getSourceLine n = "" := by
    unfold Program.getSourceLine
    rw [(IntMap.find_eq_none_iff _ _).mpr hmiss]
  rw [processLine_word X fuel line w kw [tn] ht hnum hkw, hup]
  simp [directCommand, nextToken, htn, htt, hasMoreTokens, hi, hsrc]

/-- C8 (witness): `GOTO 50` typed when lines 10, 20 and 30 are stored. -/
theorem direct_goto_missing_line_witness :
    Reference.externals.tokenize "GOTO 50" = ["GOTO", "50"] ∧
    Reference.externals.getTokenType "GOTO" = .WORD ∧
    toUpperCase "GOTO" = "GOTO" ∧ "50" ≠ "" ∧
    Reference.externals.getTokenType "50" = .NUMBER ∧
    Reference.externals.stringToInteger "50" = .ok 50 ∧
    (50 : Int) ∉ Reference.threeLineWorld.program.sourceLines.keys ∧
    processLine Reference.externals 5 "GOTO 50" Reference.threeLineWorld =
      (.error "LINE NUMBER ERROR", Reference.threeLineWorld) :=
  ⟨by decide, by decide, by decide, by decide, by decide, by decide, by decide,
    direct_goto_missing_line Reference.externals 5 "GOTO 50" Reference.threeLineWorld
      "GOTO" "50" 50 (by decide) (by decide) (by decide) (by decide) (by decide) (by decide)
      (by decide)⟩

/-! ## `INPUT` (C9, C10) -/

/-- C9 (the code at the failing input): for `INPUT X` with the lines `99999999999` and
`7` on standard input, the first line, a literal outside the 32-bit range, is rejected
but its text is echoed before `INVALID NUMBER`; the second line is accepted, echoed
and stored.  With `abc` and `7` the rejected line gives the prompt and one
`INVALID NUMBER` line only. -/
theorem inputStatement_echoes_rejected_literal :
    InputStatement.loop "X" ["99999999999", "7"] [] "" =
      ([("X", 7)], [], " ? 99999999999\nINVALID NUMBER\n ? 7\n") ∧
    InputStatement.loop "X" ["abc", "7"] [] "" =
      ([("X", 7)], [], " ? INVALID NUMBER\n ? 7\n") := by
  decide

theorem isdigit_iff (c : Char) : isdigit c = true ↔ IsDecimalDigit c := by
  simp [isdigit, IsDecimalDigit]

theorem IsDecimalDigit.not_space (c : Char) (h : IsDecimalDigit c) : isspace c = false := by
  obtain ⟨h1, h2⟩ := h
  have e1 : '0'.toNat = 48 := rfl
  rw [e1] at h1
  have n1 : c ≠ ' ' := by rintro rfl; revert h1; decide
  have n2 : c ≠ '\t' := by rintro rfl; revert h1; decide
  have n3 : c ≠ '\n' := by rintro rfl; revert h1; decide
  have n4 : c ≠ '\r' := by rintro rfl; revert h1; decide
  have n5 : c.toNat ≠ 11 := by omega
  have n6 : c.toNat ≠ 12 := by omega
  simp [isspace, n1, n2, n3, n4, n5, n6]

theorem IsDecimalDigit.not_sign (c : Char) (h : IsDecimalDigit c) : c ≠ '+' ∧ c ≠ '-' := by
  obtain ⟨h1, h2⟩ := h
  have e1 : '0'.toNat = 48 := rfl
  rw [e1] at h1
  constructor
  · rintro rfl; revert h1; decide
  · rintro rfl; revert h1; decide

theorem decimalValue_eq (cs : List Char) (acc : Nat) :
    decimalValue cs acc =
      acc * 10 ^ cs.length + Nat.ofDigits 10 (cs.reverse.map (fun c => c.toNat - '0'.toNat)) := by
  induction cs generalizing acc with
  | nil => simp [decimalValue]
  | cons c cs ih =>
    have e1 : '0'.toNat = 48 := rfl
    simp only [decimalValue, ih, List.reverse_cons, List.map_append, List.map_cons, List.map_nil,
      Nat.ofDigits_append, List.length_map, List.length_reverse, Nat.ofDigits_singleton,
      List.length_cons, e1]
    ring

theorem takeWhile_isdigit (digits : List Char) (h : ∀ c ∈ digits, IsDecimalDigit c) :
    digits.takeWhile isdigit = digits := by
  rw [List.takeWhile_eq_self_iff]
  intro c hc
  exact (isdigit_iff c).mpr (h c hc)

theorem all_isdigit (digits : List Char) (h : ∀ c ∈ digits, IsDecimalDigit c) :
    digits.all isdigit = true := by
  rw [List.all_eq_true]
  intro c hc
  exact (isdigit_iff c).mpr (h c hc)

theorem decimalValue_digits (digits : List Char) :
    decimalValue digits 0 =
      Nat.ofDigits 10 (digits.reverse.map (fun c => c.toNat - '0'.toNat)) := by
  rw [decimalValue_eq]; simp

theorem IsSignedLiteral.accepted (s : String) (v : Int) (h : IsSignedLiteral s v) :
    isIntegerString s = true ∧
    stoll s = if v < -9223372036854775808 ∨ v > 9223372036854775807 then none else some v := by
  obtain ⟨sign, digits, hd, hsign, hne, hdig, hv⟩ := h
  obtain ⟨d, ds, rfl⟩ := List.exists_cons_of_ne_nil hne
  have hd0 : IsDecimalDigit d := hdig d (List.mem_cons_self _ _)
  have htw := takeWhile_isdigit (d :: ds) hdig
  rcases hsign with rfl | rfl | rfl
  · simp only [List.nil_append] at hd
    refine ⟨?_, ?_⟩
    · unfold isIntegerString
      rw [hd]
      simp only [(IsDecimalDigit.not_sign d hd0).1, (IsDecimalDigit.not_sign d hd0).2, or_self,
        if_false, reduceCtorEq]
      exact all_isdigit _ hdig
    · unfold stoll
      rw [hd, List.dropWhile_cons_of_neg (by simp [IsDecimalDigit.not_space d hd0])]
      simp only [(IsDecimalDigit.not_sign d hd0).1, (IsDecimalDigit.not_sign d hd0).2, if_false,
        htw, reduceCtorEq, Bool.false_eq_true, decimalValue_digits]
      rw [hv]
      simp
  · simp only [List.singleton_append] at hd
    refine ⟨?_, ?_⟩
    · unfold isIntegerString
      rw [hd]
      simp only [true_or, if_true, reduceCtorEq, if_false]
      exact all_isdigit _ hdig
    · unfold stoll
      rw [hd, List.dropWhile_cons_of_neg (by decide)]
      simp only [show ¬ ('+' = '-') by decide, if_false, if_true,
        htw, reduceCtorEq, Bool.false_eq_true, decimalValue_digits]
      rw [hv]
      simp
  · simp only [List.singleton_append] at hd
    refine ⟨?_, ?_⟩
    · unfold isIntegerString
      rw [hd]
      simp only [or_true, if_true, reduceCtorEq, if_false]
      exact all_isdigit _ hdig
    · unfold stoll
      rw [hd, List.dropWhile_cons_of_neg (by decide)]
      simp only [if_true, htw, reduceCtorEq, if_false, decimalValue_digits]
      rw [hv]
      simp

theorem isIntegerString_literal (s : String) (h : isIntegerString s = true) :
    ∃ v, IsSignedLiteral s v := by
  unfold isIntegerString at h
  cases hd : s.data with
  | nil => simp [hd] at h
  | cons c cs =>
    simp only [hd] at h
    by_cases hc : c = '+' ∨ c = '-'
    · simp only [hc, if_true] at h
      have hne : cs ≠ [] := by
        intro h0; simp [h0] at h
      simp only [hne, if_false, List.all_eq_true] at h
      refine ⟨_, [c], cs, by simp [hd], ?_, hne, fun x hx => (isdigit_iff x).mp (h x hx), rfl⟩
      rcases hc with rfl | rfl <;> simp
    · simp only [hc, if_false, reduceCtorEq, List.all_eq_true] at h
      exact ⟨_, [], c :: cs, by simp [hd], Or.inl rfl, by simp,
        fun x hx => (isdigit_iff x).mp (h x hx), rfl⟩

theorem EvalState.getValue_setValue (state : EvalState) (var : String) (val : Int) :
    (state.setValue var val).getValue var = some val := by
  induction state with
  | nil => simp [EvalState.setValue, EvalState.getValue]
  | cons e t ih =>
    obtain ⟨x, v⟩ := e
    by_cases h : x = var
    · simp [EvalState.setValue, EvalState.getValue, h]
    · simp [EvalState.setValue, EvalState.getValue, h, ih]

/-- C10: `InputStatement::execute` accepts a trimmed input line if and only if it is a
signed-integer literal (an optional `+` or `-` and one or more decimal digits) whose
value `v` satisfies `-2^31 ≤ v ≤ 2^31 - 1`.  On such a line the call returns normally
with the variable set to exactly `v` and the line consumed (the loop ends); on every
other line the environment is unchanged and the loop goes on with the next line
(prompting again); at end of input the call returns with the environment unchanged. -/
theorem inputStatement_accepts_iff (X : Externals) (var : String) (w : World X.Expression) :
    (w.cin = [] →
      (Statement.InputStatement var).execute X w = (.ok, { w with cout := w.cout ++ " ? " })) ∧
    (∀ line rest, w.cin = line :: rest →
      (∀ v, IsSignedLiteral (trim line) v → INT32_MIN ≤ v → v ≤ INT32_MAX →
        (Statement.InputStatement var).execute X w =
          (.ok, { w with state := w.state.setValue var v, cin := rest,
                         cout := w.cout ++ " ? " ++ trim line ++ "\n" }) ∧
        (w.state.setValue var v).getValue var = some v) ∧
      ((¬ ∃ v, IsSignedLiteral (trim line) v ∧ INT32_MIN ≤ v ∧ v ≤ INT32_MAX) →
        ∃ cout1, (Statement.InputStatement var).execute X w =
          (Statement.InputStatement var).execute X { w with cin := rest, cout := cout1 })) := by
  refine ⟨?_, ?_⟩
  · intro h
    simp [Statement.execute, h, InputStatement.loop]
  · intro line rest h
    refine ⟨?_, ?_⟩
    · intro v hlit hlo hhi
      obtain ⟨h1, h2⟩ := IsSignedLiteral.accepted (trim line) v hlit
      have hlo2 : ¬ v < INT32_MIN := not_lt.mpr hlo
      have hhi2 : ¬ v > INT32_MAX := not_lt.mpr hhi
      have h64 : ¬ (v < -9223372036854775808 ∨ v > 9223372036854775807) := by
        unfold INT32_MIN at hlo
        unfold INT32_MAX at hhi
        omega
      rw [if_neg h64] at h2
      refine ⟨?_, EvalState.getValue_setValue _ _ _⟩
      simp [Statement.execute, h, InputStatement.loop, h1, h2, hlo2, hhi2]
    · intro hno
      by_cases h1 : isIntegerString (trim line) = true
      · obtain ⟨v, hlit⟩ := isIntegerString_literal (trim line) h1
        have h2 := (IsSignedLiteral.accepted (trim line) v hlit).2
        by_cases h64 : v < -9223372036854775808 ∨ v > 9223372036854775807
        · rw [if_pos h64] at h2
          exact ⟨w.cout ++ " ? " ++ trim line ++ "\n" ++ "INVALID NUMBER" ++ "\n",
            by simp [Statement.execute, h, InputStatement.loop, h1, h2]⟩
        · rw [if_neg h64] at h2
          have hr : v < INT32_MIN ∨ v > INT32_MAX := by
            by_contra hc
            push_neg at hc
            exact hno ⟨v, hlit, hc.1, hc.2⟩
          exact ⟨w.cout ++ " ? " ++ trim line ++ "\n" ++ "INVALID NUMBER" ++ "\n",
            by simp [Statement.execute, h, InputStatement.loop, h1, h2, hr]⟩
      · exact ⟨w.cout ++ " ? " ++ "INVALID NUMBER" ++ "\n",
          by simp [Statement.execute, h, InputStatement.loop, h1]⟩

/-- C10 (witness): `INPUT X` reading the line ` -12 `. -/
theorem inputStatement_accepts_iff_witness :
    (World.initial [" -12 ", "5"] : World Reference.Expression).cin = [" -12 ", "5"] ∧
    IsSignedLiteral (trim " -12 ") (-12) ∧ INT32_MIN ≤ -12 ∧ (-12 : Int) ≤ INT32_MAX ∧
    (Statement.InputStatement "X").execute Reference.externals (World.initial [" -12 ", "5"]) =
      (.ok, { (World.initial [" -12 ", "5"] : World Reference.Expression) with
        state := EvalState.setValue [] "X" (-12), cin := ["5"],
        cout := "" ++ " ? " ++ trim " -12 " ++ "\n" }) :=
  have hlit : IsSignedLiteral (trim " -12 ") (-12) :=
    ⟨['-'], ['1', '2'], by decide, Or.inr (Or.inr rfl), by decide,
      by simp [IsDecimalDigit], by decide⟩
  ⟨rfl, hlit, by decide, by decide,
    (((inputStatement_accepts_iff Reference.externals "X" (World.initial [" -12 ", "5"])).2
      " -12 " ["5"] rfl).1 (-12) hlit (by decide) (by decide)).1⟩

/-! ## The store operations, one by one (C11, C12, C13, C14) -/

/-- C11: for every store, line number `n` and statement `stmt`, `setParsedStatement(n,
stmt)` raises, and then with LINE NUMBER ERROR, if and only if `n` has no stored source
text (no entry in the source table).  When it raises, the store (source table, parse
cache, control registers) is unchanged; when it succeeds, `getParsedStatement(n)`
returns `stmt`, and the source table, every other cache entry and the control
registers are unchanged. -/
theorem setParsedStatement_raises_iff {S : Type} (p : Program S) (n : Int) (stmt : S) :
    (p.setParsedStatement n stmt = .error "LINE NUMBER ERROR" ↔ n ∉ p.sourceLines.keys) ∧
    ((∃ e, p.setParsedStatement n stmt = .error e) ↔ n ∉ p.sourceLines.keys) ∧
    (n ∉ p.sourceLines.keys → p.afterSetParsedStatement n stmt = p) ∧
    (n ∈ p.sourceLines.keys →
      p.setParsedStatement n stmt = .ok (p.afterSetParsedStatement n stmt) ∧
      (p.afterSetParsedStatement n stmt).getParsedStatement n = some stmt ∧
      (p.afterSetParsedStatement n stmt).sourceLines = p.sourceLines ∧
      (∀ m, m ≠ n →
        (p.afterSetParsedStatement n stmt).getParsedStatement m = p.getParsedStatement m) ∧
      (p.afterSetParsedStatement n stmt).pendingJump = p.pendingJump ∧
      (p.afterSetParsedStatement n stmt).stopFlag = p.stopFlag) := by
  by_cases hn : n ∈ p.sourceLines.keys
  · obtain ⟨p1, h1⟩ := (Program.setParsedStatement_ok_iff p n stmt).mpr hn
    have h2 := Program.setParsedStatement_ok p p1 n stmt h1
    have h3 : p.afterSetParsedStatement n stmt = p1 := by
      simp [Program.afterSetParsedStatement, h1]
    rw [h3, h1, h2]
    simp only [hn, not_true_eq_false, iff_false, false_implies, true_implies, reduceCtorEq,
      not_false_eq_true, exists_false, Program.getParsedStatement, IntMap.find_assign_self,
      and_self, true_and]
    exact ⟨fun m hm => IntMap.find_assign_of_ne _ _ _ _ hm, trivial⟩
  · have h1 : p.setParsedStatement n stmt = .error "LINE NUMBER ERROR" := by
      unfold Program.setParsedStatement
      rw [(IntMap.find_eq_none_iff _ _).mpr hn]
    have h3 : p.afterSetParsedStatement n stmt = p := by
      simp [Program.afterSetParsedStatement, h1]
    simp [h1, h3, hn]

/-- C11 (witness): line 20 of the sample store is stored, line 30 is not. -/
theorem setParsedStatement_raises_iff_witness :
    (20 : Int) ∈ Program.sampleStore.sourceLines.keys ∧
    (30 : Int) ∉ Program.sampleStore.sourceLines.keys ∧
    (Program.sampleStore.afterSetParsedStatement 20 .RemStatement).getParsedStatement 20
      = some .RemStatement ∧
    Program.sampleStore.afterSetParsedStatement 30 .RemStatement = Program.sampleStore :=
  ⟨by decide, by decide,
    ((setParsedStatement_raises_iff Program.sampleStore 20 .RemStatement).2.2.2
      (by decide)).2.1,
    (setParsedStatement_raises_iff Program.sampleStore 30 .RemStatement).2.2.1 (by decide)⟩

/-- C12: for every store, line number `n` and text, after `addSourceLine(n, text)` the
source text of `n` is `text` and `n` has no cached parse, while for every other line
number `m` both the source entry and the cached parse of `m` are what they were
before, and the control registers are unchanged. -/
theorem addSourceLine_frame {S : Type} (p : Program S) (n : Int) (text : String) :
    (p.addSourceLine n text).sourceLines.find n = some text ∧
    (p.addSourceLine n text).getSourceLine n = text ∧
    (p.addSourceLine n text).getParsedStatement n = none ∧
    (∀ m, m ≠ n →
      (p.addSourceLine n text).sourceLines.find m = p.sourceLines.find m ∧
      (p.addSourceLine n text).getSourceLine m = p.getSourceLine m ∧
      (p.addSourceLine n text).getParsedStatement m = p.getParsedStatement m) ∧
    (p.addSourceLine n text).pendingJump = p.pendingJump ∧
    (p.addSourceLine n text).stopFlag = p.stopFlag := by
  refine ⟨?_, ?_, ?_, ?_, ?_, ?_⟩
  · rw [Program.parsedStmts_addSourceLine]
    exact IntMap.find_assign_self _ _ _
  · rw [Program.getSourceLine_addSourceLine]; simp
  · rw [Program.getParsedStatement_addSourceLine]; simp
  · intro m hm
    refine ⟨?_, ?_, ?_⟩
    · rw [Program.parsedStmts_addSourceLine]
      exact IntMap.find_assign_of_ne _ _ _ _ hm
    · rw [Program.getSourceLine_addSourceLine]; simp [hm]
    · rw [Program.getParsedStatement_addSourceLine]; simp [hm]
  · rw [Program.parsedStmts_addSourceLine]
  · rw [Program.parsedStmts_addSourceLine]

/-- C12 (witness): line 20 of the sample store is edited, line 10 keeps its entry. -/
theorem addSourceLine_frame_witness :
    (10 : Int) ≠ 20 ∧
    (Program.sampleStore.addSourceLine 20 "20 REM").getSourceLine 10
      = Program.sampleStore.getSourceLine 10 ∧
    (Program.sampleStore.addSourceLine 20 "20 REM").getParsedStatement 20 = none :=
  ⟨by decide,
    ((addSourceLine_frame Program.sampleStore 20 "20 REM").2.2.2.1 10 (by decide)).2.1,
    (addSourceLine_frame Program.sampleStore 20 "20 REM").2.2.1⟩

/-- C14 (as amended): the jump register is one-shot.  For every store and every integer
`n` other than `-2`, `hasJump()` is true after `requestJump(n)`; for every `n`,
`consumeJump()` then returns `n`, and right after `consumeJump()` `hasJump()` is false;
`resetControl()` makes `hasJump()` and `stopRequested()` both false. -/
theorem jump_register_one_shot {S : Type} (p : Program S) (n : Int) :
    (n ≠ -2 → (p.requestJump n).hasJump = true) ∧
    (p.requestJump n).consumeJump.1 = n ∧
    (p.requestJump n).consumeJump.2.hasJump = false ∧
    p.consumeJump.2.hasJump = false ∧
    p.resetControl.hasJump = false ∧
    p.resetControl.stopRequested = false := by
  refine ⟨?_, rfl, ?_, ?_, ?_, rfl⟩
  · intro hn
    simp [Program.requestJump, Program.hasJump, hn]
  · simp [Program.requestJump, Program.consumeJump, Program.hasJump]
  · simp [Program.consumeJump, Program.hasJump]
  · simp [Program.resetControl, Program.hasJump]

/-- C14 (witness): a jump to line 10 requested in the sample store. -/
theorem jump_register_one_shot_witness :
    (10 : Int) ≠ -2 ∧ (Program.sampleStore.requestJump 10).hasJump = true ∧
    (Program.sampleStore.requestJump 10).consumeJump.1 = 10 :=
  ⟨by decide, (jump_register_one_shot Program.sampleStore 10).1 (by decide),
    (jump_register_one_shot Program.sampleStore 10).2.1⟩

/-- C14 (counterexample to the claim as stated): after `requestJump(-2)` on the sample
store `hasJump()` is false. -/
theorem jump_register_counterexample :
    (Program.sampleStore.requestJump (-2)).hasJump = false := by
  decide

theorem Program.find_removeSourceLine {S : Type} (p : Program S) (n m : Int) :
    (p.removeSourceLine n).sourceLines.find m =
      if m = n then none else p.sourceLines.find m := by
  unfold Program.removeSourceLine
  by_cases h : m = n
  · subst h
    cases hs : p.sourceLines.find m <;> cases hc : p.parsedStmts.find m <;>
      simp [hc, hs, IntMap.find_erase_self]
  · cases hs : p.sourceLines.find n <;> cases hc : p.parsedStmts.find n <;>
      simp [hc, h, IntMap.find_erase_of_ne _ _ _ h]

theorem Program.registers_removeSourceLine {S : Type} (p : Program S) (n : Int) :
    (p.removeSourceLine n).pendingJump = p.pendingJump ∧
    (p.removeSourceLine n).stopFlag = p.stopFlag := by
  unfold Program.removeSourceLine
  cases hs : p.sourceLines.find n <;> cases hc : p.parsedStmts.find n <;> simp [hc]

theorem processLine_bare_number (X : Externals) (fuel : Nat) (line : String)
    (w : World X.Expression) (first : String) (n : Int)
    (ht : X.tokenize line = [first]) (hnum : X.getTokenType first = .NUMBER)
    (hi : X.stringToInteger first = .ok n) :
    processLine X fuel line w = (.ok, { w with program := w.program.removeSourceLine n }) := by
  unfold processLine
  simp only [ht, hasMoreTokens, List.isEmpty_cons, Bool.not_false, Bool.not_true,
    Bool.false_eq_true, if_false, nextToken]
  rw [if_pos hnum]
  simp only [hi, List.isEmpty_nil, Bool.not_true, Bool.not_false, if_true]

/-- C13: entering a bare line number `n` (a NUMBER token and nothing after it) through
`processLine` calls `removeSourceLine(n)` and raises no error: afterwards `n` has
neither a source entry nor a cached parse, every other line has the source entry and
the cached parse it had, and nothing else has changed.  On any store in which every
cached line is stored and `n` is not stored, `removeSourceLine(n)` leaves the whole
store unchanged. -/
theorem bare_line_number_removes (X : Externals) :
    (∀ (fuel : Nat) (line : String) (w : World X.Expression) (first : String) (n : Int),
      X.tokenize line = [first] → X.getTokenType first = .NUMBER →
      X.stringToInteger first = .ok n →
      processLine X fuel line w =
        (.ok, { w with program := w.program.removeSourceLine n }) ∧
      n ∉ (w.program.removeSourceLine n).sourceLines.keys ∧
      (w.program.removeSourceLine n).getSourceLine n = "" ∧
      (w.program.removeSourceLine n).getParsedStatement n = none ∧
      (∀ m, m ≠ n →
        (w.program.removeSourceLine n).sourceLines.find m = w.program.sourceLines.find m ∧
        (w.program.removeSourceLine n).getParsedStatement m
          = w.program.getParsedStatement m) ∧
      (w.program.removeSourceLine n).pendingJump = w.program.pendingJump ∧
      (w.program.removeSourceLine n).stopFlag = w.program.stopFlag) ∧
    (∀ (p : Program (Statement X.Expression)) (n : Int),
      p.CacheInSource → n ∉ p.sourceLines.keys → p.removeSourceLine n = p) := by
  refine ⟨?_, ?_⟩
  · intro fuel line w first n ht hnum hi
    refine ⟨processLine_bare_number X fuel line w first n ht hnum hi, ?_, ?_, ?_, ?_,
      (Program.registers_removeSourceLine _ n).1, (Program.registers_removeSourceLine _ n).2⟩
    · rw [← IntMap.find_eq_none_iff, Program.find_removeSourceLine]
      simp
    · rw [Program.getSourceLine_removeSourceLine]; simp
    · rw [Program.getParsedStatement_removeSourceLine]; simp
    · intro m hm
      rw [Program.find_removeSourceLine, Program.getParsedStatement_removeSourceLine]
      simp [hm]
  · intro p n hc hn
    rw [Program.removeSourceLine_eq p hc n, IntMap.erase_of_not_mem _ _ hn,
      IntMap.erase_of_not_mem _ _ (fun hm => hn (hc n hm))]

/-- C13 (witness): `20` typed when lines 10, 20 and 30 are stored, and the removal of
the absent line 40. -/
theorem bare_line_number_removes_witness :
    Reference.externals.tokenize "20" = ["20"] ∧
    Reference.externals.getTokenType "20" = .NUMBER ∧
    Reference.externals.stringToInteger "20" = .ok 20 ∧
    processLine Reference.externals 0 "20" Reference.threeLineWorld =
      (.ok, { Reference.threeLineWorld with
        program := Reference.threeLineWorld.program.removeSourceLine 20 }) ∧
    (20 : Int) ∉ (Reference.threeLineWorld.program.removeSourceLine 20).sourceLines.keys ∧
    Reference.threeLineWorld.program.CacheInSource ∧
    (40 : Int) ∉ Reference.threeLineWorld.program.sourceLines.keys ∧
    Reference.threeLineWorld.program.removeSourceLine 40 = Reference.threeLineWorld.program :=
  have h := (bare_line_number_removes Reference.externals).1 0 "20" Reference.threeLineWorld
    "20" 20 (by decide) (by decide) (by decide)
  have hc : Reference.threeLineWorld.program.CacheInSource := by
    unfold Program.CacheInSource
    decide
  ⟨by decide, by decide, by decide, h.1, h.2.1, hc, by decide,
    (bare_line_number_removes Reference.externals).2 _ 40 hc (by decide)⟩

/-! ## A failed construction leaves the text and no parse (C16) -/

/-- C16: when `processLine` is given a numbered line `n <rest>` whose statement
construction fails, the failure reaches the caller as an error, the source text of `n`
afterwards is the full entered line, and `n` has no cached parse afterwards, whatever
was cached for `n` before. -/
theorem failed_construction_keeps_text (X : Externals) (fuel : Nat) (line : String)
    (w : World X.Expression) (n : Int) (scanner1 : TokenScanner) (e : String)
    (h : programLine X line = some (n, scanner1))
    (hfail : constructStatement X scanner1 = .error e) :
    (processLine X fuel line w).1 = .error e ∧
    (processLine X fuel line w).2.program.sourceLines.find n = some line ∧
    (processLine X fuel line w).2.program.getSourceLine n = line ∧
    (processLine X fuel line w).2.program.getParsedStatement n = none := by
  rw [processLine_programLine X fuel line w n scanner1 h, hfail]
  refine ⟨rfl, ?_, ?_, ?_⟩
  · simp only [Program.parsedStmts_addSourceLine]
    exact IntMap.find_assign_self _ _ _
  · simp only [Program.getSourceLine_addSourceLine, if_true]
  · simp only [Program.getParsedStatement_addSourceLine, if_true]

/-- C16 (witness): `10 FOO` entered over a parsed `10 END`. -/
theorem failed_construction_keeps_text_witness :
    programLine Reference.externals "10 FOO" = some (10, ["FOO"]) ∧
    constructStatement Reference.externals ["FOO"] = .error "SYNTAX ERROR" ∧
    (processLine Reference.externals 0 "10 END" (World.initial [])).2.program.getParsedStatement
      10 = some .EndStatement ∧
    (processLine Reference.externals 0 "10 FOO"
      (processLine Reference.externals 0 "10 END" (World.initial [])).2).1
      = .error "SYNTAX ERROR" ∧
    (processLine Reference.externals 0 "10 FOO"
      (processLine Reference.externals 0 "10 END" (World.initial [])).2).2.program.getSourceLine
      10 = "10 FOO" ∧
    (processLine Reference.externals 0 "10 FOO"
      (processLine Reference.externals 0 "10 END"
        (World.initial [])).2).2.program.getParsedStatement 10 = none :=
  have h := failed_construction_keeps_text Reference.externals 0 "10 FOO"
    (processLine Reference.externals 0 "10 END" (World.initial [])).2 10 ["FOO"] "SYNTAX ERROR"
    (by decide) (by decide)
  ⟨by decide, by decide, by decide, h.1, h.2.2.1, h.2.2.2⟩

/-! ## An empty `getSourceLine` means that the line is not stored (C17) -/

theorem Program.sourceLines_ensureParsedForLine (X : Externals)
    (p : Program (Statement X.Expression)) (n : Int) :
    (ensureParsedForLine X p n).2.sourceLines = p.sourceLines ∧
    (ensureParsedForLine X p n).2.pendingJump = p.pendingJump ∧
    (ensureParsedForLine X p n).2.stopFlag = p.stopFlag := by
  rcases ensureParsedForLine_result X p n with h | ⟨stmt, _, _, h⟩
  · rw [h]; exact ⟨rfl, rfl, rfl⟩
  · rw [h]; exact ⟨rfl, rfl, rfl⟩

theorem programLine_ne_empty (X : Externals) (hempty : X.tokenize "" = []) (line : String)
    (n : Int) (sc : TokenScanner) (h : programLine X line = some (n, sc)) : line ≠ "" := by
  rintro rfl
  simp [programLine, hempty] at h

theorem Program.textsNonEmpty_processLine (X : Externals) (hempty : X.tokenize "" = [])
    (fuel : Nat) (line : String) (w : World X.Expression) (h : w.program.TextsNonEmpty) :
    (processLine X fuel line w).2.program.TextsNonEmpty := by
  refine processLine_invariant X (fun p => p.TextsNonEmpty) ?_ ?_ ?_ ?_ ?_ ?_ ?_
    fuel line w h
  · intro fuel line w n sc hw hl
    have hne := programLine_ne_empty X hempty line n sc hl
    have hsrc : (processLine X fuel line w).2.program.sourceLines =
        w.program.sourceLines.assign n line := by
      rw [processLine_programLine X fuel line w n sc hl]
      cases constructStatement X sc with
      | error e => simp only [Program.parsedStmts_addSourceLine]
      | ok stmt => rfl
    intro m text hm
    rw [hsrc] at hm
    by_cases hmn : m = n
    · subst hmn
      rw [IntMap.find_assign_self] at hm
      simp only [Option.some.injEq] at hm
      rw [← hm]; exact hne
    · rw [IntMap.find_assign_of_ne _ _ _ _ hmn] at hm
      exact hw m text hm
  · intro p n hp m text hm
    rw [Program.find_removeSourceLine] at hm
    by_cases hmn : m = n
    · simp [hmn] at hm
    · simp only [hmn, if_false] at hm
      exact hp m text hm
  · intro p _ m text hm
    simp [Program.clear, Program.resetControl, IntMap.find] at hm
  · intro p hp
    exact hp
  · intro p n hp m text hm
    rw [(Program.sourceLines_ensureParsedForLine X p n).1] at hm
    exact hp m text hm
  · intro stmt w hw m text hm
    rw [(Statement.execute_tables X stmt w).1] at hm
    exact hw m text hm
  · intro p hp
    exact hp

/-- C17: provided the scanner delivers no token for the empty text, in every state
reachable from the empty store through `processLine`, for every line number `n`,
`getSourceLine(n)` returns the empty text if and only if no line `n` is stored; every
stored text is non-empty. -/
theorem getSourceLine_empty_iff_not_stored (X : Externals) (hempty : X.tokenize "" = [])
    (w : World X.Expression) (hw : Reachable X w) :
    w.program.TextsNonEmpty ∧
    ∀ n, w.program.getSourceLine n = "" ↔ n ∉ w.program.sourceLines.keys := by
  have h1 : w.program.TextsNonEmpty := by
    induction hw with
    | initial cin =>
      intro n text hn
      simp [World.initial, Program.empty, IntMap.find] at hn
    | step fuel line w _ ih => exact Program.textsNonEmpty_processLine X hempty fuel line w ih
    | input cin w _ ih => exact ih
  refine ⟨h1, fun n => ?_⟩
  rw [← IntMap.find_eq_none_iff]
  unfold Program.getSourceLine
  cases hf : w.program.sourceLines.find n with
  | none => simp
  | some text => simpa using h1 n text hf

/-- C17 (witness): the state after `10 LET X = 5`, `20 PRINT X`, `30 END`. -/
theorem getSourceLine_empty_iff_not_stored_witness :
    Reference.externals.tokenize "" = [] ∧
    Reachable Reference.externals Reference.threeLineWorld ∧
    (Reference.threeLineWorld.program.getSourceLine 25 = "" ↔
      (25 : Int) ∉ Reference.threeLineWorld.program.sourceLines.keys) :=
  have hr : Reachable Reference.externals Reference.threeLineWorld :=
    Reachable.step 0 "30 END" _ (Reachable.step 0 "20 PRINT X" _
      (Reachable.step 0 "10 LET X = 5" _ (Reachable.initial [])))
  ⟨by decide, hr,
    (getSourceLine_empty_iff_not_stored Reference.externals (by decide) _ hr).2 25⟩

/-! ## A line without a cached parse is a line whose construction failed (C20) -/

/-- What `ensureParsedForLine` does at a line without a cached parse. -/
theorem ensureParsedForLine_uncached (X : Externals) (p : Program (Statement X.Expression))
    (n : Int) (hg : p.getParsedStatement n = none) :
    ensureParsedForLine X p n =
      match parseSource X (p.getSourceLine n) with
      | .error e => (.error e, p)
      | .ok stmt =>
        match p.setParsedStatement n stmt with
        | .error e => (.error e, p)
        | .ok p1 => (.ok, p1) := by
  unfold ensureParsedForLine parseSource
  simp only [hg]
  cases ht : X.tokenize (p.getSourceLine n) with
  | nil =>
    simp only [nextToken]
    by_cases hnum : X.getTokenType "" = .NUMBER
    · simp [hnum, hasMoreTokens]
    · simp [hnum]
  | cons lnTok s1 =>
    simp only [nextToken]
    by_cases hnum : X.getTokenType lnTok = .NUMBER
    · simp only [hnum, ne_eq, not_true_eq_false, if_false]
      cases s1 with
      | nil => simp [hasMoreTokens]
      | cons kw s2 =>
        simp only [hasMoreTokens, List.isEmpty_cons, Bool.not_false, Bool.not_true,
          Bool.false_eq_true, if_false, constructStatement, nextToken]
        by_cases hw : X.getTokenType kw = .WORD
        · simp only [hw, ne_eq, not_true_eq_false, if_false]
        · simp [hw]
    · simp [hnum]

theorem reachable_cacheMatchesSource (X : Externals) (w : World X.Expression)
    (hw : Reachable X w) : w.program.CacheMatchesSource X := by
  induction hw with
  | initial cin =>
    intro n stmt hn
    simp [World.initial, Program.empty, Program.getParsedStatement, IntMap.find] at hn
  | step fuel line w _ ih => exact Program.cacheMatchesSource_processLine X fuel line w ih
  | input cin w _ ih => exact ih

theorem Program.enteredLines_of_tables (X : Externals)
    (p q : Program (Statement X.Expression)) (hs : q.sourceLines = p.sourceLines)
    (hc : ∀ n, q.getParsedStatement n = none → p.getParsedStatement n = none)
    (h : p.EnteredLines X) : q.EnteredLines X := by
  intro n text hn
  rw [hs] at hn
  obtain ⟨sc, h1, h2⟩ := h n text hn
  exact ⟨sc, h1, fun hq => h2 (hc n hq)⟩

theorem Program.enteredLines_processLine (X : Externals) (fuel : Nat) (line : String)
    (w : World X.Expression) (h : w.program.EnteredLines X) :
    (processLine X fuel line w).2.program.EnteredLines X := by
  refine processLine_invariant X (fun p => p.EnteredLines X) ?_ ?_ ?_ ?_ ?_ ?_ ?_
    fuel line w h
  · intro fuel line w n sc hw hl
    rw [processLine_programLine X fuel line w n sc hl]
    cases hcs : constructStatement X sc with
    | error e =>
      intro m text hm
      simp only [Program.parsedStmts_addSourceLine] at hm ⊢
      by_cases hmn : m = n
      · subst hmn
        rw [IntMap.find_assign_self] at hm
        simp only [Option.some.injEq] at hm
        subst hm
        exact ⟨sc, hl, fun _ => ⟨e, hcs⟩⟩
      · rw [IntMap.find_assign_of_ne _ _ _ _ hmn] at hm
        obtain ⟨sc2, h1, h2⟩ := hw m text hm
        refine ⟨sc2, h1, fun hq => h2 ?_⟩
        simpa [Program.getParsedStatement, IntMap.find_erase_of_ne _ _ _ hmn] using hq
    | ok stmt =>
      intro m text hm
      simp only at hm ⊢
      by_cases hmn : m = n
      · subst hmn
        rw [IntMap.find_assign_self] at hm
        simp only [Option.some.injEq] at hm
        subst hm
        refine ⟨sc, hl, fun hq => ?_⟩
        simp [Program.getParsedStatement, IntMap.find_assign_self] at hq
      · rw [IntMap.find_assign_of_ne _ _ _ _ hmn] at hm
        obtain ⟨sc2, h1, h2⟩ := hw m text hm
        refine ⟨sc2, h1, fun hq => h2 ?_⟩
        simpa [Program.getParsedStatement, IntMap.find_assign_of_ne _ _ _ _ hmn,
          IntMap.find_erase_of_ne _ _ _ hmn] using hq
  · intro p n hp m text hm
    rw [Program.find_removeSourceLine] at hm
    by_cases hmn : m = n
    · simp [hmn] at hm
    · simp only [hmn, if_false] at hm
      obtain ⟨sc2, h1, h2⟩ := hp m text hm
      refine ⟨sc2, h1, fun hq => h2 ?_⟩
      rw [Program.getParsedStatement_removeSourceLine] at hq
      simpa [hmn] using hq
  · intro p _ m text hm
    simp [Program.clear, Program.resetControl, IntMap.find] at hm
  · intro p hp
    exact Program.enteredLines_of_tables X p _ rfl (fun _ hq => hq) hp
  · intro p n hp
    rcases ensureParsedForLine_result X p n with h1 | ⟨stmt, _, _, h1⟩
    · rw [h1]; exact hp
    · rw [h1]
      refine Program.enteredLines_of_tables X p _ rfl ?_ hp
      intro m hq
      simp only [Program.getParsedStatement] at hq ⊢
      by_cases hmn : m = n
      · subst hmn
        rw [IntMap.find_assign_self] at hq
        cases hq
      · rwa [IntMap.find_assign_of_ne _ _ _ _ hmn] at hq
  · intro stmt w hw
    refine Program.enteredLines_of_tables X w.program _ (Statement.execute_tables X stmt w).1 ?_ hw
    intro m hq
    simp only [Program.getParsedStatement] at hq ⊢
    rwa [(Statement.execute_tables X stmt w).2] at hq
  · intro p hp
    exact Program.enteredLines_of_tables X p _ rfl (fun _ hq => hq) hp

theorem reachable_enteredLines (X : Externals) (w : World X.Expression)
    (hw : Reachable X w) : w.program.EnteredLines X := by
  induction hw with
  | initial cin =>
    intro n text hn
    simp [World.initial, Program.empty, IntMap.find] at hn
  | step fuel line w _ ih => exact Program.enteredLines_processLine X fuel line w ih
  | input cin w _ ih => exact ih

theorem runLoop_ensure_error (X : Externals) (fuel : Nat) (n : Int) (w : World X.Expression)
    (e : String) (hn : n ≠ -1) (h : ensureParsedForLine X w.program n = (.error e, w.program)) :
    runLoop X (fuel + 1) n w = (.error e, w) := by
  rw [runLoop, if_neg hn, h]

/-- C20: in every state reachable from the empty store through `processLine`, every
stored text is a program line for its own number, and the line has no cached parse if
and only if the construction of its statement fails (as it did when the text was
entered: `processLine` on that text ends with that error).  For such a line
`ensureParsedForLine` parses the same stored text, raises the same error and leaves
the store as it is, and a run that reaches the line ends with that error.  In a
reachable state no call of `ensureParsedForLine` at a line without a cached parse
returns normally or changes the store. -/
theorem uncached_iff_construction_failed (X : Externals) (w : World X.Expression)
    (hw : Reachable X w) :
    (∀ n text, w.program.sourceLines.find n = some text →
      ∃ sc, programLine X text = some (n, sc) ∧
        (w.program.getParsedStatement n = none ↔ ∃ e, constructStatement X sc = .error e) ∧
        (∀ e, constructStatement X sc = .error e →
          (∀ fuel w0, (processLine X fuel text w0).1 = .error e) ∧
          parseSource X text = .error e ∧
          ensureParsedForLine X w.program n = (.error e, w.program) ∧
          (n ≠ -1 → ∀ fuel, runLoop X (fuel + 1) n w = (.error e, w)))) ∧
    (∀ n, w.program.getParsedStatement n = none →
      (ensureParsedForLine X w.program n).1 ≠ .ok ∧
      (ensureParsedForLine X w.program n).2 = w.program) := by
  have hent := reachable_enteredLines X w hw
  have hcms := reachable_cacheMatchesSource X w hw
  have key : ∀ n text sc e, w.program.sourceLines.find n = some text →
      programLine X text = some (n, sc) → constructStatement X sc = .error e →
      w.program.getParsedStatement n = none ∧
      ensureParsedForLine X w.program n = (.error e, w.program) := by
    intro n text sc e hf hl he
    have hsrc : w.program.getSourceLine n = text := by
      simp [Program.getSourceLine, hf]
    have hps : parseSource X text = .error e := by
      rw [parseSource_of_programLine X text n sc hl, he]
    have hnone : w.program.getParsedStatement n = none := by
      cases hg : w.program.getParsedStatement n with
      | none => rfl
      | some s =>
        have := hcms n s hg
        rw [hsrc, hps] at this
        cases this
    refine ⟨hnone, ?_⟩
    rw [ensureParsedForLine_uncached X w.program n hnone, hsrc, hps]
  refine ⟨?_, ?_⟩
  · intro n text hf
    obtain ⟨sc, hl, h2⟩ := hent n text hf
    refine ⟨sc, hl, ⟨h2, fun ⟨e, he⟩ => (key n text sc e hf hl he).1⟩, ?_⟩
    intro e he
    have hens := (key n text sc e hf hl he).2
    refine ⟨?_, ?_, hens, fun hn fuel => runLoop_ensure_error X fuel n w e hn hens⟩
    · intro fuel w0
      rw [processLine_programLine X fuel text w0 n sc hl, he]
    · rw [parseSource_of_programLine X text n sc hl, he]
  · intro n hnone
    rw [ensureParsedForLine_uncached X w.program n hnone]
    cases hf : w.program.sourceLines.find n with
    | some text =>
      obtain ⟨sc, hl, h2⟩ := hent n text hf
      obtain ⟨e, he⟩ := h2 hnone
      have hsrc : w.program.getSourceLine n = text := by
        simp [Program.getSourceLine, hf]
      rw [hsrc, parseSource_of_programLine X text n sc hl, he]
      simp
    | none =>
      cases hp : parseSource X (w.program.getSourceLine n) with
      | error e => simp
      | ok stmt =>
        have : w.program.setParsedStatement n stmt = .error "LINE NUMBER ERROR" := by
          unfold Program.setParsedStatement
          rw [hf]
        simp [this]

/-- C20 (witness): after `10 FOO` line 10 is stored without a cached parse, and a run
from it raises the error of the failed construction. -/
theorem uncached_iff_construction_failed_witness :
    Reachable Reference.externals
      (processLine Reference.externals 0 "10 FOO" (World.initial [])).2 ∧
    (processLine Reference.externals 0 "10 FOO"
      (World.initial [])).2.program.sourceLines.find 10 = some "10 FOO" ∧
    (processLine Reference.externals 0 "10 FOO"
      (World.initial [])).2.program.getParsedStatement 10 = none ∧
    ((ensureParsedForLine Reference.externals
      (processLine Reference.externals 0 "10 FOO" (World.initial [])).2.program 10).1 ≠ .ok ∧
     (ensureParsedForLine Reference.externals
      (processLine Reference.externals 0 "10 FOO" (World.initial [])).2.program 10).2 =
      (processLine Reference.externals 0 "10 FOO" (World.initial [])).2.program) ∧
    (Reference.session 3 ["10 FOO", "RUN"] (World.initial [])).cout
      = "SYNTAX ERROR\nSYNTAX ERROR\n" :=
  have hr : Reachable Reference.externals
      (processLine Reference.externals 0 "10 FOO" (World.initial [])).2 :=
    Reachable.step 0 "10 FOO" _ (Reachable.initial [])
  ⟨hr, by decide, by decide,
    (uncached_iff_construction_failed Reference.externals _ hr).2 10 (by decide), by decide⟩

/-! ## The jump register during and between runs (C18, C19) -/

/-- The run loop is the iteration of `runStep`. -/
theorem runLoop_succ (X : Externals) (fuel : Nat) (current : Int) (w : World X.Expression) :
    runLoop X (fuel + 1) current w =
      if current = -1 then (.ok, w)
      else
        match runStep X current w with
        | .done r => r
        | .next current2 w2 => runLoop X fuel current2 w2
        | .jumpMissing w2 => (.error "LINE NUMBER ERROR", w2) := by
  rw [runLoop]
  by_cases hc : current = -1
  · rw [if_pos hc, if_pos hc]
  rw [if_neg hc, if_neg hc]
  unfold runStep
  rcases he : ensureParsedForLine X w.program current with ⟨st, program1⟩
  cases st with
  | ok =>
    simp only
    cases hg : program1.getParsedStatement current with
    | none => rfl
    | some stmt =>
      simp only
      rcases hx : stmt.execute X { w with program := program1 } with ⟨st2, w2⟩
      cases st2 with
      | ok =>
        simp only
        split_ifs <;> rfl
      | error e => rfl
      | exit => rfl
      | outOfFuel => rfl
  | error e => rfl
  | exit => rfl
  | outOfFuel => rfl

/-- One iteration started with no jump pending and no stop requested: it never takes the
loop's own LINE NUMBER ERROR branch, it never changes the source table, it leaves no
jump pending, and when the loop goes on it does so at `-1` or at a stored line, again
with no stop requested. -/
theorem runStep_spec (X : Externals) (current : Int) (w : World X.Expression)
    (hpj : w.program.pendingJump = -2) (hsf : w.program.stopFlag = false) :
    match runStep X current w with
    | .done r =>
      r.2.program.pendingJump = -2 ∧ r.2.program.sourceLines = w.program.sourceLines
    | .next c w2 =>
      w2.program.pendingJump = -2 ∧ w2.program.stopFlag = false ∧
      w2.program.sourceLines = w.program.sourceLines ∧
      (c = -1 ∨ c ∈ w2.program.sourceLines.keys)
    | .jumpMissing _ => False := by
  unfold runStep
  obtain ⟨hs1, hp1, hf1⟩ := Program.sourceLines_ensureParsedForLine X w.program current
  rcases he : ensureParsedForLine X w.program current with ⟨st, program1⟩
  rw [he] at hs1 hp1 hf1
  simp only at hs1 hp1 hf1
  have hdone : program1.pendingJump = -2 ∧ program1.sourceLines = w.program.sourceLines :=
    ⟨hp1.trans hpj, hs1⟩
  cases st with
  | ok =>
    simp only
    cases hg : program1.getParsedStatement current with
    | none => exact hdone
    | some stmt =>
      simp only
      have hprog := Statement.execute_program X stmt { w with program := program1 }
      have htab := (Statement.execute_tables X stmt { w with program := program1 }).1
      have hpend := Statement.execute_pendingJump X stmt { w with program := program1 }
      rcases hx : stmt.execute X { w with program := program1 } with ⟨st2, w2⟩
      rw [hx] at hprog htab hpend
      simp only at hprog htab hpend
      cases st2 with
      | ok =>
        simp only
        by_cases hstop : w2.program.stopRequested = true
        · rw [if_pos hstop]
          refine ⟨?_, htab.trans hs1⟩
          rcases hprog with h1 | ⟨_, h1⟩ | ⟨t, _, _, _, h1⟩
          · rw [h1]; exact hdone.1
          · rw [h1]; exact hdone.1
          · rw [h1] at hstop
            simp [Program.stopRequested, Program.requestJump, hf1, hsf] at hstop
        · rw [if_neg hstop]
          have hstop2 : w2.program.stopFlag = false := by
            simpa [Program.stopRequested] using hstop
          by_cases hj : w2.program.hasJump = true
          · rw [if_pos hj]
            rcases hprog with h1 | ⟨_, h1⟩ | ⟨t, _, _, ht, h1⟩
            · rw [h1] at hj
              simp [Program.hasJump, hdone.1] at hj
            · rw [h1] at hj
              simp [Program.hasJump, Program.requestStop, hdone.1] at hj
            · have hsrc : w2.program.consumeJump.2.getSourceLine w2.program.consumeJump.1
                  ≠ "" := by
                rw [h1]
                exact ht
              simp only [hsrc, if_false]
              refine ⟨rfl, hstop2, htab.trans hs1, Or.inr ?_⟩
              exact Program.mem_keys_of_getSourceLine _ _ hsrc
          · rw [if_neg hj]
            refine ⟨?_, hstop2, htab.trans hs1, Program.getNextLineNumber_mem _ _⟩
            exact (Program.hasJump_eq_false_iff _).mp (by simpa using hj)
      | error e =>
        exact ⟨(hpend (Or.inr (by simp))).trans hdone.1, htab.trans hs1⟩
      | exit =>
        exact ⟨(hpend (Or.inr (by simp))).trans hdone.1, htab.trans hs1⟩
      | outOfFuel =>
        exact ⟨(hpend (Or.inr (by simp))).trans hdone.1, htab.trans hs1⟩
  | error e => exact hdone
  | exit => exact hdone
  | outOfFuel => exact hdone

/-- A run leaves no jump pending, however it ends. -/
theorem runLoop_pendingJump (X : Externals) :
    ∀ (fuel : Nat) (current : Int) (w : World X.Expression),
      w.program.pendingJump = -2 → w.program.stopFlag = false →
      (runLoop X fuel current w).2.program.pendingJump = -2 := by
  intro fuel
  induction fuel with
  | zero =>
    intro current w hpj _
    unfold runLoop
    split_ifs <;> exact hpj
  | succ fuel ih =>
    intro current w hpj hsf
    rw [runLoop_succ]
    by_cases hc : current = -1
    · rw [if_pos hc]; exact hpj
    rw [if_neg hc]
    have hspec := runStep_spec X current w hpj hsf
    cases hr : runStep X current w with
    | done r =>
      rw [hr] at hspec
      exact hspec.1
    | next c w2 =>
      rw [hr] at hspec
      exact ih c w2 hspec.1 hspec.2.1
    | jumpMissing w2 =>
      rw [hr] at hspec
      exact hspec.elim

theorem runProgram_pendingJump (X : Externals) (fuel : Nat) (w : World X.Expression)
    (startLine : Int) : (runProgram X fuel w startLine).2.program.pendingJump = -2 := by
  unfold runProgram
  exact runLoop_pendingJump X fuel startLine _ rfl rfl

theorem processLine_pendingJump (X : Externals) (fuel : Nat) (line : String)
    (w : World X.Expression) (h : w.program.pendingJump = -2) :
    (processLine X fuel line w).2.program.pendingJump = -2 := by
  rcases processLine_cases X fuel line w with ⟨n, sc, hl⟩ | ⟨n, hr⟩ | ⟨st, hr⟩ | ⟨first, sc, _, _, hr⟩
  · rw [processLine_programLine X fuel line w n sc hl]
    cases constructStatement X sc with
    | error e =>
      simp only [Program.parsedStmts_addSourceLine]
      exact h
    | ok stmt => exact h
  · rw [hr]
    exact (Program.registers_removeSourceLine _ n).1.trans h
  · rw [hr]; exact h
  · rw [hr]
    rcases directCommand_cases X fuel (toUpperCase first) sc w _ rfl with
      ⟨cout, h1⟩ | h1 | ⟨start, _, h1⟩ | ⟨stmt, h1, h2⟩ | ⟨stmt, w1, _, _, h1⟩
    · rw [h1]; exact h
    · rw [h1]; rfl
    · rw [h1]; exact runProgram_pendingJump X fuel w start
    · rcases h2 with h2 | h2 | h2
      · rw [h1]
        exact (Statement.execute_pendingJump X stmt w (Or.inl h2)).trans h
      · exact (Program.hasJump_eq_false_iff _).mp h2
      · rw [h1] at h2 ⊢
        exact (Statement.execute_pendingJump X stmt w (Or.inr h2)).trans h
    · rw [h1]; exact runProgram_pendingJump X fuel _ _

theorem Statement.execute_jump_target (X : Externals) (stmt : Statement X.Expression)
    (w w2 : World X.Expression) (hnj : w.program.hasJump = false)
    (hx : stmt.execute X w = (.ok, w2)) (hj : w2.program.hasJump = true) :
    w2.program.getSourceLine w2.program.consumeJump.1 ≠ "" ∧
    w2.program.consumeJump.2.getSourceLine w2.program.consumeJump.1 ≠ "" ∧
    w2.program.consumeJump.1 ∈ w2.program.sourceLines.keys := by
  have hpj := (Program.hasJump_eq_false_iff _).mp hnj
  have hprog := Statement.execute_program X stmt w
  rw [hx] at hprog
  simp only at hprog
  rcases hprog with h1 | ⟨_, h1⟩ | ⟨t, _, _, ht, h1⟩
  · rw [h1] at hj
    simp [Program.hasJump, hpj] at hj
  · rw [h1] at hj
    simp [Program.hasJump, Program.requestStop, hpj] at hj
  · have h3 : w2.program.getSourceLine w2.program.consumeJump.1 ≠ "" := by
      rw [h1]; exact ht
    refine ⟨h3, ?_, Program.mem_keys_of_getSourceLine _ _ h3⟩
    rw [h1]; exact ht

theorem LoopHead.invariant (X : Externals) (w0 : World X.Expression) (startLine : Int)
    (current : Int) (w : World X.Expression) (h : LoopHead X w0 startLine current w) :
    w.program.pendingJump = -2 ∧ w.program.stopFlag = false ∧
    w.program.sourceLines = w0.program.sourceLines ∧
    (startLine ∈ w0.program.sourceLines.keys →
      current = -1 ∨ current ∈ w.program.sourceLines.keys) := by
  induction h with
  | start => exact ⟨rfl, rfl, rfl, fun hs => Or.inr hs⟩
  | next current w current2 w2 _ _ hstep ih =>
    have hspec := runStep_spec X current w ih.1 ih.2.1
    rw [hstep] at hspec
    exact ⟨hspec.1, hspec.2.1, hspec.2.2.1.trans ih.2.2.1, fun _ => hspec.2.2.2⟩

/-- C18: the loop of `runProgram` is the iteration of its body `runStep`.  At every head
of the loop during a run, no jump is pending, no stop is requested and the source table
is the one the run started with; if the run started at a stored line, the current line
is `-1` (the loop ends) or a stored line; and the iteration about to start does not
take the loop's own LINE NUMBER ERROR branch.  The reason: a statement that returns
normally with a jump pending, none being pending before, leaves a target whose source
text is non-empty, and no statement changes the source table.  The three callers start
a run at a stored line: the first line when it is not `-1`, a line whose text has been
found non-empty, or such a target of an `If`. -/
theorem run_loop_jump_check_unreachable (X : Externals) :
    (∀ (fuel : Nat) (current : Int) (w : World X.Expression),
      runLoop X (fuel + 1) current w =
        if current = -1 then (.ok, w)
        else
          match runStep X current w with
          | .done r => r
          | .next current2 w2 => runLoop X fuel current2 w2
          | .jumpMissing w2 => (.error "LINE NUMBER ERROR", w2)) ∧
    (∀ (w0 : World X.Expression) (startLine current : Int) (w : World X.Expression),
      LoopHead X w0 startLine current w →
      w.program.hasJump = false ∧ w.program.stopRequested = false ∧
      w.program.sourceLines = w0.program.sourceLines ∧
      (startLine ∈ w0.program.sourceLines.keys →
        current ≠ -1 → current ∈ w.program.sourceLines.keys) ∧
      (∀ w2, runStep X current w ≠ .jumpMissing w2)) ∧
    (∀ (stmt : Statement X.Expression) (w w2 : World X.Expression),
      w.program.hasJump = false → stmt.execute X w = (.ok, w2) → w2.program.hasJump = true →
      w2.program.getSourceLine w2.program.consumeJump.1 ≠ "" ∧
      w2.program.consumeJump.1 ∈ w2.program.sourceLines.keys) ∧
    (∀ (stmt : Statement X.Expression) (w : World X.Expression),
      (stmt.execute X w).2.program.sourceLines = w.program.sourceLines) ∧
    (∀ p : Program (Statement X.Expression),
      p.getFirstLineNumber ≠ -1 → p.getFirstLineNumber ∈ p.sourceLines.keys) ∧
    (∀ (p : Program (Statement X.Expression)) (target : Int),
      p.getSourceLine target ≠ "" → target ∈ p.sourceLines.keys) := by
  refine ⟨runLoop_succ X, ?_, ?_, fun stmt w => (Statement.execute_tables X stmt w).1,
    fun p hp => Program.getFirstLineNumber_mem p hp,
    fun p target hp => Program.mem_keys_of_getSourceLine p target hp⟩
  · intro w0 startLine current w h
    obtain ⟨hpj, hsf, hsrc, hcur⟩ := LoopHead.invariant X w0 startLine current w h
    refine ⟨(Program.hasJump_eq_false_iff _).mpr hpj, hsf, hsrc, ?_, ?_⟩
    · intro hs hc
      rcases hcur hs with h1 | h1
      · exact absurd h1 hc
      · exact h1
    · intro w2 hstep
      have hspec := runStep_spec X current w hpj hsf
      rw [hstep] at hspec
      exact hspec
  · intro stmt w w2 hnj hx hj
    exact ⟨(Statement.execute_jump_target X stmt w w2 hnj hx hj).1,
      (Statement.execute_jump_target X stmt w w2 hnj hx hj).2.2⟩

/-- C18 (witness): the run of `10 LET X = 5`, `20 PRINT X`, `30 END` from line 10, at its
first two loop heads. -/
theorem run_loop_jump_check_unreachable_witness :
    (10 : Int) ∈ Reference.threeLineWorld.program.sourceLines.keys ∧
    LoopHead Reference.externals Reference.threeLineWorld 10 20
      { Reference.threeLineWorld with
        state := [("X", 5)], program := Reference.threeLineWorld.program.resetControl } ∧
    (20 : Int) ∈ Reference.threeLineWorld.program.sourceLines.keys ∧
    (∀ w2, runStep Reference.externals 20
      { Reference.threeLineWorld with
        state := [("X", 5)], program := Reference.threeLineWorld.program.resetControl }
      ≠ .jumpMissing w2) :=
  have hl : LoopHead Reference.externals Reference.threeLineWorld 10 20
      { Reference.threeLineWorld with
        state := [("X", 5)], program := Reference.threeLineWorld.program.resetControl } :=
    LoopHead.next 10 _ 20 _ LoopHead.start (by decide) (by rfl)
  have h := (run_loop_jump_check_unreachable Reference.externals).2.1
    Reference.threeLineWorld 10 20 _ hl
  ⟨by decide, hl, h.2.2.2.1 (by decide) (by decide), h.2.2.2.2⟩

/-- C19: no stale jump leaks between top-level lines.  In every state reachable from a
freshly constructed `Program` through calls of `processLine` no jump is pending; more
precisely every call of `processLine` started with no jump pending ends, normally or
with an error, with no jump pending.  Consequently a direct-mode `IF` whose operands
evaluate and whose condition is false returns normally with the store, the
environment, the input and the output unchanged: no run is started. -/
theorem no_stale_jump (X : Externals) :
    (∀ w, Reachable X w → w.program.hasJump = false) ∧
    (∀ (fuel : Nat) (line : String) (w : World X.Expression),
      w.program.hasJump = false → (processLine X fuel line w).2.program.hasJump = false) ∧
    (∀ (fuel : Nat) (line : String) (w : World X.Expression) (kw : String)
        (sc : TokenScanner) (lhs rhs : X.Expression) (op : String) (target lv rv : Int),
      w.program.hasJump = false → X.tokenize line = kw :: sc → X.getTokenType kw = .WORD →
      toUpperCase kw = "IF" →
      IfStatement.construct X sc = .ok (.IfStatement lhs op rhs target) →
      X.eval lhs w.state = .ok lv → X.eval rhs w.state = .ok rv →
      IfStatement.cond op lv rv = false →
      processLine X fuel line w = (.ok, w)) := by
  have hstep : ∀ (fuel : Nat) (line : String) (w : World X.Expression),
      w.program.hasJump = false → (processLine X fuel line w).2.program.hasJump = false := by
    intro fuel line w h
    exact (Program.hasJump_eq_false_iff _).mpr
      (processLine_pendingJump X fuel line w ((Program.hasJump_eq_false_iff _).mp h))
  refine ⟨?_, hstep, ?_⟩
  · intro w hw
    induction hw with
    | initial cin => rfl
    | step fuel line w _ ih => exact hstep fuel line w ih
    | input cin w _ ih => exact ih
  · intro fuel line w kw sc lhs rhs op target lv rv hnj ht hkw hup hcon hl hr hc
    have hnum : X.getTokenType kw ≠ .NUMBER := by rw [hkw]; decide
    rw [processLine_word X fuel line w kw sc ht hnum hkw, hup]
    simp [directCommand, hcon, Statement.execute, hl, hr, hc, hnj]

/-- C19 (witness): `IF 1 = 2 THEN 10` typed when lines 10, 20 and 30 are stored. -/
theorem no_stale_jump_witness :
    Reference.threeLineWorld.program.hasJump = false ∧
    Reference.externals.tokenize "IF 1 = 2 THEN 10" = ["IF", "1", "=", "2", "THEN", "10"] ∧
    Reference.externals.getTokenType "IF" = .WORD ∧ toUpperCase "IF" = "IF" ∧
    IfStatement.construct Reference.externals ["1", "=", "2", "THEN", "10"] =
      .ok (.IfStatement (.ConstantExp 1) "=" (.ConstantExp 2) 10) ∧
    IfStatement.cond "=" 1 2 = false ∧
    processLine Reference.externals 5 "IF 1 = 2 THEN 10" Reference.threeLineWorld =
      (.ok, Reference.threeLineWorld) :=
  ⟨by decide, by decide, by decide, by decide, by decide, by decide,
    (no_stale_jump Reference.externals).2.2 5 "IF 1 = 2 THEN 10" Reference.threeLineWorld "IF"
      ["1", "=", "2", "THEN", "10"] (.ConstantExp 1) (.ConstantExp 2) "=" 10 1 2
      (by decide) (by decide) (by decide) (by decide) (by decide) rfl rfl (by decide)⟩

/-! ## Programs without jumps terminate (C15) -/

theorem linesBefore_append_linesFrom {V : Type} (m : IntMap V) (start : Int)
    (h : IntMap.WF m) : m = linesBefore m start ++ linesFrom m start := by
  induction m with
  | nil => rfl
  | cons e t ih =>
    obtain ⟨k, v⟩ := e
    have ht := IntMap.wf_tail _ _ h
    by_cases hk : k < start
    · have h1 : linesBefore ((k, v) :: t) start = (k, v) :: linesBefore t start := by
        simp [linesBefore, hk]
      have h2 : linesFrom ((k, v) :: t) start = linesFrom t start := by
        simp [linesFrom, not_le.mpr hk]
      rw [h1, h2, List.cons_append, ← ih ht]
    · have hle : start ≤ k := not_lt.mp hk
      have hall : ∀ e ∈ t, start ≤ e.1 := by
        intro e he
        have hlt : k < e.1 := by
          simp only [IntMap.WF, IntMap.keys, List.map_cons, List.pairwise_cons] at h
          exact h.1 e.1 (List.mem_map_of_mem _ he)
        omega
      have h1 : linesBefore ((k, v) :: t) start = [] := by
        simp only [linesBefore, List.filter_eq_nil_iff, decide_eq_true_eq, not_lt, List.mem_cons]
        rintro e (rfl | he)
        · exact hle
        · exact hall e he
      have h2 : linesFrom ((k, v) :: t) start = (k, v) :: t := by
        simp only [linesFrom, List.filter_eq_self, decide_eq_true_eq, List.mem_cons]
        rintro e (rfl | he)
        · exact hle
        · exact hall e he
      rw [h1, h2, List.nil_append]

theorem keys_linesFrom {V : Type} (m : IntMap V) (start : Int) :
    IntMap.keys (linesFrom m start) = (IntMap.keys m).filter (fun k => decide (start ≤ k)) := by
  induction m with
  | nil => rfl
  | cons e t ih =>
    obtain ⟨k, v⟩ := e
    by_cases hk : start ≤ k
    · have h2 : linesFrom ((k, v) :: t) start = (k, v) :: linesFrom t start := by
        simp [linesFrom, hk]
      rw [h2]
      simp only [IntMap.keys, List.map_cons] at ih ⊢
      rw [ih]
      simp [hk]
    · have h2 : linesFrom ((k, v) :: t) start = linesFrom t start := by
        simp [linesFrom, hk]
      rw [h2]
      simp only [IntMap.keys, List.map_cons] at ih ⊢
      rw [ih]
      simp [hk]

theorem firstOr_linesFrom {V : Type} (m : IntMap V) (start : Int) (h : IntMap.WF m)
    (hs : start ∈ IntMap.keys m) : firstOr (linesFrom m start) = start := by
  induction m with
  | nil => simp [IntMap.keys] at hs
  | cons e t ih =>
    obtain ⟨k, v⟩ := e
    have ht := IntMap.wf_tail _ _ h
    simp only [IntMap.keys, List.map_cons, List.mem_cons] at hs
    by_cases hk : start ≤ k
    · have h2 : linesFrom ((k, v) :: t) start = (k, v) :: linesFrom t start := by
        simp [linesFrom, hk]
      rw [h2]
      rcases hs with rfl | hs
      · rfl
      · have hlt : k < start := by
          simp only [IntMap.WF, IntMap.keys, List.map_cons, List.pairwise_cons] at h
          exact h.1 start hs
        omega
    · have h2 : linesFrom ((k, v) :: t) start = linesFrom t start := by
        simp [linesFrom, hk]
      rw [h2]
      rcases hs with rfl | hs
      · exact absurd (le_refl _) hk
      · exact ih ht hs

theorem Statement.execute_noJump (X : Externals) (stmt : Statement X.Expression)
    (w : World X.Expression) (hp : stmt.isJump = false) :
    ((stmt.execute X w).1 = .ok ∨ ∃ e, (stmt.execute X w).1 = .error e) ∧
    (stmt.execute X w).2.program =
      (if stmt.isEnd then w.program.requestStop else w.program) := by
  cases stmt with
  | RemStatement => simp [Statement.execute, Statement.isEnd]
  | LetStatement var rhs =>
    cases h : X.eval rhs w.state <;> simp [Statement.execute, Statement.isEnd, h]
  | PrintStatement exp =>
    cases h : X.eval exp w.state <;> simp [Statement.execute, Statement.isEnd, h]
  | EndStatement => simp [Statement.execute, Statement.isEnd]
  | InputStatement var => simp [Statement.execute, Statement.isEnd]
  | GotoStatement target => simp [Statement.isJump] at hp
  | IfStatement lhs op rhs target => simp [Statement.isJump] at hp

theorem runLoop_noJump (X : Externals) (srcs : IntMap String)
    (stmts : IntMap (Statement X.Expression)) (hwf : IntMap.WF srcs)
    (hnn : ∀ n ∈ IntMap.keys srcs, 0 ≤ n) (hkeys : IntMap.keys stmts = IntMap.keys srcs)
    (hnj : ∀ e ∈ stmts, e.2.isJump = false) (sufP : IntMap (Statement X.Expression)) :
    ∀ (preP : IntMap (Statement X.Expression)) (preS sufS : IntMap String) (fuel : Nat)
      (w : World X.Expression),
      stmts = preP ++ sufP → srcs = preS ++ sufS → IntMap.keys sufP = IntMap.keys sufS →
      w.program.sourceLines = srcs → w.program.parsedStmts = stmts →
      w.program.pendingJump = -2 → w.program.stopFlag = false → sufP.length ≤ fuel →
      runLoop X fuel (firstOr sufS) w = execAll X (uptoEnd (sufP.map Prod.snd)) w := by
  induction sufP with
  | nil =>
    intro preP preS sufS fuel w _ _ hk _ _ _ _ _
    cases sufS with
    | nil => cases fuel <;> simp [firstOr, IntMap.firstKey, runLoop, uptoEnd, execAll]
    | cons e t => simp [IntMap.keys] at hk
  | cons e sufP ih =>
    obtain ⟨k, stmt⟩ := e
    intro preP preS sufS fuel w hP hS hk hws hwp hpj hsf hf
    cases sufS with
    | nil => simp [IntMap.keys] at hk
    | cons e2 sufS =>
      obtain ⟨k2, v⟩ := e2
      have hk2 : k = k2 := by
        simp only [IntMap.keys, List.map_cons, List.cons.injEq] at hk
        exact hk.1
      subst hk2
      have hktail : IntMap.keys sufP = IntMap.keys sufS := by
        simp only [IntMap.keys, List.map_cons, List.cons.injEq] at hk
        exact hk.2
      cases fuel with
      | zero => simp at hf
      | succ fuel =>
        have hk0 : 0 ≤ k := by
          apply hnn
          rw [hS]
          simp [IntMap.keys]
        have hk1 : k ≠ -1 := by omega
        have hwfP : IntMap.WF (preP ++ (k, stmt) :: sufP) :=
          hP ▸ IntMap.wf_of_keys_eq stmts srcs hkeys hwf
        have hwfS : IntMap.WF (preS ++ (k, v) :: sufS) := hS ▸ hwf
        have hget : w.program.getParsedStatement k = some stmt := by
          unfold Program.getParsedStatement
          rw [hwp, hP, IntMap.find_append preP sufP k stmt hwfP]
        have hpl : stmt.isJump = false := hnj (k, stmt) (by rw [hP]; simp)
        have hfirst : firstOr ((k, v) :: sufS) = k := rfl
        rw [hfirst, runLoop_step_cached X fuel k w stmt hk1 hget]
        obtain ⟨hst, hprog⟩ := Statement.execute_noJump X stmt w hpl
        rcases hexec : stmt.execute X w with ⟨st, w2⟩
        rw [hexec] at hst hprog
        simp only at hst hprog
        by_cases hend : stmt.isEnd = true
        · have hup : uptoEnd (((k, stmt) :: sufP).map Prod.snd) = [stmt] := by
            simp [uptoEnd, hend]
          rw [hup]
          simp only [hend, if_true] at hprog
          rcases hst with rfl | ⟨e, rfl⟩
          · simp [execAll, hexec, hprog, Program.stopRequested, Program.requestStop]
          · simp [execAll, hexec]
        · have hup : uptoEnd (((k, stmt) :: sufP).map Prod.snd) =
              stmt :: uptoEnd (sufP.map Prod.snd) := by
            simp [uptoEnd, hend]
          rw [hup]
          simp only [hend, Bool.false_eq_true, if_false] at hprog
          rcases hst with rfl | ⟨e, rfl⟩
          · have hnext : w.program.getNextLineNumber k = firstOr sufS := by
              unfold Program.getNextLineNumber firstOr
              rw [hws, hS, IntMap.upperBound_append preS sufS k v hwfS]
            simp only [execAll, hexec, hprog, Program.stopRequested, hsf, Bool.false_eq_true,
              if_false, Program.hasJump, hpj, bne_self_eq_false, hnext]
            rw [← hprog] at hws hwp hpj hsf
            exact ih (preP ++ [(k, stmt)]) (preS ++ [(k, v)]) sufS fuel w2 (by simp [hP])
              (by simp [hS]) hktail hws hwp hpj hsf (by simpa using hf)
          · simp [execAll, hexec]

theorem uptoEnd_subset {E : Type} (stmts : List (Statement E)) (s : Statement E)
    (h : s ∈ uptoEnd stmts) : s ∈ stmts := by
  induction stmts with
  | nil => simp [uptoEnd] at h
  | cons a rest ih =>
    unfold uptoEnd at h
    split_ifs at h
    · simp only [List.mem_singleton] at h
      simp [h]
    · simp only [List.mem_cons] at h ⊢
      rcases h with h | h
      · exact Or.inl h
      · exact Or.inr (ih h)

theorem execAll_status (X : Externals) (stmts : List (Statement X.Expression)) :
    ∀ w : World X.Expression,
      ((execAll X stmts w).1 = .ok ∨ ∃ e, (execAll X stmts w).1 = .error e) ∧
      ((∀ s ∈ stmts, ∀ w2 : World X.Expression, (s.execute X w2).1 = .ok) →
        (execAll X stmts w).1 = .ok) := by
  induction stmts with
  | nil => intro w; simp [execAll]
  | cons s rest ih =>
    intro w
    rcases hx : s.execute X w with ⟨st, w2⟩
    rcases Statement.execute_status X s w with h | ⟨e, h⟩
    · rw [hx] at h
      simp only at h
      subst h
      simp only [execAll, hx]
      refine ⟨(ih w2).1, fun hall => (ih w2).2 (fun s2 hs2 => hall s2 (List.mem_cons_of_mem _ hs2))⟩
    · rw [hx] at h
      simp only [Prod.mk.injEq] at h
      obtain ⟨rfl, rfl⟩ := h
      simp only [execAll, hx]
      refine ⟨Or.inr ⟨e, rfl⟩, fun hall => ?_⟩
      have := hall s (List.mem_cons_self _ _) w2
      rw [hx] at this
      exact this

theorem uptoEnd_length {E : Type} (stmts : List (Statement E)) :
    (uptoEnd stmts).length ≤ stmts.length := by
  induction stmts with
  | nil => simp [uptoEnd]
  | cons s rest ih =>
    unfold uptoEnd
    split_ifs
    · simp
    · simpa using ih

theorem uptoEnd_of_no_end {E : Type} (stmts : List (Statement E))
    (h : ∀ s ∈ stmts, s.isEnd = false) : uptoEnd stmts = stmts := by
  induction stmts with
  | nil => rfl
  | cons s rest ih =>
    unfold uptoEnd
    rw [h s (List.mem_cons_self _ _)]
    simp only [Bool.false_eq_true, if_false, List.cons.injEq, true_and]
    exact ih (fun s2 hs2 => h s2 (List.mem_cons_of_mem _ hs2))

/-- C15: for every stored program (ordered source table, non-negative line numbers) all
of whose lines have a cached statement that is neither a `Goto` nor an `If`,
`runProgram` from any stored start line, with fuel for as many iterations as there are
stored lines at or after the start line, terminates: it does what executing the
statements of those lines in ascending order, each once, up to and including the first
`End`, does, so it executes at most that many statements and ends normally or with the
error a statement raised, and normally when the statements execute without error.
When there is no `End` among them, all of them are executed and the last one is the
statement of the highest stored line. -/
theorem runProgram_without_jumps (X : Externals) (w : World X.Expression) (fuel : Nat)
    (startLine : Int) (hwf : w.program.sourceLines.WF)
    (hnn : ∀ n ∈ w.program.sourceLines.keys, 0 ≤ n)
    (hkeys : w.program.parsedStmts.keys = w.program.sourceLines.keys)
    (hnj : ∀ e ∈ w.program.parsedStmts, e.2.isJump = false)
    (hstart : startLine ∈ w.program.sourceLines.keys)
    (hfuel : (linesFrom w.program.sourceLines startLine).length ≤ fuel) :
    runProgram X fuel w startLine =
      execAll X (uptoEnd ((linesFrom w.program.parsedStmts startLine).map Prod.snd))
        { w with program := w.program.resetControl } ∧
    ((runProgram X fuel w startLine).1 = .ok ∨
      ∃ e, (runProgram X fuel w startLine).1 = .error e) ∧
    ((∀ e ∈ linesFrom w.program.parsedStmts startLine, ∀ w2 : World X.Expression,
        (e.2.execute X w2).1 = .ok) →
      (runProgram X fuel w startLine).1 = .ok) ∧
    (uptoEnd ((linesFrom w.program.parsedStmts startLine).map Prod.snd)).length ≤
      (linesFrom w.program.sourceLines startLine).length ∧
    ((∀ e ∈ linesFrom w.program.parsedStmts startLine, e.2.isEnd = false) →
      uptoEnd ((linesFrom w.program.parsedStmts startLine).map Prod.snd) =
        (linesFrom w.program.parsedStmts startLine).map Prod.snd ∧
      ((linesFrom w.program.parsedStmts startLine).map Prod.snd).getLast? =
        (w.program.parsedStmts.map Prod.snd).getLast?) := by
  have hwfP : IntMap.WF w.program.parsedStmts :=
    IntMap.wf_of_keys_eq _ _ hkeys hwf
  have hkl : IntMap.keys (linesFrom w.program.parsedStmts startLine) =
      IntMap.keys (linesFrom w.program.sourceLines startLine) := by
    rw [keys_linesFrom, keys_linesFrom, hkeys]
  have hlen : (linesFrom w.program.parsedStmts startLine).length =
      (linesFrom w.program.sourceLines startLine).length := by
    have := congrArg List.length hkl
    simpa [IntMap.keys] using this
  have heq : runProgram X fuel w startLine =
      execAll X (uptoEnd ((linesFrom w.program.parsedStmts startLine).map Prod.snd))
        { w with program := w.program.resetControl } := by
    unfold runProgram
    have h := runLoop_noJump X w.program.sourceLines w.program.parsedStmts hwf hnn hkeys hnj
      (linesFrom w.program.parsedStmts startLine)
      (linesBefore w.program.parsedStmts startLine)
      (linesBefore w.program.sourceLines startLine)
      (linesFrom w.program.sourceLines startLine) fuel
      { w with program := w.program.resetControl }
      (linesBefore_append_linesFrom _ _ hwfP) (linesBefore_append_linesFrom _ _ hwf) hkl
      rfl rfl rfl rfl (by omega)
    rw [firstOr_linesFrom _ _ hwf hstart] at h
    exact h
  refine ⟨heq, ?_, ?_, ?_, ?_⟩
  · rw [heq]
    exact (execAll_status X _ _).1
  · intro hall
    rw [heq]
    refine (execAll_status X _ _).2 ?_
    intro s hs w2
    have hs2 : s ∈ (linesFrom w.program.parsedStmts startLine).map Prod.snd :=
      uptoEnd_subset _ s hs
    obtain ⟨e, he, rfl⟩ := List.mem_map.mp hs2
    exact hall e he w2
  · rw [← hlen]
    simpa using uptoEnd_length ((linesFrom w.program.parsedStmts startLine).map Prod.snd)
  · intro hno
    refine ⟨uptoEnd_of_no_end _ ?_, ?_⟩
    · intro s hs
      obtain ⟨e, he, rfl⟩ := List.mem_map.mp hs
      exact hno e he
    · have hne : linesFrom w.program.parsedStmts startLine ≠ [] := by
        intro h0
        have hk := hkl
        rw [h0, keys_linesFrom] at hk
        have : startLine ∈ (IntMap.keys w.program.sourceLines).filter
            (fun k => decide (startLine ≤ k)) := by
          simp [hstart]
        rw [← hk] at this
        simp [IntMap.keys] at this
      conv_rhs => rw [linesBefore_append_linesFrom w.program.parsedStmts startLine hwfP]
      rw [List.map_append, List.getLast?_append_of_ne_nil _ (by simpa using hne)]

/-- C15 (witness): the program `10 LET X = 5`, `20 PRINT X`, `30 END` run from line 20
with fuel for two iterations. -/
theorem runProgram_without_jumps_witness :
    Reference.threeLineWorld.program.sourceLines.WF ∧
    (∀ n ∈ Reference.threeLineWorld.program.sourceLines.keys, 0 ≤ n) ∧
    Reference.threeLineWorld.program.parsedStmts.keys =
      Reference.threeLineWorld.program.sourceLines.keys ∧
    (∀ e ∈ Reference.threeLineWorld.program.parsedStmts, e.2.isJump = false) ∧
    (20 : Int) ∈ Reference.threeLineWorld.program.sourceLines.keys ∧
    (linesFrom Reference.threeLineWorld.program.sourceLines 20).length ≤ 2 ∧
    ((runProgram Reference.externals 2 Reference.threeLineWorld 20).1 = .ok ∨
      ∃ e, (runProgram Reference.externals 2 Reference.threeLineWorld 20).1 = .error e) :=
  have hwf : Reference.threeLineWorld.program.sourceLines.WF := by
    unfold IntMap.WF; decide
  ⟨hwf, by decide, by decide, by decide, by decide, by decide,
    (runProgram_without_jumps Reference.externals Reference.threeLineWorld 2 20 hwf
      (by decide) (by decide) (by decide) (by decide) (by decide)).2.1⟩

end Basic
